import Mathlib

/-! # CHIP-8 interpreter (`chip8.cpp`): shallow embedding and verified properties

The class `Chip8` of `chip8.h` becomes a record of natural numbers and of
arrays seen as functions from the index to the stored value.  The C++ arrays
have fixed sizes (`memory[4096]`, `V[16]`, `stack[16]`, `gfx[2048]`,
`key[16]`) and the source never checks a subscript; a subscript outside the
array is undefined behaviour in C++.  The embedding makes that explicit: every
subscript that is not in range by construction is checked and an out-of-range
one ends the cycle with a `Fault` naming the array and the offending index.
A `Fault` is therefore never something the program reports: it marks a cycle
whose behaviour the source does not define.

Machine integers are natural numbers; where an `unsigned char` or
`unsigned short` can wrap, the reduction modulo `256` or `65536` is written
out.  Subtractions and comparisons that C++ performs on promoted `int`s are
done over the integers.
-/

namespace Chip8Emu

/-- Out-of-range subscript on one of the fixed-size arrays (undefined
behaviour in the source, which performs no bounds check). -/
inductive Fault where
  | memoryIndex (i : Nat)
  | stackIndex (i : Nat)
  | gfxIndex (i : Nat)
  | keyIndex (i : Nat)
  deriving DecidableEq

/-- The data members of `class Chip8` (chip8.h). -/
structure Chip8 where
  opcode : Nat
  memory : Nat → Nat
  V : Nat → Nat
  I : Nat
  pc : Nat
  delay_timer : Nat
  sound_timer : Nat
  stack : Nat → Nat
  sp : Nat
  gfx : Nat → Nat
  key : Nat → Nat
  draw_flag : Bool

/-- Array assignment `a[i] = v`. -/
def store (a : Nat → Nat) (i v : Nat) : Nat → Nat :=
  fun j => if j = i then v else a j

/-- The table `chip8_fontset[80]` (chip8.cpp, lines 18-36). -/
def chip8_fontset : List Nat :=
  [0xF0, 0x90, 0x90, 0x90, 0xF0,
   0x20, 0x60, 0x20, 0x20, 0x70,
   0xF0, 0x10, 0xF0, 0x80, 0xF0,
   0xF0, 0x10, 0xF0, 0x10, 0xF0,
   0x90, 0x90, 0xF0, 0x10, 0x10,
   0xF0, 0x80, 0xF0, 0x10, 0xF0,
   0xF0, 0x80, 0xF0, 0x90, 0xF0,
   0xF0, 0x10, 0x20, 0x40, 0x40,
   0xF0, 0x90, 0xF0, 0x90, 0xF0,
   0xF0, 0x90, 0xF0, 0x10, 0xF0,
   0xF0, 0x90, 0xF0, 0x90, 0x90,
   0xE0, 0x90, 0xE0, 0x90, 0xE0,
   0xF0, 0x80, 0x80, 0x80, 0xF0,
   0xE0, 0x90, 0x90, 0x90, 0xE0,
   0xF0, 0x80, 0xF0, 0x80, 0xF0,
   0xF0, 0x80, 0xF0, 0x80, 0x80]

/-- `Chip8::init` (chip8.cpp, lines 48-89).  Each loop of the source is
written as the array it leaves; `srand` has no effect on the data members. -/
def init (s : Chip8) : Chip8 :=
  { opcode := 0
    pc := 0x200
    I := 0
    sp := 0
    gfx := fun i => if i < 2048 then 0 else s.gfx i
    V := fun i => if i < 16 then 0 else s.V i
    key := fun i => if i < 16 then 0 else s.key i
    stack := fun i => if i < 16 then 0 else s.stack i
    memory := fun i =>
      if i < 80 then chip8_fontset.getD i 0
      else if i < 4096 then 0 else s.memory i
    delay_timer := 0
    sound_timer := 0
    draw_flag := true }

/-- `Chip8::load` (chip8.cpp, lines 93-144).  The file system is abstracted:
`rom` is `none` when the file cannot be opened, allocated or read in full, and
otherwise the bytes read.  The result pairs the returned `bool` with the
machine. -/
def load (s : Chip8) (rom : Option (List Nat)) : Bool × Chip8 :=
  let s0 := init s
  match rom with
  | none => (false, s0)
  | some buffer =>
    if 4096 - 512 > buffer.length then
      let copied : Nat → Nat := fun j =>
        if 512 ≤ j ∧ j < 512 + buffer.length then buffer.getD (j - 512) 0 % 256
        else s0.memory j
      (true, { s0 with memory := copied })
    else (false, s0)

/-- Subscripted read `memory[i]`. -/
def readMemory (s : Chip8) (i : Nat) : Except Fault Nat :=
  if i < 4096 then .ok (s.memory i) else .error (.memoryIndex i)

/-- Subscripted write `memory[i] = v`. -/
def writeMemory (s : Chip8) (i v : Nat) : Except Fault Chip8 :=
  if i < 4096 then .ok { s with memory := store s.memory i v }
  else .error (.memoryIndex i)

/-- Subscripted read `stack[i]`. -/
def readStack (s : Chip8) (i : Nat) : Except Fault Nat :=
  if i < 16 then .ok (s.stack i) else .error (.stackIndex i)

/-- Subscripted write `stack[i] = v`. -/
def writeStack (s : Chip8) (i v : Nat) : Except Fault Chip8 :=
  if i < 16 then .ok { s with stack := store s.stack i v }
  else .error (.stackIndex i)

/-- Subscripted read `gfx[i]`. -/
def readGfx (s : Chip8) (i : Nat) : Except Fault Nat :=
  if i < 2048 then .ok (s.gfx i) else .error (.gfxIndex i)

/-- Subscripted write `gfx[i] = v`. -/
def writeGfx (s : Chip8) (i v : Nat) : Except Fault Chip8 :=
  if i < 2048 then .ok { s with gfx := store s.gfx i v }
  else .error (.gfxIndex i)

/-- Subscripted read `key[i]`. -/
def readKey (s : Chip8) (i : Nat) : Except Fault Nat :=
  if i < 16 then .ok (s.key i) else .error (.keyIndex i)

/-- Register write `V[i] = v`; every register subscript of the source is a
masked nibble, a loop counter bounded by one, or a constant below 16. -/
def setV (s : Chip8) (i v : Nat) : Chip8 :=
  { s with V := store s.V i v }

/-- The register selector `(opcode & 0x0F00) >> 8`. -/
def regX (op : Nat) : Nat := (op &&& 0x0F00) >>> 8

/-- The register selector `(opcode & 0x00F0) >> 4`. -/
def regY (op : Nat) : Nat := (op &&& 0x00F0) >>> 4

/-- Counted loop `for (int i = 0; i < n; i++) body`. -/
def forLoop {σ : Type} (n : Nat) (body : Nat → σ → Except Fault σ) (s : σ) :
    Except Fault σ :=
  match n with
  | 0 => .ok s
  | k + 1 => forLoop k body s >>= body k

/-- `pc += k` on the `unsigned short` program counter. -/
def advance (s : Chip8) (k : Nat) : Chip8 :=
  { s with pc := (s.pc + k) % 65536 }

/-- How the switch statement was left: by reaching its end, or by the
`return` of FX0A, which skips the timer update. -/
inductive Flow where
  | next
  | ret
  deriving DecidableEq

/-- Inner switch of `case 0x0000` (chip8.cpp, lines 164-182). -/
def exec0 (s : Chip8) : Except Fault Chip8 :=
  if s.opcode &&& 0x000F = 0x0000 then
    .ok (advance { s with gfx := fun i => if i < 2048 then 0 else s.gfx i,
                          draw_flag := true } 2)
  else if s.opcode &&& 0x000F = 0x000E then do
    let s1 := { s with sp := (s.sp + 65535) % 65536 }
    let a ← readStack s1 s1.sp
    .ok (advance { s1 with pc := a } 2)
  else .ok s

/-- Inner switch of `case 0x8000` (chip8.cpp, lines 239-320). -/
def exec8 (s : Chip8) : Chip8 :=
  let x := regX s.opcode
  let y := regY s.opcode
  let n := s.opcode &&& 0x000F
  if n = 0x0000 then advance (setV s x (s.V y)) 2
  else if n = 0x0001 then advance (setV s x (s.V x ||| s.V y)) 2
  else if n = 0x0002 then advance (setV s x (s.V x &&& s.V y)) 2
  else if n = 0x0003 then advance (setV s x (s.V x ^^^ s.V y)) 2
  else if n = 0x0004 then
    let s1 := setV s 15 (if (s.V y : Int) > 0xFF - (s.V x : Int) then 1 else 0)
    advance (setV s1 x ((s1.V x + s1.V y) % 256)) 2
  else if n = 0x0005 then
    let s1 := setV s 15 (if s.V y > s.V x then 0 else 1)
    advance (setV s1 x (((s1.V x : Int) - (s1.V y : Int)) % 256).toNat) 2
  else if n = 0x0006 then
    let s1 := setV s 15 (s.V x &&& 1)
    advance (setV s1 x (s1.V x >>> 1)) 2
  else if n = 0x0007 then
    let s1 := setV s 15 (if s.V x > s.V y then 0 else 1)
    advance (setV s1 x (((s1.V y : Int) - (s1.V x : Int)) % 256).toNat) 2
  else if n = 0x000E then
    let s1 := setV s 15 (s.V x >>> 7)
    advance (setV s1 x ((s1.V x <<< 1) % 256)) 2
  else s

/-- Body of the inner loop of DXYN for one sprite bit (chip8.cpp, lines
375-384): the collision test reads `gfx` at the unreduced index, the toggle
writes at the index reduced modulo `64 * 32`. -/
def drawPixel (X Y pixel yline xline : Nat) (s : Chip8) : Except Fault Chip8 :=
  if pixel &&& (0x80 >>> xline) ≠ 0 then do
    let g ← readGfx s (X + xline + (Y + yline) * 64)
    let s1 := if g = 1 then setV s 15 1 else s
    let j := (X + xline + (Y + yline) * 64) % (64 * 32)
    writeGfx s1 j (s1.gfx j ^^^ 1)
  else .ok s

/-- Body of the outer loop of DXYN for one sprite row (chip8.cpp, lines
372-385). -/
def drawRow (X Y yline : Nat) (s : Chip8) : Except Fault Chip8 := do
  let pixel ← readMemory s (s.I + yline)
  forLoop 8 (drawPixel X Y pixel yline) s

/-- The instruction DXYN, `case 0xD000` (chip8.cpp, lines 360-391). -/
def execD (s : Chip8) : Except Fault Chip8 := do
  let X := s.V (regX s.opcode)
  let Y := s.V (regY s.opcode)
  let height := s.opcode &&& 0x000F
  let s1 := setV s 15 0
  let s2 ← forLoop height (drawRow X Y) s1
  .ok (advance { s2 with draw_flag := true } 2)

/-- Inner switch of `case 0xE000` (chip8.cpp, lines 394-420). -/
def execE (s : Chip8) : Except Fault Chip8 :=
  if s.opcode &&& 0x00FF = 0x009E then do
    let k ← readKey s (s.V (regX s.opcode))
    .ok (if k ≠ 0 then advance s 4 else advance s 2)
  else if s.opcode &&& 0x00FF = 0x00A1 then do
    let k ← readKey s (s.V (regX s.opcode))
    .ok (if k = 0 then advance s 4 else advance s 2)
  else .ok s

/-- Body of the key scan of FX0A (chip8.cpp, lines 435-439); the second
component is `key_pressed`. -/
def scanKey (x i : Nat) (p : Chip8 × Bool) : Except Fault (Chip8 × Bool) :=
  if p.1.key i ≠ 0 then .ok (setV p.1 x i, true) else .ok p

/-- The instruction FX0A (chip8.cpp, lines 430-445): scan the sixteen keys,
`return` when none is down, otherwise `pc += 2`. -/
def execFX0A (s : Chip8) : Except Fault (Flow × Chip8) := do
  let p ← forLoop 16 (scanKey (regX s.opcode)) (s, false)
  if p.2 = false then .ok (.ret, p.1) else .ok (.next, advance p.1 2)

/-- The instruction FX33 (chip8.cpp, lines 478-483). -/
def execFX33 (s : Chip8) : Except Fault Chip8 := do
  let x := regX s.opcode
  let s1 ← writeMemory s s.I (s.V x / 100)
  let s2 ← writeMemory s1 (s1.I + 1) ((s1.V x / 10) % 10)
  let s3 ← writeMemory s2 (s2.I + 2) (s2.V x % 10)
  .ok (advance s3 2)

/-- Body of the loop of FX55: `memory[I + i] = V[i]`. -/
def storeReg (i : Nat) (t : Chip8) : Except Fault Chip8 :=
  writeMemory t (t.I + i) (t.V i)

/-- The instruction FX55 (chip8.cpp, lines 489-496). -/
def execFX55 (s : Chip8) : Except Fault Chip8 := do
  let x := regX s.opcode
  let s1 ← forLoop (x + 1) storeReg s
  .ok (advance { s1 with I := (s1.I + (x + 1)) % 65536 } 2)

/-- Body of the loop of FX65: `V[i] = memory[I + i]`. -/
def loadReg (i : Nat) (t : Chip8) : Except Fault Chip8 := do
  let b ← readMemory t (t.I + i)
  .ok (setV t i b)

/-- The instruction FX65 (chip8.cpp, lines 502-509). -/
def execFX65 (s : Chip8) : Except Fault Chip8 := do
  let x := regX s.opcode
  let s1 ← forLoop (x + 1) loadReg s
  .ok (advance { s1 with I := (s1.I + (x + 1)) % 65536 } 2)

/-- Inner switch of `case 0xF000` (chip8.cpp, lines 423-514). -/
def execF (s : Chip8) : Except Fault (Flow × Chip8) :=
  let x := regX s.opcode
  let n := s.opcode &&& 0x00FF
  if n = 0x0007 then .ok (.next, advance (setV s x s.delay_timer) 2)
  else if n = 0x000A then execFX0A s
  else if n = 0x0015 then .ok (.next, advance { s with delay_timer := s.V x } 2)
  else if n = 0x0018 then .ok (.next, advance { s with sound_timer := s.V x } 2)
  else if n = 0x001E then
    let s1 := setV s 0xF (if s.I + s.V x > 0xFFF then 1 else 0)
    .ok (.next, advance { s1 with I := (s1.I + s1.V x) % 65536 } 2)
  else if n = 0x0029 then
    .ok (.next, advance { s with I := (s.V x * 5) % 65536 } 2)
  else if n = 0x0033 then (execFX33 s).map (fun r => (Flow.next, r))
  else if n = 0x0055 then (execFX55 s).map (fun r => (Flow.next, r))
  else if n = 0x0065 then (execFX65 s).map (fun r => (Flow.next, r))
  else .ok (.next, s)

/-- The outer switch on `opcode & 0xF000` (chip8.cpp, lines 159-520).
`case 0xE000` has no `break` after its inner switch and so continues into
`case 0xF000`.  The argument `rnd` is the value `rand()` returns in CXNN. -/
def dispatch (s : Chip8) (rnd : Nat) : Except Fault (Flow × Chip8) :=
  let op := s.opcode
  let t := op &&& 0xF000
  if t = 0x0000 then (exec0 s).map (fun r => (Flow.next, r))
  else if t = 0x1000 then .ok (.next, { s with pc := op &&& 0x0FFF })
  else if t = 0x2000 then do
    let s1 ← writeStack s s.sp s.pc
    .ok (.next, { s1 with sp := (s1.sp + 1) % 65536, pc := op &&& 0x0FFF })
  else if t = 0x3000 then
    .ok (.next, if s.V (regX op) = (op &&& 0x00FF) then advance s 4 else advance s 2)
  else if t = 0x4000 then
    .ok (.next, if s.V (regX op) ≠ (op &&& 0x00FF) then advance s 4 else advance s 2)
  else if t = 0x5000 then
    .ok (.next, if s.V (regX op) = s.V (regY op) then advance s 4 else advance s 2)
  else if t = 0x6000 then .ok (.next, advance (setV s (regX op) (op &&& 0x00FF)) 2)
  else if t = 0x7000 then
    .ok (.next, advance (setV s (regX op) ((s.V (regX op) + (op &&& 0x00FF)) % 256)) 2)
  else if t = 0x8000 then .ok (.next, exec8 s)
  else if t = 0x9000 then
    .ok (.next, if s.V (regX op) ≠ s.V (regY op) then advance s 4 else advance s 2)
  else if t = 0xA000 then .ok (.next, advance { s with I := op &&& 0x0FFF } 2)
  else if t = 0xB000 then .ok (.next, { s with pc := ((op &&& 0x0FFF) + s.V 0) % 65536 })
  else if t = 0xC000 then
    .ok (.next, advance (setV s (regX op) ((rnd % 256) &&& (op &&& 0x00FF))) 2)
  else if t = 0xD000 then (execD s).map (fun r => (Flow.next, r))
  else if t = 0xE000 then execE s >>= execF
  else if t = 0xF000 then execF s
  else .ok (.next, s)

/-- The timer update that ends the cycle (chip8.cpp, lines 523-534). -/
def timers (s : Chip8) : Chip8 :=
  let s1 := if s.delay_timer > 0 then { s with delay_timer := s.delay_timer - 1 } else s
  if s1.sound_timer > 0 then { s1 with sound_timer := s1.sound_timer - 1 } else s1

/-- The fetch `opcode = memory[pc] << 8 | memory[pc + 1]` (chip8.cpp, line
154), stored in the `unsigned short` member `opcode`. -/
def fetch (s : Chip8) : Except Fault Chip8 := do
  let hi ← readMemory s s.pc
  let lo ← readMemory s (s.pc + 1)
  .ok { s with opcode := ((hi <<< 8) ||| lo) % 65536 }

/-- `Chip8::emulateCycle` (chip8.cpp, lines 148-535): fetch, decode and
execute one instruction, then update the timers. -/
def emulateCycle (s : Chip8) (rnd : Nat) : Except Fault Chip8 := do
  let s1 ← fetch s
  let r ← dispatch s1 rnd
  match r.1 with
  | .ret => .ok r.2
  | .next => .ok (timers r.2)

/-- Repeated cycles, as driven by the loop of `main` (main.cpp, line 83);
`rnd i` is the value of `rand()` available to cycle `i`. -/
def run (rnd : Nat → Nat) : Nat → Chip8 → Except Fault Chip8
  | 0, s => .ok s
  | n + 1, s => run rnd n s >>= fun t => emulateCycle t (rnd n)

/-- The instruction word at the program counter is `w`, both of its bytes
lying inside `memory`: the fetch of `emulateCycle` succeeds and yields `w`. -/
def Fetches (s : Chip8) (w : Nat) : Prop :=
  s.pc + 1 < 4096 ∧ ((s.memory s.pc <<< 8) ||| s.memory (s.pc + 1)) % 65536 = w

instance (s : Chip8) (w : Nat) : Decidable (Fetches s w) := by
  unfold Fetches
  infer_instance

/-- A machine with every member zero, used to build concrete machines. -/
def blank : Chip8 :=
  { opcode := 0, memory := fun _ => 0, V := fun _ => 0, I := 0, pc := 0,
    delay_timer := 0, sound_timer := 0, stack := fun _ => 0, sp := 0,
    gfx := fun _ => 0, key := fun _ => 0, draw_flag := false }

/-- The machine after `load` of the program image `rom`. -/
def loaded (rom : List Nat) : Chip8 := (load blank (some rom)).2

/-- The machine `loaded rom` with registers `V0, V1, ...` preset from `regs`
and the index register preset to `idx`. -/
def loadedWith (rom regs : List Nat) (idx : Nat) : Chip8 :=
  { loaded rom with V := fun i => regs.getD i 0, I := idx }

/-- A machine about to execute D011 with V0 = 60, V1 = 0 and I pointing at
the sprite byte 0xFF: one sprite row whose columns 60..67 pass the right edge
of the screen, every linear index staying below 2048. -/
def spriteAtRightEdge : Chip8 := loadedWith [0xD0, 0x11, 0xFF] [60, 0] 0x202

/-- The input collaborator latching key `i` (main.cpp, line 110). -/
def keyDown (s : Chip8) (i : Nat) : Chip8 :=
  { s with key := store s.key i 1 }

/-- A machine about to execute D011 with V0 = 0, V1 = 32 and I pointing at
the sprite byte 0x80: the single set sprite bit has linear index 2048. -/
def spriteBelowScreen : Chip8 := loadedWith [0xD0, 0x11, 0x80] [0, 32] 0x202

/-- The program `6005 6105 5010 1204` loaded at 0x200. -/
def skipProgram : Chip8 := loaded [0x60, 0x05, 0x61, 0x05, 0x50, 0x10, 0x12, 0x04]

/-- The program `2204 0000 2208 0000 00EE` loaded at 0x200: a call at 0x200
to 0x204, a call at 0x204 to 0x208, and a return at 0x208. -/
def callProgram : Chip8 :=
  loaded [0x22, 0x04, 0x00, 0x00, 0x22, 0x08, 0x00, 0x00, 0x00, 0xEE]

/-- A machine about to execute 00EE at 0x200 with one stack entry, 0x300. -/
def returnState : Chip8 :=
  { loaded [0x00, 0xEE] with sp := 1, stack := fun i => if i = 0 then 0x300 else 0 }

/-- The program `2204 0000 00EE` loaded at 0x200: a call at 0x200 to 0x204 and
a return at 0x204. -/
def callReturnProgram : Chip8 := loaded [0x22, 0x04, 0x00, 0x00, 0x00, 0xEE]

/-- A machine about to execute 2300 at 0x200 with sixteen stack entries. -/
def fullStackCall : Chip8 :=
  { loaded [0x23, 0x00] with sp := 16, stack := fun i => if i < 16 then 0x200 + 2 * i else 0 }

/-- A machine about to execute 00EE at 0x200 with an empty stack. -/
def emptyStackReturn : Chip8 := loaded [0x00, 0xEE]

/-- The low byte of `w` selects no `case` of the inner switch of
`case 0xF000`. -/
def NoCaseF (w : Nat) : Prop :=
  w &&& 0x00FF ≠ 0x0007 ∧ w &&& 0x00FF ≠ 0x000A ∧ w &&& 0x00FF ≠ 0x0015 ∧
  w &&& 0x00FF ≠ 0x0018 ∧ w &&& 0x00FF ≠ 0x001E ∧ w &&& 0x00FF ≠ 0x0029 ∧
  w &&& 0x00FF ≠ 0x0033 ∧ w &&& 0x00FF ≠ 0x0055 ∧ w &&& 0x00FF ≠ 0x0065

/-- The instruction word `w` is decoded to `default` branches only: family 0
with a low nibble other than 0 and E, family 8 with a low nibble other than
0..7 and E, family F with a low byte that selects no case, family E with a low
byte that is neither 9E nor A1 and selects no case of family F either. -/
def ReachesDefault (w : Nat) : Prop :=
  (w &&& 0xF000 = 0x0000 ∧ w &&& 0x000F ≠ 0x0000 ∧ w &&& 0x000F ≠ 0x000E) ∨
  (w &&& 0xF000 = 0x8000 ∧ 0x0007 < w &&& 0x000F ∧ w &&& 0x000F ≠ 0x000E) ∨
  (w &&& 0xF000 = 0xF000 ∧ NoCaseF w) ∨
  (w &&& 0xF000 = 0xE000 ∧ w &&& 0x00FF ≠ 0x009E ∧ w &&& 0x00FF ≠ 0x00A1 ∧ NoCaseF w)

instance (w : Nat) : Decidable (ReachesDefault w) := by
  unfold ReachesDefault NoCaseF
  infer_instance

/-- A machine about to execute the undefined word 8008 at 0x200. -/
def unknownWord : Chip8 := loaded [0x80, 0x08]

/-- A machine about to execute the word 0010, which is no defined encoding,
with the first frame-buffer cell lit. -/
def strayClear : Chip8 :=
  { loaded [0x00, 0x10] with gfx := fun i => if i = 0 then 1 else 0 }

/-- A machine about to execute F033 with V0 = 234 and I = 0x300. -/
def bcdState : Chip8 := loadedWith [0xF0, 0x33] [234] 0x300

/-- The program `F555 F565` loaded at 0x200, with V0..V5 = 1..6 and
I = 0x300. -/
def roundTripStart : Chip8 := loadedWith [0xF5, 0x55, 0xF5, 0x65] [1, 2, 3, 4, 5, 6] 0x300

/-- Registers, memory, I, stack, stack pointer, frame buffer, key latch and
dirty flag of `t` are those of `s`. -/
def SameData (s t : Chip8) : Prop :=
  t.V = s.V ∧ t.memory = s.memory ∧ t.I = s.I ∧ t.stack = s.stack ∧ t.sp = s.sp ∧
  t.gfx = s.gfx ∧ t.key = s.key ∧ t.draw_flag = s.draw_flag

/-- What the drawing loops of DXYN leave alone: every member except `gfx`
and the register VF. -/
def DrawFrame (u t : Chip8) : Prop :=
  t.memory = u.memory ∧ t.I = u.I ∧ t.pc = u.pc ∧ t.opcode = u.opcode ∧
  t.stack = u.stack ∧ t.sp = u.sp ∧ t.key = u.key ∧
  t.delay_timer = u.delay_timer ∧ t.sound_timer = u.sound_timer ∧
  t.draw_flag = u.draw_flag ∧ ∀ i, i ≠ 15 → t.V i = u.V i

/-- A machine about to execute F055 with I = 0x300. -/
def storeV0 : Chip8 := loadedWith [0xF0, 0x55] [7] 0x300

/-- A machine about to execute F565 with I = 0x300. -/
def loadV0toV5 : Chip8 := loadedWith [0xF5, 0x65] [] 0x300

/-- Frame buffer, dirty flag, timers and key latch of `t` are those of `u`. -/
def Quiet (u t : Chip8) : Prop :=
  t.gfx = u.gfx ∧ t.draw_flag = u.draw_flag ∧ t.delay_timer = u.delay_timer ∧
  t.sound_timer = u.sound_timer ∧ t.key = u.key

/-- The word sets a timer: family E or F with low byte 0x15 or 0x18. -/
def SetsTimer (w : Nat) : Prop :=
  (w &&& 0xF000 = 0xE000 ∨ w &&& 0xF000 = 0xF000) ∧
  (w &&& 0x00FF = 0x0015 ∨ w &&& 0x00FF = 0x0018)

/-- The word is decoded as clear-screen (family 0, low nibble 0) or as
draw-sprite (family D). -/
def TouchesScreen (w : Nat) : Prop :=
  (w &&& 0xF000 = 0x0000 ∧ w &&& 0x000F = 0x0000) ∨ w &&& 0xF000 = 0xD000

instance (w : Nat) : Decidable (SetsTimer w) := by
  unfold SetsTimer
  infer_instance

instance (w : Nat) : Decidable (TouchesScreen w) := by
  unfold TouchesScreen
  infer_instance

/-- The word is a key wait: family E or F with low byte 0x0A. -/
def WaitsForKey (w : Nat) : Prop :=
  (w &&& 0xF000 = 0xE000 ∨ w &&& 0xF000 = 0xF000) ∧ w &&& 0x00FF = 0x000A

instance (w : Nat) : Decidable (WaitsForKey w) := by
  unfold WaitsForKey
  infer_instance

/-- The cycle of `u` on the word `w` runs the timer update on timers that the
instruction left alone: `w` sets no timer and is not a key wait executed with
no key down. -/
def TimerNeutral (u : Chip8) (w : Nat) : Prop :=
  ¬ SetsTimer w ∧ ¬ (WaitsForKey w ∧ ∀ i < 16, u.key i = 0)

instance (u : Chip8) (w : Nat) : Decidable (TimerNeutral u w) := by
  unfold TimerNeutral
  infer_instance

/-- A machine about to execute F00A with no key down, delay timer 5 and sound
timer 3. -/
def waitingNoKey : Chip8 := { loaded [0xF0, 0x0A] with delay_timer := 5, sound_timer := 3 }

/-- A machine about to execute E015, a word of family E with low byte 0x15,
with V0 = 9 and both timers 0. -/
def strayTimerSet : Chip8 := loadedWith [0xE0, 0x15] [9] 0

/-- Seven register loads `6001 .. 6007` at 0x200, with delay timer 5. -/
def countdown : Chip8 :=
  { loaded [0x60, 0x01, 0x60, 0x02, 0x60, 0x03, 0x60, 0x04, 0x60, 0x05, 0x60, 0x06,
      0x60, 0x07] with delay_timer := 5 }

/-- A machine about to execute F30A with keys 2 and 9 down. -/
def waitingTwoKeys : Chip8 := keyDown (keyDown (loaded [0xF3, 0x0A]) 2) 9

/-- Cell `j` is the target of a set bit of the `N`-row sprite stored at I,
drawn at `(vx, vy)`: its linear index is `vx + c + (vy + r) * 64` for a row
`r < N` and a column `c < 8` whose bit is set in `memory[I + r]`. -/
def SpriteHit (s : Chip8) (vx vy N j : Nat) : Prop :=
  ∃ r < N, ∃ c < 8, s.memory (s.I + r) &&& (0x80 >>> c) ≠ 0 ∧ vx + c + (vy + r) * 64 = j

instance (s : Chip8) (vx vy N j : Nat) : Decidable (SpriteHit s vx vy N j) :=
  inferInstanceAs (Decidable (∃ r < N, ∃ c < 8,
    s.memory (s.I + r) &&& (0x80 >>> c) ≠ 0 ∧ vx + c + (vy + r) * 64 = j))

/-- A set bit of the `N`-row sprite stored at I, drawn at `(vx, vy)`, falls on
a cell that holds 1. -/
def SpriteCollides (s : Chip8) (vx vy N : Nat) : Prop :=
  ∃ r < N, ∃ c < 8, s.memory (s.I + r) &&& (0x80 >>> c) ≠ 0 ∧
    s.gfx (vx + c + (vy + r) * 64) = 1

instance (s : Chip8) (vx vy N : Nat) : Decidable (SpriteCollides s vx vy N) :=
  inferInstanceAs (Decidable (∃ r < N, ∃ c < 8,
    s.memory (s.I + r) &&& (0x80 >>> c) ≠ 0 ∧ s.gfx (vx + c + (vy + r) * 64) = 1))

/-- The program `D011 D011` at 0x200 followed by the sprite byte 0xFF, with
V0 = 60, V1 = 0, I pointing at the sprite and cell 61 lit. -/
def drawTwice : Chip8 :=
  { loadedWith [0xD0, 0x11, 0xD0, 0x11, 0xFF] [60, 0] 0x204 with
    gfx := fun i => if i = 61 then 1 else 0 }

/-- The program `D011 D011` at 0x200 followed by the sprite byte 0x80, with
V0 = V1 = 0, I pointing at the sprite and a dark screen. -/
def drawTwiceDark : Chip8 := loadedWith [0xD0, 0x11, 0xD0, 0x11, 0x80] [0, 0] 0x204

/-- A machine about to execute the all-zero word 0000 at 0x200, with cell 5 lit
and the dirty flag down. -/
def zeroWordLit : Chip8 :=
  { loaded [] with gfx := fun i => if i = 5 then 1 else 0, draw_flag := false }

/-- A machine about to execute 6A07 with cell 5 lit and the dirty flag down. -/
def loadImmediateLit : Chip8 :=
  { loaded [0x6A, 0x07] with gfx := fun i => if i = 5 then 1 else 0, draw_flag := false }

/-- The machine `s` with `w` as its instruction word (member `opcode`). -/
def withOpcode (s : Chip8) (w : Nat) : Chip8 := { s with opcode := w }

/-- One cycle of the machine `s` on the instruction word `w`: what
`emulateCycle` does once its fetch has stored `w` in `opcode` (the switch, then
the timer update unless the switch was left by `return`). -/
def cycleOn (s : Chip8) (w rnd : Nat) : Except Fault Chip8 := do
  let r ← dispatch (withOpcode s w) rnd
  match r.1 with
  | .ret => .ok r.2
  | .next => .ok (timers r.2)

/-- A machine about to execute E155, a word of family E with low byte 0x55,
with V0 = 7, V1 = 8 and I = 0x300. -/
def strayStore : Chip8 := loadedWith [0xE1, 0x55] [7, 8] 0x300

/-- A machine about to execute F015 with V0 = 9 and both timers 0. -/
def setDelay : Chip8 := loadedWith [0xF0, 0x15] [9] 0

/-- A machine about to execute F018 with V0 = 1 and both timers 0. -/
def setSound : Chip8 := loadedWith [0xF0, 0x18] [1] 0

/-- A machine about to execute F207 with delay timer 5. -/
def readDelay : Chip8 := { loaded [0xF2, 0x07] with delay_timer := 5 }

theorem and_shiftLeft_mask (v m k : Nat) :
    v &&& (m <<< k) = ((v >>> k) &&& m) <<< k := by
  apply Nat.eq_of_testBit_eq
  intro i
  simp only [Nat.testBit_and, Nat.testBit_shiftLeft, Nat.testBit_shiftRight]
  by_cases h : k ≤ i
  · have : k + (i - k) = i := by omega
    simp [h, this]
  · simp [h]

theorem shiftRight_mask (v m k : Nat) :
    (v &&& (m <<< k)) >>> k = (v >>> k) &&& m := by
  apply Nat.eq_of_testBit_eq
  intro i
  simp [Nat.testBit_and, Nat.testBit_shiftLeft, Nat.testBit_shiftRight]

theorem and_F000 (w : Nat) : w &&& 0xF000 = w / 4096 % 16 * 4096 := by
  have h := and_shiftLeft_mask w 15 12
  have h2 := Nat.and_pow_two_sub_one_eq_mod (w >>> 12) 4
  have h3 : (15 : Nat) <<< 12 = 0xF000 := rfl
  rw [h3] at h
  norm_num at h2
  rw [h, h2, Nat.shiftLeft_eq, Nat.shiftRight_eq_div_pow]

theorem regX_eq (w : Nat) : regX w = w / 256 % 16 := by
  have h := shiftRight_mask w 15 8
  have h2 := Nat.and_pow_two_sub_one_eq_mod (w >>> 8) 4
  have h3 : (15 : Nat) <<< 8 = 0x0F00 := rfl
  rw [h3] at h
  norm_num at h2
  unfold regX
  rw [h, h2, Nat.shiftRight_eq_div_pow]

theorem regY_eq (w : Nat) : regY w = w / 16 % 16 := by
  have h := shiftRight_mask w 15 4
  have h2 := Nat.and_pow_two_sub_one_eq_mod (w >>> 4) 4
  have h3 : (15 : Nat) <<< 4 = 0x00F0 := rfl
  rw [h3] at h
  norm_num at h2
  unfold regY
  rw [h, h2, Nat.shiftRight_eq_div_pow]

theorem and_000F (w : Nat) : w &&& 0x000F = w % 16 := by
  have h2 := Nat.and_pow_two_sub_one_eq_mod w 4
  norm_num at h2
  exact h2

theorem and_00FF (w : Nat) : w &&& 0x00FF = w % 256 := by
  have h2 := Nat.and_pow_two_sub_one_eq_mod w 8
  norm_num at h2
  exact h2

theorem and_0FFF (w : Nat) : w &&& 0x0FFF = w % 4096 := by
  have h2 := Nat.and_pow_two_sub_one_eq_mod w 12
  norm_num at h2
  exact h2

/-! ## Frame lemmas for the state updates -/

@[simp] theorem timers_V (s : Chip8) : (timers s).V = s.V := by
  unfold timers; dsimp only; split_ifs <;> rfl

@[simp] theorem timers_pc (s : Chip8) : (timers s).pc = s.pc := by
  unfold timers; dsimp only; split_ifs <;> rfl

@[simp] theorem timers_I (s : Chip8) : (timers s).I = s.I := by
  unfold timers; dsimp only; split_ifs <;> rfl

@[simp] theorem timers_memory (s : Chip8) : (timers s).memory = s.memory := by
  unfold timers; dsimp only; split_ifs <;> rfl

@[simp] theorem timers_stack (s : Chip8) : (timers s).stack = s.stack := by
  unfold timers; dsimp only; split_ifs <;> rfl

@[simp] theorem timers_sp (s : Chip8) : (timers s).sp = s.sp := by
  unfold timers; dsimp only; split_ifs <;> rfl

@[simp] theorem timers_gfx (s : Chip8) : (timers s).gfx = s.gfx := by
  unfold timers; dsimp only; split_ifs <;> rfl

@[simp] theorem timers_key (s : Chip8) : (timers s).key = s.key := by
  unfold timers; dsimp only; split_ifs <;> rfl

@[simp] theorem timers_draw_flag (s : Chip8) : (timers s).draw_flag = s.draw_flag := by
  unfold timers; dsimp only; split_ifs <;> rfl

@[simp] theorem timers_opcode (s : Chip8) : (timers s).opcode = s.opcode := by
  unfold timers; dsimp only; split_ifs <;> rfl

theorem fetch_of_fetches {s : Chip8} {w : Nat} (h : Fetches s w) :
    fetch s = .ok { s with opcode := w } := by
  obtain ⟨hpc, hw⟩ := h
  have h0 : s.pc < 4096 := by omega
  simp [fetch, readMemory, hpc, h0, hw, bind, Except.bind]

/-- The cycle of a machine whose fetch yields `w`: dispatch on `w`, then the
timer update unless the switch was left by `return`. -/
theorem emulateCycle_of_fetches {s : Chip8} {w : Nat} (rnd : Nat) (h : Fetches s w) :
    emulateCycle s rnd =
      (dispatch { s with opcode := w } rnd >>= fun r =>
        match r.1 with
        | .ret => .ok r.2
        | .next => .ok (timers r.2)) := by
  unfold emulateCycle
  rw [fetch_of_fetches h]
  rfl

/-! ## Arithmetic with flag: 8XY4, 8XY5, 8XY7 (C1) -/

theorem decode8 {X Y n : Nat} (hX : X < 16) (hY : Y < 16) (hn : n < 16) :
    (0x8000 + 256 * X + 16 * Y + n) &&& 0xF000 = 0x8000 ∧
    regX (0x8000 + 256 * X + 16 * Y + n) = X ∧
    regY (0x8000 + 256 * X + 16 * Y + n) = Y ∧
    (0x8000 + 256 * X + 16 * Y + n) &&& 0x000F = n := by
  rw [and_F000, regX_eq, regY_eq, and_000F]
  omega

/-- C1: for register indices X and Y in 0..14, one cycle executing 8XY4 leaves
VX = (VX + VY) mod 256 and VF = 1 exactly when VX + VY > 255; 8XY5 leaves
VX = (VX - VY) mod 256 and VF = 0 exactly when VY > VX; 8XY7 leaves
VX = (VY - VX) mod 256 and VF = 0 exactly when VX > VY (operands read before
the instruction).  In each case the cycle succeeds, PC advances by 2 and every
register other than VX and VF keeps its value. -/
theorem arith_flag_8XY4_8XY5_8XY7 (s : Chip8) (rnd X Y : Nat) (hX : X < 15) (hY : Y < 15) :
    (Fetches s (0x8000 + 256 * X + 16 * Y + 4) →
      ∃ t, emulateCycle s rnd = .ok t ∧
        t.V X = (s.V X + s.V Y) % 256 ∧
        t.V 15 = (if s.V X + s.V Y > 255 then 1 else 0) ∧
        t.pc = s.pc + 2 ∧ ∀ i, i ≠ X → i ≠ 15 → t.V i = s.V i) ∧
    (Fetches s (0x8000 + 256 * X + 16 * Y + 5) →
      ∃ t, emulateCycle s rnd = .ok t ∧
        (t.V X : Int) = ((s.V X : Int) - (s.V Y : Int)) % 256 ∧
        t.V 15 = (if s.V Y > s.V X then 0 else 1) ∧
        t.pc = s.pc + 2 ∧ ∀ i, i ≠ X → i ≠ 15 → t.V i = s.V i) ∧
    (Fetches s (0x8000 + 256 * X + 16 * Y + 7) →
      ∃ t, emulateCycle s rnd = .ok t ∧
        (t.V X : Int) = ((s.V Y : Int) - (s.V X : Int)) % 256 ∧
        t.V 15 = (if s.V X > s.V Y then 0 else 1) ∧
        t.pc = s.pc + 2 ∧ ∀ i, i ≠ X → i ≠ 15 → t.V i = s.V i) := by
  have hX15 : ¬ X = 15 := by omega
  have hY15 : ¬ Y = 15 := by omega
  have h15X : ¬ 15 = X := by omega
  have hX16 : X < 16 := by omega
  have hY16 : Y < 16 := by omega
  refine ⟨fun h => ?_, fun h => ?_, fun h => ?_⟩
  · obtain ⟨d1, d2, d3, d4⟩ := decode8 hX16 hY16 (show 4 < 16 by decide)
    have hpc : (s.pc + 2) % 65536 = s.pc + 2 := by have := h.1; omega
    rw [emulateCycle_of_fetches rnd h]
    simp [dispatch, exec8, d1, d2, d3, d4, bind, Except.bind, advance, setV, store,
      hX15, hY15, h15X, hpc]
    refine ⟨?_, fun i h1 h2 => by simp [h1, h2]⟩
    split_ifs <;> omega
  · obtain ⟨d1, d2, d3, d4⟩ := decode8 hX16 hY16 (show 5 < 16 by decide)
    have hpc : (s.pc + 2) % 65536 = s.pc + 2 := by have := h.1; omega
    rw [emulateCycle_of_fetches rnd h]
    simp [dispatch, exec8, d1, d2, d3, d4, bind, Except.bind, advance, setV, store,
      hX15, hY15, h15X, hpc]
    exact ⟨by omega, fun i h1 h2 => by simp [h1, h2]⟩
  · obtain ⟨d1, d2, d3, d4⟩ := decode8 hX16 hY16 (show 7 < 16 by decide)
    have hpc : (s.pc + 2) % 65536 = s.pc + 2 := by have := h.1; omega
    rw [emulateCycle_of_fetches rnd h]
    simp [dispatch, exec8, d1, d2, d3, d4, bind, Except.bind, advance, setV, store,
      hX15, hY15, h15X, hpc]
    exact ⟨by omega, fun i h1 h2 => by simp [h1, h2]⟩


/-- C1 at concrete machines: 8014 with V0 = 200, V1 = 100 gives V0 = 44 and
VF = 1; 8015 with V0 = 3, V1 = 5 gives V0 = 254 and VF = 0; 8017 with the same
registers gives V0 = 2 and VF = 1. -/
theorem arith_flag_8XY4_8XY5_8XY7_witness :
    (0 < 15 ∧ 1 < 15 ∧ Fetches (loadedWith [0x80, 0x14] [200, 100] 0) (0x8000 + 256 * 0 + 16 * 1 + 4) ∧
      ∃ t, emulateCycle (loadedWith [0x80, 0x14] [200, 100] 0) 0 = .ok t ∧
        t.V 0 = 44 ∧ t.V 15 = 1 ∧ t.pc = 0x202) ∧
    (Fetches (loadedWith [0x80, 0x15] [3, 5] 0) (0x8000 + 256 * 0 + 16 * 1 + 5) ∧
      ∃ t, emulateCycle (loadedWith [0x80, 0x15] [3, 5] 0) 0 = .ok t ∧
        t.V 0 = 254 ∧ t.V 15 = 0 ∧ t.pc = 0x202) ∧
    (Fetches (loadedWith [0x80, 0x17] [3, 5] 0) (0x8000 + 256 * 0 + 16 * 1 + 7) ∧
      ∃ t, emulateCycle (loadedWith [0x80, 0x17] [3, 5] 0) 0 = .ok t ∧
        t.V 0 = 2 ∧ t.V 15 = 1 ∧ t.pc = 0x202) := by
  refine ⟨⟨by decide, by decide, by decide, ?_⟩, ⟨by decide, ?_⟩, ⟨by decide, ?_⟩⟩
  · obtain ⟨t, h1, h2, h3, h4, _⟩ :=
      (arith_flag_8XY4_8XY5_8XY7 (loadedWith [0x80, 0x14] [200, 100] 0) 0 0 1
        (by decide) (by decide)).1 (by decide)
    exact ⟨t, h1, h2, h3, h4⟩
  · obtain ⟨t, h1, h2, h3, h4, _⟩ :=
      (arith_flag_8XY4_8XY5_8XY7 (loadedWith [0x80, 0x15] [3, 5] 0) 0 0 1
        (by decide) (by decide)).2.1 (by decide)
    have h2n : (t.V 0 : Int) = (254 : Nat) := h2
    exact ⟨t, h1, Int.ofNat.inj h2n, h3, h4⟩
  · obtain ⟨t, h1, h2, h3, h4, _⟩ :=
      (arith_flag_8XY4_8XY5_8XY7 (loadedWith [0x80, 0x17] [3, 5] 0) 0 0 1
        (by decide) (by decide)).2.2 (by decide)
    have h2n : (t.V 0 : Int) = (2 : Nat) := h2
    exact ⟨t, h1, Int.ofNat.inj h2n, h3, h4⟩


/-! ## The flag when VF is the destination (C2) -/

/-- C2 (evaluation at the failing inputs): with X = 15 the destination of the
arithmetic is VF itself, and because `exec8` stores the flag before it stores
the result, the result replaces the flag.  8F04 with VF = 0, V0 = 5 ends with
VF = 5 (carry is 0); 8F05 with VF = 7, V0 = 5 ends with VF = 252 (not-borrow
is 1); 8F07 with VF = 3, V0 = 5 ends with VF = 4 (not-borrow is 1); 8F06 with
VF = 3 ends with VF = 0 (shifted-out bit is 1); 8F0E with VF = 128 ends with
VF = 2 (shifted-out bit is 1). -/
theorem flag_overwritten_when_X_is_VF :
    (∃ t, emulateCycle (loadedWith [0x8F, 0x04] [5] 0) 0 = .ok t ∧ t.V 15 = 5) ∧
    (∃ t, emulateCycle
        (loadedWith [0x8F, 0x05] [5, 0, 0, 0, 0, 0, 0, 0, 0, 0, 0, 0, 0, 0, 0, 7] 0) 0 = .ok t ∧
      t.V 15 = 252) ∧
    (∃ t, emulateCycle
        (loadedWith [0x8F, 0x07] [5, 0, 0, 0, 0, 0, 0, 0, 0, 0, 0, 0, 0, 0, 0, 3] 0) 0 = .ok t ∧
      t.V 15 = 4) ∧
    (∃ t, emulateCycle
        (loadedWith [0x8F, 0x06] [0, 0, 0, 0, 0, 0, 0, 0, 0, 0, 0, 0, 0, 0, 0, 3] 0) 0 = .ok t ∧
      t.V 15 = 0) ∧
    (∃ t, emulateCycle
        (loadedWith [0x8F, 0x0E] [0, 0, 0, 0, 0, 0, 0, 0, 0, 0, 0, 0, 0, 0, 0, 128] 0) 0 = .ok t ∧
      t.V 15 = 2) :=
  ⟨⟨_, rfl, by decide⟩, ⟨_, rfl, by decide⟩, ⟨_, rfl, by decide⟩, ⟨_, rfl, by decide⟩,
    ⟨_, rfl, by decide⟩⟩


/-! ## Sprite drawing: DXYN (C3, C4) -/

theorem DrawFrame.refl (u : Chip8) : DrawFrame u u :=
  ⟨rfl, rfl, rfl, rfl, rfl, rfl, rfl, rfl, rfl, rfl, fun _ _ => rfl⟩

theorem DrawFrame.trans {u v t : Chip8} (h1 : DrawFrame u v) (h2 : DrawFrame v t) :
    DrawFrame u t := by
  obtain ⟨a1, a2, a3, a4, a5, a6, a7, a8, a9, a10, a11⟩ := h1
  obtain ⟨b1, b2, b3, b4, b5, b6, b7, b8, b9, b10, b11⟩ := h2
  exact ⟨b1.trans a1, b2.trans a2, b3.trans a3, b4.trans a4, b5.trans a5, b6.trans a6,
    b7.trans a7, b8.trans a8, b9.trans a9, b10.trans a10,
    fun i hi => (b11 i hi).trans (a11 i hi)⟩

theorem DrawFrame.setV15 (u : Chip8) (v : Nat) : DrawFrame u (setV u 15 v) := by
  refine ⟨rfl, rfl, rfl, rfl, rfl, rfl, rfl, rfl, rfl, rfl, fun i hi => ?_⟩
  simp [setV, store, hi]

/-- One sprite bit: when the bit is set and its linear index is inside the
frame buffer, exactly that cell is toggled. -/
theorem drawPixel_spec (X Y p r c : Nat) (u : Chip8)
    (h : p &&& (0x80 >>> c) ≠ 0 → X + c + (Y + r) * 64 < 2048) :
    ∃ t, drawPixel X Y p r c u = .ok t ∧ DrawFrame u t ∧
      ∀ j, t.gfx j =
        if p &&& (0x80 >>> c) ≠ 0 ∧ X + c + (Y + r) * 64 = j then u.gfx j ^^^ 1
        else u.gfx j := by
  unfold drawPixel
  by_cases hb : p &&& (0x80 >>> c) ≠ 0
  · have hlt := h hb
    have hmod : (X + c + (Y + r) * 64) % (64 * 32) = X + c + (Y + r) * 64 := by omega
    rw [if_pos hb]
    simp only [readGfx, hlt, if_true, bind, Except.bind, hmod, writeGfx]
    by_cases hg : u.gfx (X + c + (Y + r) * 64) = 1
    · rw [if_pos hg]
      refine ⟨_, rfl, ⟨rfl, rfl, rfl, rfl, rfl, rfl, rfl, rfl, rfl, rfl, fun i hi => ?_⟩,
        fun j => ?_⟩
      · simp [setV, store, hi]
      · by_cases hj : X + c + (Y + r) * 64 = j
        · subst hj
          simp [store, setV, hb]
        · have hj2 : ¬ j = X + c + (Y + r) * 64 := fun e => hj e.symm
          simp [store, setV, hj, hj2]
    · rw [if_neg hg]
      refine ⟨_, rfl, ⟨rfl, rfl, rfl, rfl, rfl, rfl, rfl, rfl, rfl, rfl, fun i hi => rfl⟩,
        fun j => ?_⟩
      by_cases hj : X + c + (Y + r) * 64 = j
      · subst hj
        simp [store, hb]
      · have hj2 : ¬ j = X + c + (Y + r) * 64 := fun e => hj e.symm
        simp [store, hj, hj2]
  · rw [if_neg hb]
    refine ⟨u, rfl, DrawFrame.refl u, fun j => ?_⟩
    rw [if_neg (fun hh => hb hh.1)]


/-- The eight-column loop of one sprite row, cut after `n` columns. -/
theorem drawCols_spec (X Y p r : Nat) (n : Nat) (u : Chip8)
    (h : ∀ c < n, p &&& (0x80 >>> c) ≠ 0 → X + c + (Y + r) * 64 < 2048) :
    ∃ t, forLoop n (drawPixel X Y p r) u = .ok t ∧ DrawFrame u t ∧
      ∀ j, t.gfx j =
        if ∃ c < n, p &&& (0x80 >>> c) ≠ 0 ∧ X + c + (Y + r) * 64 = j then u.gfx j ^^^ 1
        else u.gfx j := by
  induction n with
  | zero => exact ⟨u, rfl, DrawFrame.refl u, fun j => by simp⟩
  | succ n ih =>
    obtain ⟨t1, e1, f1, g1⟩ := ih (fun c hc => h c (Nat.lt_succ_of_lt hc))
    obtain ⟨t2, e2, f2, g2⟩ := drawPixel_spec X Y p r n t1 (h n (Nat.lt_succ_self n))
    refine ⟨t2, ?_, f1.trans f2, fun j => ?_⟩
    · simp only [forLoop, e1, bind, Except.bind]
      exact e2
    · rw [g2 j, g1 j]
      by_cases h1 : p &&& (0x80 >>> n) ≠ 0 ∧ X + n + (Y + r) * 64 = j
      · have h2 : ¬ ∃ c < n, p &&& (0x80 >>> c) ≠ 0 ∧ X + c + (Y + r) * 64 = j := by
          rintro ⟨c, hc, _, hj⟩
          omega
        have h3 : ∃ c < n + 1, p &&& (0x80 >>> c) ≠ 0 ∧ X + c + (Y + r) * 64 = j :=
          ⟨n, Nat.lt_succ_self n, h1⟩
        rw [if_pos h1, if_neg h2, if_pos h3]
      · rw [if_neg h1]
        by_cases h2 : ∃ c < n, p &&& (0x80 >>> c) ≠ 0 ∧ X + c + (Y + r) * 64 = j
        · have h3 : ∃ c < n + 1, p &&& (0x80 >>> c) ≠ 0 ∧ X + c + (Y + r) * 64 = j := by
            obtain ⟨c, hc, hh⟩ := h2
            exact ⟨c, Nat.lt_succ_of_lt hc, hh⟩
          rw [if_pos h2, if_pos h3]
        · have h3 : ¬ ∃ c < n + 1, p &&& (0x80 >>> c) ≠ 0 ∧ X + c + (Y + r) * 64 = j := by
            rintro ⟨c, hc, hh⟩
            rcases Nat.lt_succ_iff_lt_or_eq.mp hc with hlt | heq
            · exact h2 ⟨c, hlt, hh⟩
            · subst heq
              exact h1 hh
          rw [if_neg h2, if_neg h3]

/-- The row loop of DXYN, cut after `n` rows: the cells toggled are those
whose linear index `X + c + (Y + r) * 64` belongs to a set sprite bit. -/
theorem drawRows_spec (X Y : Nat) (n : Nat) (u : Chip8) (hI : u.I + n ≤ 4096)
    (h : ∀ r < n, ∀ c < 8, u.memory (u.I + r) &&& (0x80 >>> c) ≠ 0 →
      X + c + (Y + r) * 64 < 2048) :
    ∃ t, forLoop n (drawRow X Y) u = .ok t ∧ DrawFrame u t ∧
      ∀ j, t.gfx j =
        if ∃ r < n, ∃ c < 8, u.memory (u.I + r) &&& (0x80 >>> c) ≠ 0 ∧
            X + c + (Y + r) * 64 = j then u.gfx j ^^^ 1
        else u.gfx j := by
  induction n with
  | zero => exact ⟨u, rfl, DrawFrame.refl u, fun j => by simp⟩
  | succ n ih =>
    obtain ⟨t1, e1, f1, g1⟩ := ih (by omega) (fun r hr => h r (Nat.lt_succ_of_lt hr))
    have hmem : t1.memory = u.memory := f1.1
    have hIeq : t1.I = u.I := f1.2.1
    obtain ⟨t2, e2, f2, g2⟩ :=
      drawCols_spec X Y (u.memory (u.I + n)) n 8 t1 (h n (Nat.lt_succ_self n))
    refine ⟨t2, ?_, f1.trans f2, fun j => ?_⟩
    · have hlt : u.I + n < 4096 := by omega
      simp only [forLoop, e1, bind, Except.bind, drawRow, readMemory, hmem, hIeq, hlt, if_true]
      exact e2
    · rw [g2 j, g1 j]
      by_cases h1 : ∃ c < 8, u.memory (u.I + n) &&& (0x80 >>> c) ≠ 0 ∧
          X + c + (Y + n) * 64 = j
      · have h2 : ¬ ∃ r < n, ∃ c < 8, u.memory (u.I + r) &&& (0x80 >>> c) ≠ 0 ∧
            X + c + (Y + r) * 64 = j := by
          rintro ⟨r, hr, c, hc, _, hj⟩
          obtain ⟨c2, hc2, _, hj2⟩ := h1
          omega
        have h3 : ∃ r < n + 1, ∃ c < 8, u.memory (u.I + r) &&& (0x80 >>> c) ≠ 0 ∧
            X + c + (Y + r) * 64 = j := ⟨n, Nat.lt_succ_self n, h1⟩
        rw [if_pos h1, if_neg h2, if_pos h3]
      · rw [if_neg h1]
        by_cases h2 : ∃ r < n, ∃ c < 8, u.memory (u.I + r) &&& (0x80 >>> c) ≠ 0 ∧
            X + c + (Y + r) * 64 = j
        · have h3 : ∃ r < n + 1, ∃ c < 8, u.memory (u.I + r) &&& (0x80 >>> c) ≠ 0 ∧
              X + c + (Y + r) * 64 = j := by
            obtain ⟨r, hr, hh⟩ := h2
            exact ⟨r, Nat.lt_succ_of_lt hr, hh⟩
          rw [if_pos h2, if_pos h3]
        · have h3 : ¬ ∃ r < n + 1, ∃ c < 8, u.memory (u.I + r) &&& (0x80 >>> c) ≠ 0 ∧
              X + c + (Y + r) * 64 = j := by
            rintro ⟨r, hr, hh⟩
            rcases Nat.lt_succ_iff_lt_or_eq.mp hr with hlt | heq
            · exact h2 ⟨r, hlt, hh⟩
            · subst heq
              exact h1 hh
          rw [if_neg h2, if_neg h3]


theorem decodeD {X Y N : Nat} (hX : X < 16) (hY : Y < 16) (hN : N < 16) :
    (0xD000 + 256 * X + 16 * Y + N) &&& 0xF000 = 0xD000 ∧
    regX (0xD000 + 256 * X + 16 * Y + N) = X ∧
    regY (0xD000 + 256 * X + 16 * Y + N) = Y ∧
    (0xD000 + 256 * X + 16 * Y + N) &&& 0x000F = N := by
  rw [and_F000, regX_eq, regY_eq, and_000F]
  omega

/-- C3 (as the code behaves): one cycle executing DXYN, with the N sprite
bytes inside memory and the linear index `VX + c + (VY + r) * 64` of every set
sprite bit below 2048, succeeds and toggles exactly the cells with those linear
indices (row r in 0..N-1, column c in 0..7, most-significant bit first); every
other cell keeps its value.  Row and column are not reduced separately: a
column past 63 continues in the next row. -/
theorem draw_toggles_linear_index (s : Chip8) (rnd X Y N : Nat)
    (hX : X < 16) (hY : Y < 16) (hN : N < 16)
    (hf : Fetches s (0xD000 + 256 * X + 16 * Y + N)) (hI : s.I + N ≤ 4096)
    (hfit : ∀ r < N, ∀ c < 8, s.memory (s.I + r) &&& (0x80 >>> c) ≠ 0 →
      s.V X + c + (s.V Y + r) * 64 < 2048) :
    ∃ t, emulateCycle s rnd = .ok t ∧
      ∀ j, t.gfx j =
        if ∃ r < N, ∃ c < 8, s.memory (s.I + r) &&& (0x80 >>> c) ≠ 0 ∧
            s.V X + c + (s.V Y + r) * 64 = j then s.gfx j ^^^ 1
        else s.gfx j := by
  obtain ⟨d1, d2, d3, d4⟩ := decodeD hX hY hN
  obtain ⟨t, e, _, g⟩ := drawRows_spec (s.V X) (s.V Y) N
    (setV { s with opcode := 0xD000 + 256 * X + 16 * Y + N } 15 0) hI hfit
  refine ⟨timers (advance { t with draw_flag := true } 2), ?_, fun j => ?_⟩
  · rw [emulateCycle_of_fetches rnd hf]
    simp only [dispatch, d1, execD, d2, d3, d4, e, bind, Except.bind, Except.map]
    simp
  · simpa [advance] using g j

/-- C3 (counterexample to the separate wrap of the column): D011 at
(VX, VY) = (60, 0) with sprite byte 0xFF.  The sprite bit of row 0, column 4 is
set; the cell `((0 + 0) mod 32) * 64 + ((60 + 4) mod 64) = 0` named by the
claim keeps its value, and cell 64 (row 1, column 0) changes instead. -/
theorem draw_column_wrap_counterexample :
    ∃ t, emulateCycle spriteAtRightEdge 0 = .ok t ∧
      spriteAtRightEdge.memory (spriteAtRightEdge.I + 0) &&& (0x80 >>> 4) ≠ 0 ∧
      t.gfx (((0 + 0) % 32) * 64 + ((60 + 4) % 64)) =
        spriteAtRightEdge.gfx (((0 + 0) % 32) * 64 + ((60 + 4) % 64)) ∧
      t.gfx 64 ≠ spriteAtRightEdge.gfx 64 :=
  ⟨_, rfl, by decide, by decide, by decide⟩

/-- C3 at a concrete machine: D011 at (60, 0) with sprite byte 0xFF lights
cells 60, 63, 64 and 67 and leaves cells 59, 68 and 0 dark. -/
theorem draw_toggles_linear_index_witness :
    (0 < 16 ∧ 1 < 16 ∧ 1 < 16 ∧
      Fetches spriteAtRightEdge (0xD000 + 256 * 0 + 16 * 1 + 1) ∧
      spriteAtRightEdge.I + 1 ≤ 4096 ∧
      (∀ r < 1, ∀ c < 8, spriteAtRightEdge.memory (spriteAtRightEdge.I + r) &&& (0x80 >>> c) ≠ 0 →
        spriteAtRightEdge.V 0 + c + (spriteAtRightEdge.V 1 + r) * 64 < 2048)) ∧
    ∃ t, emulateCycle spriteAtRightEdge 0 = .ok t ∧
      t.gfx 59 = 0 ∧ t.gfx 60 = 1 ∧ t.gfx 63 = 1 ∧ t.gfx 64 = 1 ∧ t.gfx 67 = 1 ∧
      t.gfx 68 = 0 ∧ t.gfx 0 = 0 := by
  refine ⟨⟨by decide, by decide, by decide, by decide, by decide, by decide⟩, ?_⟩
  obtain ⟨t, e, g⟩ := draw_toggles_linear_index spriteAtRightEdge 0 0 1 1
    (by decide) (by decide) (by decide) (by decide) (by decide) (by decide)
  exact ⟨t, e, (g 59).trans (by decide), (g 60).trans (by decide), (g 63).trans (by decide),
    (g 64).trans (by decide), (g 67).trans (by decide), (g 68).trans (by decide),
    (g 0).trans (by decide)⟩


/-- C4 (evaluation at the failing input): D011 with VX = 0, VY = 32 and sprite
byte 0x80.  The collision test of `drawPixel` subscripts `gfx` with the
unreduced index `0 + 0 + (32 + 0) * 64 = 2048`, one past the last cell; only
the write that follows reduces the index modulo 2048. -/
theorem draw_collision_read_out_of_range :
    emulateCycle spriteBelowScreen 0 = .error (Fault.gfxIndex 2048) := rfl

/-! ## Conditional skips: 3XNN, 4XNN, 5XY0, 9XY0, EX9E, EXA1 (C5) -/

/-- C5: one cycle executing a conditional skip succeeds, advances PC by 4 when
the condition holds and by 2 otherwise, and changes no register, memory byte,
I, stack entry, stack pointer or frame-buffer cell.  The condition is
VX = NN for 3XNN, VX ≠ NN for 4XNN, VX = VY for 5XY0, VX ≠ VY for 9XY0,
key[VX] ≠ 0 for EX9E and key[VX] = 0 for EXA1 (VX ≤ 15 in the two key forms).
From reset with `6005 6105 5010 1204` loaded at 0x200, three cycles leave
V0 = V1 = 5 and PC = 0x208, past the jump stored at 0x206. -/
theorem conditional_skips (s : Chip8) (rnd X Y NN : Nat)
    (hX : X < 16) (hY : Y < 16) (hNN : NN < 256) :
    (Fetches s (0x3000 + 256 * X + NN) →
      ∃ t, emulateCycle s rnd = .ok t ∧ SameData s t ∧
        t.pc = if s.V X = NN then s.pc + 4 else s.pc + 2) ∧
    (Fetches s (0x4000 + 256 * X + NN) →
      ∃ t, emulateCycle s rnd = .ok t ∧ SameData s t ∧
        t.pc = if s.V X ≠ NN then s.pc + 4 else s.pc + 2) ∧
    (Fetches s (0x5000 + 256 * X + 16 * Y) →
      ∃ t, emulateCycle s rnd = .ok t ∧ SameData s t ∧
        t.pc = if s.V X = s.V Y then s.pc + 4 else s.pc + 2) ∧
    (Fetches s (0x9000 + 256 * X + 16 * Y) →
      ∃ t, emulateCycle s rnd = .ok t ∧ SameData s t ∧
        t.pc = if s.V X ≠ s.V Y then s.pc + 4 else s.pc + 2) ∧
    (Fetches s (0xE09E + 256 * X) → s.V X ≤ 15 →
      ∃ t, emulateCycle s rnd = .ok t ∧ SameData s t ∧
        t.pc = if s.key (s.V X) ≠ 0 then s.pc + 4 else s.pc + 2) ∧
    (Fetches s (0xE0A1 + 256 * X) → s.V X ≤ 15 →
      ∃ t, emulateCycle s rnd = .ok t ∧ SameData s t ∧
        t.pc = if s.key (s.V X) = 0 then s.pc + 4 else s.pc + 2) ∧
    (∃ t, run (fun _ => rnd) 3 skipProgram = .ok t ∧
      t.V 0 = 5 ∧ t.V 1 = 5 ∧ t.pc = 0x208 ∧ 0x206 < t.pc) := by
  refine ⟨fun h => ?_, fun h => ?_, fun h => ?_, fun h => ?_, fun h hk => ?_,
    fun h hk => ?_, ⟨_, rfl, by decide, by decide, by decide, by decide⟩⟩
  · have d1 : (0x3000 + 256 * X + NN) &&& 0xF000 = 0x3000 := by rw [and_F000]; omega
    have d2 : regX (0x3000 + 256 * X + NN) = X := by rw [regX_eq]; omega
    have d3 : (0x3000 + 256 * X + NN) &&& 0x00FF = NN := by rw [and_00FF]; omega
    have h2 : (s.pc + 2) % 65536 = s.pc + 2 := by have := h.1; omega
    have h4 : (s.pc + 4) % 65536 = s.pc + 4 := by have := h.1; omega
    rw [emulateCycle_of_fetches rnd h]
    by_cases hc : s.V X = NN <;>
      simp [dispatch, d1, d2, d3, bind, Except.bind, advance, SameData, h2, h4, hc]
  · have d1 : (0x4000 + 256 * X + NN) &&& 0xF000 = 0x4000 := by rw [and_F000]; omega
    have d2 : regX (0x4000 + 256 * X + NN) = X := by rw [regX_eq]; omega
    have d3 : (0x4000 + 256 * X + NN) &&& 0x00FF = NN := by rw [and_00FF]; omega
    have h2 : (s.pc + 2) % 65536 = s.pc + 2 := by have := h.1; omega
    have h4 : (s.pc + 4) % 65536 = s.pc + 4 := by have := h.1; omega
    rw [emulateCycle_of_fetches rnd h]
    by_cases hc : s.V X = NN <;>
      simp [dispatch, d1, d2, d3, bind, Except.bind, advance, SameData, h2, h4, hc]
  · have d1 : (0x5000 + 256 * X + 16 * Y) &&& 0xF000 = 0x5000 := by rw [and_F000]; omega
    have d2 : regX (0x5000 + 256 * X + 16 * Y) = X := by rw [regX_eq]; omega
    have d3 : regY (0x5000 + 256 * X + 16 * Y) = Y := by rw [regY_eq]; omega
    have h2 : (s.pc + 2) % 65536 = s.pc + 2 := by have := h.1; omega
    have h4 : (s.pc + 4) % 65536 = s.pc + 4 := by have := h.1; omega
    rw [emulateCycle_of_fetches rnd h]
    by_cases hc : s.V X = s.V Y <;>
      simp [dispatch, d1, d2, d3, bind, Except.bind, advance, SameData, h2, h4, hc]
  · have d1 : (0x9000 + 256 * X + 16 * Y) &&& 0xF000 = 0x9000 := by rw [and_F000]; omega
    have d2 : regX (0x9000 + 256 * X + 16 * Y) = X := by rw [regX_eq]; omega
    have d3 : regY (0x9000 + 256 * X + 16 * Y) = Y := by rw [regY_eq]; omega
    have h2 : (s.pc + 2) % 65536 = s.pc + 2 := by have := h.1; omega
    have h4 : (s.pc + 4) % 65536 = s.pc + 4 := by have := h.1; omega
    rw [emulateCycle_of_fetches rnd h]
    by_cases hc : s.V X = s.V Y <;>
      simp [dispatch, d1, d2, d3, bind, Except.bind, advance, SameData, h2, h4, hc]
  · have d1 : (0xE09E + 256 * X) &&& 0xF000 = 0xE000 := by rw [and_F000]; omega
    have d2 : regX (0xE09E + 256 * X) = X := by rw [regX_eq]; omega
    have d3 : (0xE09E + 256 * X) &&& 0x00FF = 0x9E := by rw [and_00FF]; omega
    have h2 : (s.pc + 2) % 65536 = s.pc + 2 := by have := h.1; omega
    have h4 : (s.pc + 4) % 65536 = s.pc + 4 := by have := h.1; omega
    have hk16 : s.V X < 16 := by omega
    rw [emulateCycle_of_fetches rnd h]
    by_cases hc : s.key (s.V X) = 0 <;>
      simp [dispatch, execE, execF, readKey, d1, d2, d3, bind, Except.bind, advance, SameData,
        h2, h4, hc, hk16]
  · have d1 : (0xE0A1 + 256 * X) &&& 0xF000 = 0xE000 := by rw [and_F000]; omega
    have d2 : regX (0xE0A1 + 256 * X) = X := by rw [regX_eq]; omega
    have d3 : (0xE0A1 + 256 * X) &&& 0x00FF = 0xA1 := by rw [and_00FF]; omega
    have h2 : (s.pc + 2) % 65536 = s.pc + 2 := by have := h.1; omega
    have h4 : (s.pc + 4) % 65536 = s.pc + 4 := by have := h.1; omega
    have hk16 : s.V X < 16 := by omega
    rw [emulateCycle_of_fetches rnd h]
    by_cases hc : s.key (s.V X) = 0 <;>
      simp [dispatch, execE, execF, readKey, d1, d2, d3, bind, Except.bind, advance, SameData,
        h2, h4, hc, hk16]


/-- C5 at concrete machines, one for each of the six skip instructions. -/
theorem conditional_skips_witness :
    (0 < 16 ∧ 1 < 16 ∧ 5 < 256) ∧
    (Fetches (loadedWith [0x30, 0x05] [5] 0) (0x3000 + 256 * 0 + 5) ∧
      ∃ t, emulateCycle (loadedWith [0x30, 0x05] [5] 0) 0 = .ok t ∧ t.pc = 0x204) ∧
    (Fetches (loadedWith [0x40, 0x05] [5] 0) (0x4000 + 256 * 0 + 5) ∧
      ∃ t, emulateCycle (loadedWith [0x40, 0x05] [5] 0) 0 = .ok t ∧ t.pc = 0x202) ∧
    (Fetches (loadedWith [0x50, 0x10] [5, 5] 0) (0x5000 + 256 * 0 + 16 * 1) ∧
      ∃ t, emulateCycle (loadedWith [0x50, 0x10] [5, 5] 0) 0 = .ok t ∧ t.pc = 0x204) ∧
    (Fetches (loadedWith [0x90, 0x10] [5, 5] 0) (0x9000 + 256 * 0 + 16 * 1) ∧
      ∃ t, emulateCycle (loadedWith [0x90, 0x10] [5, 5] 0) 0 = .ok t ∧ t.pc = 0x202) ∧
    (Fetches (keyDown (loadedWith [0xE0, 0x9E] [3] 0) 3) (0xE09E + 256 * 0) ∧
      (keyDown (loadedWith [0xE0, 0x9E] [3] 0) 3).V 0 ≤ 15 ∧
      ∃ t, emulateCycle (keyDown (loadedWith [0xE0, 0x9E] [3] 0) 3) 0 = .ok t ∧ t.pc = 0x204) ∧
    (Fetches (keyDown (loadedWith [0xE0, 0xA1] [3] 0) 3) (0xE0A1 + 256 * 0) ∧
      (keyDown (loadedWith [0xE0, 0xA1] [3] 0) 3).V 0 ≤ 15 ∧
      ∃ t, emulateCycle (keyDown (loadedWith [0xE0, 0xA1] [3] 0) 3) 0 = .ok t ∧
        t.pc = 0x202) := by
  refine ⟨⟨by decide, by decide, by decide⟩, ⟨by decide, ?_⟩, ⟨by decide, ?_⟩,
    ⟨by decide, ?_⟩, ⟨by decide, ?_⟩, ⟨by decide, by decide, ?_⟩, ⟨by decide, by decide, ?_⟩⟩
  · obtain ⟨t, e, _, hp⟩ := (conditional_skips (loadedWith [0x30, 0x05] [5] 0) 0 0 1 5
      (by decide) (by decide) (by decide)).1 (by decide)
    exact ⟨t, e, hp.trans (by decide)⟩
  · obtain ⟨t, e, _, hp⟩ := (conditional_skips (loadedWith [0x40, 0x05] [5] 0) 0 0 1 5
      (by decide) (by decide) (by decide)).2.1 (by decide)
    exact ⟨t, e, hp.trans (by decide)⟩
  · obtain ⟨t, e, _, hp⟩ := (conditional_skips (loadedWith [0x50, 0x10] [5, 5] 0) 0 0 1 5
      (by decide) (by decide) (by decide)).2.2.1 (by decide)
    exact ⟨t, e, hp.trans (by decide)⟩
  · obtain ⟨t, e, _, hp⟩ := (conditional_skips (loadedWith [0x90, 0x10] [5, 5] 0) 0 0 1 5
      (by decide) (by decide) (by decide)).2.2.2.1 (by decide)
    exact ⟨t, e, hp.trans (by decide)⟩
  · obtain ⟨t, e, _, hp⟩ := (conditional_skips (keyDown (loadedWith [0xE0, 0x9E] [3] 0) 3)
      0 0 1 5 (by decide) (by decide) (by decide)).2.2.2.2.1 (by decide) (by decide)
    exact ⟨t, e, hp.trans (by decide)⟩
  · obtain ⟨t, e, _, hp⟩ := (conditional_skips (keyDown (loadedWith [0xE0, 0xA1] [3] 0) 3)
      0 0 1 5 (by decide) (by decide) (by decide)).2.2.2.2.2.1 (by decide) (by decide)
    exact ⟨t, e, hp.trans (by decide)⟩


/-! ## Subroutine call and return: 2NNN, 00EE (C6, C7) -/

/-- One cycle executing 2NNN with room on the stack: the PC of the call is
stored at `stack[sp]`, the stack pointer grows by one and PC becomes NNN. -/
theorem call_step (s : Chip8) (rnd nnn : Nat) (hn : nnn < 4096)
    (hf : Fetches s (0x2000 + nnn)) (hsp : s.sp < 16) :
    ∃ t, emulateCycle s rnd = .ok t ∧ t.sp = s.sp + 1 ∧ t.pc = nnn ∧
      t.stack = store s.stack s.sp s.pc ∧ t.memory = s.memory := by
  have d1 : (0x2000 + nnn) &&& 0xF000 = 0x2000 := by rw [and_F000]; omega
  have d2 : (0x2000 + nnn) &&& 0x0FFF = nnn := by rw [and_0FFF]; omega
  have h1 : (s.sp + 1) % 65536 = s.sp + 1 := by omega
  rw [emulateCycle_of_fetches rnd hf]
  simp [dispatch, d1, d2, writeStack, hsp, bind, Except.bind, h1]

theorem dispatch_family0 (s : Chip8) (rnd : Nat) (h : s.opcode &&& 0xF000 = 0x0000) :
    dispatch s rnd = (exec0 s).map (fun r => (Flow.next, r)) := by
  unfold dispatch
  simp only [h, if_true]

theorem exec0_return (s : Chip8) (h : s.opcode &&& 0x000F = 0x000E) :
    exec0 s =
      (readStack { s with sp := (s.sp + 65535) % 65536 } ((s.sp + 65535) % 65536)).map
        (fun a => advance { s with sp := (s.sp + 65535) % 65536, pc := a } 2) := by
  have hne : ¬ ((0x000E : Nat) = 0x0000) := by decide
  unfold exec0
  simp only [h, hne, if_false, if_true]
  cases readStack { s with sp := (s.sp + 65535) % 65536 } ((s.sp + 65535) % 65536) <;> rfl

/-- One cycle executing 00EE with a non-empty stack: the stack pointer drops by
one and PC becomes the entry it then designates, plus 2 (on 16 bits). -/
theorem return_step (s : Chip8) (rnd : Nat) (hf : Fetches s 0x00EE)
    (h1 : 1 ≤ s.sp) (h16 : s.sp ≤ 16) :
    ∃ t, emulateCycle s rnd = .ok t ∧ t.sp = s.sp - 1 ∧
      t.pc = (s.stack (s.sp - 1) + 2) % 65536 ∧ t.stack = s.stack := by
  have hd : (s.sp + 65535) % 65536 = s.sp - 1 := by omega
  have hlt : s.sp - 1 < 16 := by omega
  have d1 : (0x00EE : Nat) &&& 0xF000 = 0x0000 := by decide
  have d2 : (0x00EE : Nat) &&& 0x000F = 0x000E := by decide
  rw [emulateCycle_of_fetches rnd hf, dispatch_family0 { s with opcode := 0x00EE } rnd d1,
    exec0_return { s with opcode := 0x00EE } d2]
  simp [readStack, hd, hlt, bind, Except.bind, advance, Except.map]


/-- C6: starting from stack pointer 0, k ≤ 16 successive cycles that each
execute a 2NNN all succeed and leave the stack pointer equal to k, with
`stack[i]` holding the PC of the i-th call instruction for every i < k.  A
cycle executing 00EE with stack pointer in 1..16 pops the most recent entry:
the stack pointer drops by one, the entries stay, and PC becomes the popped
value plus 2 (exactly so for every popped address up to 0xFFF).  A call
followed by a return resumes at the instruction after the call. -/
theorem call_return_stack (rnd : Nat → Nat) (r0 r1 : Nat) (s : Chip8) :
    (∀ k ≤ 16, s.sp = 0 →
      (∀ i < k, ∀ u, run rnd i s = .ok u → ∃ nnn < 4096, Fetches u (0x2000 + nnn)) →
      ∃ t, run rnd k s = .ok t ∧ t.sp = k ∧
        ∀ i < k, ∃ u, run rnd i s = .ok u ∧ t.stack i = u.pc) ∧
    (Fetches s 0x00EE → 1 ≤ s.sp → s.sp ≤ 16 →
      ∃ t, emulateCycle s r0 = .ok t ∧ t.sp = s.sp - 1 ∧ t.stack = s.stack ∧
        t.pc = (s.stack (s.sp - 1) + 2) % 65536 ∧
        (s.stack (s.sp - 1) ≤ 0xFFF → t.pc = s.stack (s.sp - 1) + 2)) ∧
    (∀ nnn < 4096, Fetches s (0x2000 + nnn) → s.sp < 16 →
      ∃ u, emulateCycle s r0 = .ok u ∧ u.pc = nnn ∧
        (Fetches u 0x00EE →
          ∃ t, emulateCycle u r1 = .ok t ∧ t.pc = s.pc + 2 ∧ t.sp = s.sp)) := by
  refine ⟨fun k => ?_, fun hf h1 h16 => ?_, fun nnn hn hf hsp => ?_⟩
  · induction k with
    | zero =>
      intro _ hsp _
      exact ⟨s, rfl, hsp, fun i hi => absurd hi (Nat.not_lt_zero i)⟩
    | succ k ih =>
      intro hk hsp hcalls
      obtain ⟨t, et, spt, stk⟩ := ih (by omega) hsp
        (fun i hi => hcalls i (Nat.lt_succ_of_lt hi))
      obtain ⟨nnn, hn, hf⟩ := hcalls k (Nat.lt_succ_self k) t et
      obtain ⟨t2, e2, sp2, _, st2, _⟩ := call_step t (rnd k) nnn hn hf (by omega)
      refine ⟨t2, ?_, by omega, fun i hi => ?_⟩
      · simp only [run, et, bind, Except.bind]
        exact e2
      · rcases Nat.lt_succ_iff_lt_or_eq.mp hi with hlt | heq
        · obtain ⟨u, eu, hu⟩ := stk i hlt
          refine ⟨u, eu, ?_⟩
          rw [st2, ← hu]
          have : ¬ i = t.sp := by omega
          simp [store, this]
        · subst heq
          refine ⟨t, et, ?_⟩
          rw [st2]
          simp [store, spt]
  · obtain ⟨t, e, hs, hp, hst⟩ := return_step s r0 hf h1 h16
    refine ⟨t, e, hs, hst, hp, fun hle => ?_⟩
    rw [hp]
    omega
  · obtain ⟨u, e, hs, hp, hst, _⟩ := call_step s r0 nnn hn hf hsp
    refine ⟨u, e, hp, fun hf2 => ?_⟩
    obtain ⟨t, e2, hs2, hp2, _⟩ := return_step u r1 hf2 (by omega) (by omega)
    refine ⟨t, e2, ?_, by omega⟩
    have hpc := hf.1
    rw [hp2, hst, hs]
    simp [store]
    omega


/-- C6 at concrete machines: two nested calls, a return from a one-entry
stack, and a call followed by a return. -/
theorem call_return_stack_witness :
    (2 ≤ 16 ∧ callProgram.sp = 0 ∧
      (∀ i < 2, ∀ u, run (fun _ => 0) i callProgram = .ok u →
        ∃ nnn < 4096, Fetches u (0x2000 + nnn)) ∧
      ∃ t, run (fun _ => 0) 2 callProgram = .ok t ∧ t.sp = 2 ∧
        t.stack 0 = 0x200 ∧ t.stack 1 = 0x204) ∧
    (Fetches returnState 0x00EE ∧ 1 ≤ returnState.sp ∧ returnState.sp ≤ 16 ∧
      ∃ t, emulateCycle returnState 0 = .ok t ∧ t.sp = 0 ∧ t.pc = 0x302) ∧
    (0x204 < 4096 ∧ Fetches callReturnProgram (0x2000 + 0x204) ∧ callReturnProgram.sp < 16 ∧
      ∃ u, emulateCycle callReturnProgram 0 = .ok u ∧ Fetches u 0x00EE ∧
        ∃ t, emulateCycle u 0 = .ok t ∧ t.pc = 0x202 ∧ t.sp = 0) := by
  have hcalls : ∀ i < 2, ∀ u, run (fun _ => 0) i callProgram = .ok u →
      ∃ nnn < 4096, Fetches u (0x2000 + nnn) := by
    intro i hi u hu
    interval_cases i
    · obtain rfl : callProgram = u := Except.ok.inj hu
      exact ⟨0x204, by decide, by decide⟩
    · obtain rfl : _ = u := Except.ok.inj hu
      exact ⟨0x208, by decide, by decide⟩
  refine ⟨⟨by decide, rfl, hcalls, ?_⟩, ⟨by decide, by decide, by decide, ?_⟩,
    ⟨by decide, by decide, by decide, ?_⟩⟩
  · obtain ⟨t, e, hsp, hst⟩ :=
      (call_return_stack (fun _ => 0) 0 0 callProgram).1 2 (by decide) rfl hcalls
    refine ⟨t, e, hsp, ?_, ?_⟩
    · obtain ⟨u, eu, hu⟩ := hst 0 (by decide)
      obtain rfl : callProgram = u := Except.ok.inj eu
      exact hu
    · obtain ⟨u, eu, hu⟩ := hst 1 (by decide)
      obtain rfl : _ = u := Except.ok.inj eu
      exact hu
  · obtain ⟨t, e, hsp, _, _, hpc⟩ :=
      (call_return_stack (fun _ => 0) 0 0 returnState).2.1 (by decide) (by decide) (by decide)
    exact ⟨t, e, hsp, hpc (by decide)⟩
  · obtain ⟨u, e, _, hret⟩ :=
      (call_return_stack (fun _ => 0) 0 0 callReturnProgram).2.2 0x204 (by decide) (by decide)
        (by decide)
    have hu : Fetches u 0x00EE := by
      obtain rfl : _ = u := Except.ok.inj e
      decide
    obtain ⟨t, e2, hpc, hsp⟩ := hret hu
    exact ⟨u, e, hu, t, e2, hpc, hsp⟩


/-- Loop invariant rule for `forLoop`. -/
theorem forLoop_inv {σ : Type} (P : σ → Prop) (body : Nat → σ → Except Fault σ)
    (hbody : ∀ i u t, P u → body i u = .ok t → P t) :
    ∀ n u t, P u → forLoop n body u = .ok t → P t := by
  intro n
  induction n with
  | zero =>
    intro u t hu h
    cases h
    exact hu
  | succ n ih =>
    intro u t hu h
    simp only [forLoop, bind, Except.bind] at h
    cases hm : forLoop n body u with
    | error e => rw [hm] at h; cases h
    | ok v =>
      rw [hm] at h
      exact hbody n v t (ih u v hu hm) h

theorem drawPixel_sp (X Y p r c : Nat) (u t : Chip8) (h : drawPixel X Y p r c u = .ok t) :
    t.sp = u.sp := by
  unfold drawPixel at h
  split_ifs at h with hb
  · simp only [readGfx, writeGfx, bind, Except.bind] at h
    split_ifs at h with h1 h2
    simp at h
    subst h
    dsimp only
    split_ifs
    all_goals rfl
  · cases h
    rfl

theorem drawRow_sp (X Y r : Nat) (u t : Chip8) (h : drawRow X Y r u = .ok t) :
    t.sp = u.sp := by
  unfold drawRow at h
  simp only [readMemory, bind, Except.bind] at h
  split_ifs at h with h1
  exact forLoop_inv (fun v => v.sp = u.sp) _
    (fun i v w hv hw => (drawPixel_sp X Y _ r i v w hw).trans hv) 8 u t rfl h

theorem execD_sp (s t : Chip8) (h : execD s = .ok t) : t.sp = s.sp := by
  unfold execD at h
  simp only [bind, Except.bind] at h
  cases hm : forLoop (s.opcode &&& 0x000F)
      (drawRow (s.V (regX s.opcode)) (s.V (regY s.opcode))) (setV s 15 0) with
  | error e => rw [hm] at h; cases h
  | ok v =>
    rw [hm] at h
    have hv : v.sp = s.sp :=
      forLoop_inv (fun w => w.sp = s.sp) _
        (fun i a b ha hb => (drawRow_sp _ _ i a b hb).trans ha) _ _ v rfl hm
    cases h
    exact hv

theorem exec8_sp (s : Chip8) : (exec8 s).sp = s.sp := by
  unfold exec8
  dsimp only
  split_ifs <;> rfl

theorem execE_sp (s t : Chip8) (h : execE s = .ok t) : t.sp = s.sp := by
  unfold execE at h
  simp only [readKey, bind, Except.bind] at h
  split_ifs at h
  all_goals first
    | (cases h; rfl)
    | (simp only [Except.ok.injEq] at h; subst h; split_ifs <;> rfl)


theorem writeMemory_sp (s : Chip8) (i v : Nat) (t : Chip8) (h : writeMemory s i v = .ok t) :
    t.sp = s.sp := by
  unfold writeMemory at h
  split_ifs at h
  cases h
  rfl

theorem scanKey_sp (x i : Nat) (p q : Chip8 × Bool) (h : scanKey x i p = .ok q) :
    q.1.sp = p.1.sp := by
  unfold scanKey at h
  split_ifs at h <;> cases h <;> rfl

/-- Inversion of a successful monadic bind. -/
theorem bind_ok {α β : Type} {m : Except Fault α} {f : α → Except Fault β} {b : β}
    (h : (m >>= f) = .ok b) : ∃ a, m = .ok a ∧ f a = .ok b := by
  cases m with
  | error e => cases h
  | ok a => exact ⟨a, rfl, h⟩

/-- Inversion of a successful `Except.map`. -/
theorem map_ok {α β : Type} {m : Except Fault α} {f : α → β} {b : β}
    (h : m.map f = .ok b) : ∃ a, m = .ok a ∧ f a = b := by
  cases m with
  | error e => cases h
  | ok a => exact ⟨a, rfl, Except.ok.inj h⟩

theorem execFX0A_sp (s : Chip8) (f : Flow) (t : Chip8) (h : execFX0A s = .ok (f, t)) :
    t.sp = s.sp := by
  obtain ⟨p, hm, hp⟩ := bind_ok h
  have hsp : p.1.sp = s.sp :=
    forLoop_inv (fun q => q.1.sp = s.sp) _
      (fun i a b ha hb => (scanKey_sp _ i a b hb).trans ha) _ _ p rfl hm
  split_ifs at hp <;> cases hp <;> exact hsp

theorem execFX33_sp (s t : Chip8) (h : execFX33 s = .ok t) : t.sp = s.sp := by
  obtain ⟨s1, h1, h⟩ := bind_ok h
  obtain ⟨s2, h2, h⟩ := bind_ok h
  obtain ⟨s3, h3, h⟩ := bind_ok h
  cases h
  have e1 := writeMemory_sp _ _ _ _ h1
  have e2 := writeMemory_sp _ _ _ _ h2
  have e3 := writeMemory_sp _ _ _ _ h3
  show s3.sp = s.sp
  rw [e3, e2, e1]

theorem execFX55_sp (s t : Chip8) (h : execFX55 s = .ok t) : t.sp = s.sp := by
  obtain ⟨v, hm, h⟩ := bind_ok h
  have hv : v.sp = s.sp :=
    forLoop_inv (fun w => w.sp = s.sp) _
      (fun i a b ha hb => (writeMemory_sp _ _ _ b hb).trans ha) _ _ v rfl hm
  cases h
  exact hv

theorem loadReg_sp (i : Nat) (u t : Chip8) (h : loadReg i u = .ok t) : t.sp = u.sp := by
  obtain ⟨b, _, h⟩ := bind_ok h
  cases h
  rfl

theorem execFX65_sp (s t : Chip8) (h : execFX65 s = .ok t) : t.sp = s.sp := by
  obtain ⟨v, hm, h⟩ := bind_ok h
  have hv : v.sp = s.sp :=
    forLoop_inv (fun w => w.sp = s.sp) _
      (fun i a b ha hb => (loadReg_sp i a b hb).trans ha) _ _ v rfl hm
  cases h
  exact hv

theorem execF_sp (s : Chip8) (f : Flow) (t : Chip8) (h : execF s = .ok (f, t)) :
    t.sp = s.sp := by
  unfold execF at h
  dsimp only at h
  split_ifs at h
  all_goals first
    | (cases h; rfl)
    | exact execFX0A_sp s f t h
    | (obtain ⟨a, ha, e⟩ := map_ok h
       cases e
       first
         | exact execFX33_sp s _ ha
         | exact execFX55_sp s _ ha
         | exact execFX65_sp s _ ha)


/-- Case analysis on the outer switch: a property of `dispatch s rnd` follows
from the property of each `case` body under the condition selecting it. -/
theorem dispatch_elim (s : Chip8) (rnd : Nat) (P : Except Fault (Flow × Chip8) → Prop)
    (c0 : s.opcode &&& 0xF000 = 0x0000 → P ((exec0 s).map (fun r => (Flow.next, r))))
    (c1 : s.opcode &&& 0xF000 = 0x1000 →
      P (.ok (.next, { s with pc := s.opcode &&& 0x0FFF })))
    (c2 : s.opcode &&& 0xF000 = 0x2000 →
      P (writeStack s s.sp s.pc >>= fun s1 =>
        .ok (.next, { s1 with sp := (s1.sp + 1) % 65536, pc := s.opcode &&& 0x0FFF })))
    (c3 : s.opcode &&& 0xF000 = 0x3000 →
      P (.ok (.next, if s.V (regX s.opcode) = (s.opcode &&& 0x00FF) then advance s 4
        else advance s 2)))
    (c4 : s.opcode &&& 0xF000 = 0x4000 →
      P (.ok (.next, if s.V (regX s.opcode) ≠ (s.opcode &&& 0x00FF) then advance s 4
        else advance s 2)))
    (c5 : s.opcode &&& 0xF000 = 0x5000 →
      P (.ok (.next, if s.V (regX s.opcode) = s.V (regY s.opcode) then advance s 4
        else advance s 2)))
    (c6 : s.opcode &&& 0xF000 = 0x6000 →
      P (.ok (.next, advance (setV s (regX s.opcode) (s.opcode &&& 0x00FF)) 2)))
    (c7 : s.opcode &&& 0xF000 = 0x7000 →
      P (.ok (.next, advance (setV s (regX s.opcode)
        ((s.V (regX s.opcode) + (s.opcode &&& 0x00FF)) % 256)) 2)))
    (c8 : s.opcode &&& 0xF000 = 0x8000 → P (.ok (.next, exec8 s)))
    (c9 : s.opcode &&& 0xF000 = 0x9000 →
      P (.ok (.next, if s.V (regX s.opcode) ≠ s.V (regY s.opcode) then advance s 4
        else advance s 2)))
    (cA : s.opcode &&& 0xF000 = 0xA000 →
      P (.ok (.next, advance { s with I := s.opcode &&& 0x0FFF } 2)))
    (cB : s.opcode &&& 0xF000 = 0xB000 →
      P (.ok (.next, { s with pc := ((s.opcode &&& 0x0FFF) + s.V 0) % 65536 })))
    (cC : s.opcode &&& 0xF000 = 0xC000 →
      P (.ok (.next, advance (setV s (regX s.opcode)
        ((rnd % 256) &&& (s.opcode &&& 0x00FF))) 2)))
    (cD : s.opcode &&& 0xF000 = 0xD000 → P ((execD s).map (fun r => (Flow.next, r))))
    (cE : s.opcode &&& 0xF000 = 0xE000 → P (execE s >>= execF))
    (cF : s.opcode &&& 0xF000 = 0xF000 → P (execF s))
    (cN : P (.ok (.next, s))) :
    P (dispatch s rnd) := by
  unfold dispatch
  dsimp only
  by_cases h0 : s.opcode &&& 0xF000 = 0x0000
  · rw [if_pos h0]; exact c0 h0
  rw [if_neg h0]
  by_cases h1 : s.opcode &&& 0xF000 = 0x1000
  · rw [if_pos h1]; exact c1 h1
  rw [if_neg h1]
  by_cases h2 : s.opcode &&& 0xF000 = 0x2000
  · rw [if_pos h2]; exact c2 h2
  rw [if_neg h2]
  by_cases h3 : s.opcode &&& 0xF000 = 0x3000
  · rw [if_pos h3]; exact c3 h3
  rw [if_neg h3]
  by_cases h4 : s.opcode &&& 0xF000 = 0x4000
  · rw [if_pos h4]; exact c4 h4
  rw [if_neg h4]
  by_cases h5 : s.opcode &&& 0xF000 = 0x5000
  · rw [if_pos h5]; exact c5 h5
  rw [if_neg h5]
  by_cases h6 : s.opcode &&& 0xF000 = 0x6000
  · rw [if_pos h6]; exact c6 h6
  rw [if_neg h6]
  by_cases h7 : s.opcode &&& 0xF000 = 0x7000
  · rw [if_pos h7]; exact c7 h7
  rw [if_neg h7]
  by_cases h8 : s.opcode &&& 0xF000 = 0x8000
  · rw [if_pos h8]; exact c8 h8
  rw [if_neg h8]
  by_cases h9 : s.opcode &&& 0xF000 = 0x9000
  · rw [if_pos h9]; exact c9 h9
  rw [if_neg h9]
  by_cases hA : s.opcode &&& 0xF000 = 0xA000
  · rw [if_pos hA]; exact cA hA
  rw [if_neg hA]
  by_cases hB : s.opcode &&& 0xF000 = 0xB000
  · rw [if_pos hB]; exact cB hB
  rw [if_neg hB]
  by_cases hC : s.opcode &&& 0xF000 = 0xC000
  · rw [if_pos hC]; exact cC hC
  rw [if_neg hC]
  by_cases hD : s.opcode &&& 0xF000 = 0xD000
  · rw [if_pos hD]; exact cD hD
  rw [if_neg hD]
  by_cases hE : s.opcode &&& 0xF000 = 0xE000
  · rw [if_pos hE]; exact cE hE
  rw [if_neg hE]
  by_cases hF : s.opcode &&& 0xF000 = 0xF000
  · rw [if_pos hF]; exact cF hF
  rw [if_neg hF]
  exact cN

theorem exec0_sp_le (s t : Chip8) (h : exec0 s = .ok t) (hsp : s.sp ≤ 16) : t.sp ≤ 16 := by
  unfold exec0 at h
  split_ifs at h
  · cases h
    exact hsp
  · obtain ⟨a, ha, e⟩ := bind_ok h
    cases e
    simp only [readStack] at ha
    split_ifs at ha with hlt
    exact Nat.le_of_lt hlt
  · cases h
    exact hsp

theorem dispatch_sp_le (s : Chip8) (rnd : Nat) (hsp : s.sp ≤ 16) :
    ∀ f t, dispatch s rnd = .ok (f, t) → t.sp ≤ 16 := by
  refine dispatch_elim s rnd (fun r => ∀ f t, r = .ok (f, t) → t.sp ≤ 16)
    ?_ ?_ ?_ ?_ ?_ ?_ ?_ ?_ ?_ ?_ ?_ ?_ ?_ ?_ ?_ ?_ ?_
  · intro _ f t h
    obtain ⟨a, ha, e⟩ := map_ok h
    cases e
    exact exec0_sp_le s _ ha hsp
  · intro _ f t h
    cases h
    exact hsp
  · intro _ f t h
    obtain ⟨a, ha, e⟩ := bind_ok h
    simp only [writeStack] at ha
    split_ifs at ha with hlt
    cases ha
    cases e
    show (s.sp + 1) % 65536 ≤ 16
    omega
  · intro _ f t h
    simp only [Except.ok.injEq, Prod.mk.injEq] at h
    obtain ⟨_, rfl⟩ := h
    split_ifs <;> exact hsp
  · intro _ f t h
    simp only [Except.ok.injEq, Prod.mk.injEq] at h
    obtain ⟨_, rfl⟩ := h
    split_ifs <;> exact hsp
  · intro _ f t h
    simp only [Except.ok.injEq, Prod.mk.injEq] at h
    obtain ⟨_, rfl⟩ := h
    split_ifs <;> exact hsp
  · intro _ f t h
    cases h
    exact hsp
  · intro _ f t h
    cases h
    exact hsp
  · intro _ f t h
    cases h
    exact (exec8_sp s).trans_le hsp
  · intro _ f t h
    simp only [Except.ok.injEq, Prod.mk.injEq] at h
    obtain ⟨_, rfl⟩ := h
    split_ifs <;> exact hsp
  · intro _ f t h
    cases h
    exact hsp
  · intro _ f t h
    cases h
    exact hsp
  · intro _ f t h
    cases h
    exact hsp
  · intro _ f t h
    obtain ⟨a, ha, e⟩ := map_ok h
    cases e
    exact (execD_sp s _ ha).trans_le hsp
  · intro _ f t h
    obtain ⟨a, ha, e⟩ := bind_ok h
    have h1 := execE_sp s a ha
    have h2 := execF_sp a f t e
    omega
  · intro _ f t h
    exact (execF_sp s f t h).trans_le hsp
  · intro f t h
    cases h
    exact hsp

/-- A cycle that completes has fetched its instruction word. -/
theorem fetches_of_ok {s : Chip8} {rnd : Nat} {t : Chip8} (h : emulateCycle s rnd = .ok t) :
    Fetches s (((s.memory s.pc <<< 8) ||| s.memory (s.pc + 1)) % 65536) := by
  refine ⟨?_, rfl⟩
  by_contra hlt
  unfold emulateCycle fetch readMemory at h
  by_cases h0 : s.pc < 4096
  · simp [h0, hlt, bind, Except.bind] at h
  · simp [h0, bind, Except.bind] at h


/-- C7 (as the code behaves): from a stack pointer in 0..16, a cycle that
completes leaves the stack pointer in 0..16; 2NNN with stack pointer below 16
completes and raises it by one, 00EE with stack pointer in 1..16 completes and
lowers it by one.  There is no overflow or underflow check: 2NNN at stack
pointer 16 subscripts `stack[16]`, past the sixteen entries, and 00EE at stack
pointer 0 wraps the 16-bit stack pointer to 65535 and subscripts
`stack[65535]`; neither cycle has a defined result. -/
theorem stack_pointer_range (s : Chip8) (rnd : Nat) (hsp : s.sp ≤ 16) :
    (∀ t, emulateCycle s rnd = .ok t → t.sp ≤ 16) ∧
    (∀ nnn < 4096, Fetches s (0x2000 + nnn) → s.sp < 16 →
      ∃ t, emulateCycle s rnd = .ok t ∧ t.sp = s.sp + 1) ∧
    (Fetches s 0x00EE → 1 ≤ s.sp →
      ∃ t, emulateCycle s rnd = .ok t ∧ t.sp = s.sp - 1) ∧
    (∀ nnn < 4096, Fetches s (0x2000 + nnn) → s.sp = 16 →
      emulateCycle s rnd = .error (.stackIndex 16)) ∧
    (Fetches s 0x00EE → s.sp = 0 →
      emulateCycle s rnd = .error (.stackIndex 65535)) := by
  refine ⟨fun t h => ?_, fun nnn hn hf hlt => ?_, fun hf h1 => ?_, fun nnn hn hf h16 => ?_,
    fun hf h0 => ?_⟩
  · have hf := fetches_of_ok h
    rw [emulateCycle_of_fetches rnd hf] at h
    obtain ⟨r, hr, e⟩ := bind_ok h
    have hle := dispatch_sp_le
      { s with opcode := ((s.memory s.pc <<< 8) ||| s.memory (s.pc + 1)) % 65536 } rnd hsp
      r.1 r.2 hr
    cases hfl : r.1 with
    | next =>
      rw [hfl] at e
      cases e
      rw [timers_sp]
      exact hle
    | ret =>
      rw [hfl] at e
      cases e
      exact hle
  · obtain ⟨t, e, h1, _⟩ := call_step s rnd nnn hn hf hlt
    exact ⟨t, e, h1⟩
  · obtain ⟨t, e, h2, _⟩ := return_step s rnd hf h1 hsp
    exact ⟨t, e, h2⟩
  · have d1 : (0x2000 + nnn) &&& 0xF000 = 0x2000 := by rw [and_F000]; omega
    rw [emulateCycle_of_fetches rnd hf]
    simp [dispatch, d1, writeStack, h16, bind, Except.bind]
  · have hd : (s.sp + 65535) % 65536 = 65535 := by omega
    have d1 : (0x00EE : Nat) &&& 0xF000 = 0x0000 := by decide
    have d2 : (0x00EE : Nat) &&& 0x000F = 0x000E := by decide
    rw [emulateCycle_of_fetches rnd hf, dispatch_family0 { s with opcode := 0x00EE } rnd d1,
      exec0_return { s with opcode := 0x00EE } d2]
    simp [readStack, hd, bind, Except.bind, Except.map]

/-- C7 (counterexample to the reporting of overflow and underflow): the 17th
nested call, 2300 executed with stack pointer 16, ends in the out-of-range
subscript `stack[16]` instead of a stack pointer left at 16; 00EE executed with
stack pointer 0 ends in the subscript `stack[65535]`, the stack pointer having
wrapped. -/
theorem stack_overflow_underflow_counterexample :
    fullStackCall.sp = 16 ∧
    emulateCycle fullStackCall 0 = .error (.stackIndex 16) ∧
    (¬ ∃ t, emulateCycle fullStackCall 0 = .ok t ∧ t.sp = 16) ∧
    emptyStackReturn.sp = 0 ∧
    emulateCycle emptyStackReturn 0 = .error (.stackIndex 65535) ∧
    (¬ ∃ t, emulateCycle emptyStackReturn 0 = .ok t) := by
  have h1 : emulateCycle fullStackCall 0 = .error (.stackIndex 16) := rfl
  have h2 : emulateCycle emptyStackReturn 0 = .error (.stackIndex 65535) := rfl
  refine ⟨rfl, h1, ?_, rfl, h2, ?_⟩
  · rintro ⟨t, e, _⟩
    rw [h1] at e
    cases e
  · rintro ⟨t, e⟩
    rw [h2] at e
    cases e

/-- C7 at concrete machines: a call, a return, the 17th nested call, a return
from the empty stack, and a cycle that touches no stack. -/
theorem stack_pointer_range_witness :
    (callProgram.sp ≤ 16 ∧ 0x204 < 4096 ∧ Fetches callProgram (0x2000 + 0x204) ∧
      callProgram.sp < 16 ∧ ∃ t, emulateCycle callProgram 0 = .ok t ∧ t.sp = 1) ∧
    (returnState.sp ≤ 16 ∧ Fetches returnState 0x00EE ∧ 1 ≤ returnState.sp ∧
      ∃ t, emulateCycle returnState 0 = .ok t ∧ t.sp = 0) ∧
    (fullStackCall.sp ≤ 16 ∧ 0x300 < 4096 ∧ Fetches fullStackCall (0x2000 + 0x300) ∧
      fullStackCall.sp = 16 ∧ emulateCycle fullStackCall 0 = .error (.stackIndex 16)) ∧
    (emptyStackReturn.sp ≤ 16 ∧ Fetches emptyStackReturn 0x00EE ∧ emptyStackReturn.sp = 0 ∧
      emulateCycle emptyStackReturn 0 = .error (.stackIndex 65535)) ∧
    (skipProgram.sp ≤ 16 ∧ ∃ t, emulateCycle skipProgram 0 = .ok t ∧ t.sp ≤ 16) :=
  ⟨⟨by decide, by decide, by decide, by decide,
      (stack_pointer_range callProgram 0 (by decide)).2.1 0x204 (by decide) (by decide)
        (by decide)⟩,
    ⟨by decide, by decide, by decide,
      (stack_pointer_range returnState 0 (by decide)).2.2.1 (by decide) (by decide)⟩,
    ⟨by decide, by decide, by decide, rfl,
      (stack_pointer_range fullStackCall 0 (by decide)).2.2.2.1 0x300 (by decide) (by decide)
        rfl⟩,
    ⟨by decide, by decide, rfl,
      (stack_pointer_range emptyStackReturn 0 (by decide)).2.2.2.2 (by decide) rfl⟩,
    ⟨by decide, _, rfl, (stack_pointer_range skipProgram 0 (by decide)).1 _ rfl⟩⟩


/-! ## Undefined instruction words (C8) -/

theorem execF_default (s : Chip8) (h : NoCaseF s.opcode) : execF s = .ok (.next, s) := by
  obtain ⟨a1, a2, a3, a4, a5, a6, a7, a8, a9⟩ := h
  unfold execF
  dsimp only
  rw [if_neg a1, if_neg a2, if_neg a3, if_neg a4, if_neg a5, if_neg a6, if_neg a7, if_neg a8,
    if_neg a9]

theorem dispatch_default (s : Chip8) (rnd : Nat) (hd : ReachesDefault s.opcode) :
    dispatch s rnd = .ok (.next, s) := by
  rcases hd with ⟨h0, a, b⟩ | ⟨h8, a, b⟩ | ⟨hF, hn⟩ | ⟨hE, a, b, hn⟩
  · rw [dispatch_family0 s rnd h0]
    unfold exec0
    rw [if_neg a, if_neg b]
    rfl
  · have e : exec8 s = s := by
      unfold exec8
      dsimp only
      split_ifs
      all_goals first
        | omega
        | rfl
    refine dispatch_elim s rnd (fun r => r = .ok (.next, s)) ?_ ?_ ?_ ?_ ?_ ?_ ?_ ?_ ?_ ?_ ?_
      ?_ ?_ ?_ ?_ ?_ ?_
    all_goals first
      | (intro h; rw [h8] at h; exact absurd h (by decide))
      | (intro _; show Except.ok (Flow.next, exec8 s) = _; rw [e])
      | rfl
  · refine dispatch_elim s rnd (fun r => r = .ok (.next, s)) ?_ ?_ ?_ ?_ ?_ ?_ ?_ ?_ ?_ ?_ ?_
      ?_ ?_ ?_ ?_ ?_ ?_
    all_goals first
      | (intro h; rw [hF] at h; exact absurd h (by decide))
      | (intro _; exact execF_default s hn)
      | rfl
  · have e : execE s = .ok s := by
      unfold execE
      rw [if_neg a, if_neg b]
    refine dispatch_elim s rnd (fun r => r = .ok (.next, s)) ?_ ?_ ?_ ?_ ?_ ?_ ?_ ?_ ?_ ?_ ?_
      ?_ ?_ ?_ ?_ ?_ ?_
    all_goals first
      | (intro h; rw [hE] at h; exact absurd h (by decide))
      | (intro _; show (execE s >>= execF) = _; rw [e]; exact execF_default s hn)
      | rfl


/-- C8 (as the code behaves): when the fetched word is decoded to `default`
branches only, one cycle succeeds and leaves registers, I, memory, stack, stack
pointer, frame buffer and also PC unchanged: the PC is not advanced.  The
words 8XY8, 8XY9, 00E1 and FX00 are of that kind for all X and Y. -/
theorem unknown_opcode_keeps_pc (s : Chip8) (rnd w : Nat)
    (hf : Fetches s w) (hd : ReachesDefault w) :
    (∃ t, emulateCycle s rnd = .ok t ∧ SameData s t ∧ t.pc = s.pc) ∧
    (∀ X < 16, ∀ Y < 16,
      ReachesDefault (0x8000 + 256 * X + 16 * Y + 8) ∧
      ReachesDefault (0x8000 + 256 * X + 16 * Y + 9) ∧
      ReachesDefault 0x00E1 ∧
      ReachesDefault (0xF000 + 256 * X)) := by
  constructor
  · rw [emulateCycle_of_fetches rnd hf,
      dispatch_default { s with opcode := w } rnd hd]
    refine ⟨_, rfl, ?_, ?_⟩
    · simp [SameData]
    · simp
  · intro X hX Y hY
    refine ⟨Or.inr (Or.inl ?_), Or.inr (Or.inl ?_), by decide, Or.inr (Or.inr (Or.inl ?_))⟩
    · rw [and_F000, and_000F]
      omega
    · rw [and_F000, and_000F]
      omega
    · unfold NoCaseF
      rw [and_F000, and_00FF]
      omega

/-- C8 (counterexample): the undefined word 8008 leaves PC at 0x200 instead of
0x202; and the word 0010, which is no defined encoding either, is executed as
a clear-screen: it clears a lit cell and advances PC. -/
theorem unknown_opcode_counterexample :
    (∃ t, emulateCycle unknownWord 0 = .ok t ∧ unknownWord.pc = 0x200 ∧ t.pc = 0x200 ∧
      t.pc ≠ unknownWord.pc + 2) ∧
    (∃ t, emulateCycle strayClear 0 = .ok t ∧ strayClear.gfx 0 = 1 ∧ t.gfx 0 = 0 ∧
      t.pc = 0x202) :=
  ⟨⟨_, rfl, by decide, by decide, by decide⟩, ⟨_, rfl, by decide, by decide, by decide⟩⟩

/-- C8 at a concrete machine: the undefined word 8008. -/
theorem unknown_opcode_keeps_pc_witness :
    Fetches unknownWord 0x8008 ∧ ReachesDefault 0x8008 ∧
    ∃ t, emulateCycle unknownWord 7 = .ok t ∧ SameData unknownWord t ∧
      t.pc = unknownWord.pc :=
  ⟨by decide, by decide, (unknown_opcode_keeps_pc unknownWord 7 0x8008 (by decide)
    (by decide)).1⟩


/-! ## Decimal digits: FX33 (C9) -/

theorem decodeF {X n : Nat} (hX : X < 16) (hn : n < 256) :
    (0xF000 + 256 * X + n) &&& 0xF000 = 0xF000 ∧
    regX (0xF000 + 256 * X + n) = X ∧
    (0xF000 + 256 * X + n) &&& 0x00FF = n := by
  rw [and_F000, regX_eq, and_00FF]
  omega

/-- C9: with VX = v in 0..255 and I + 2 ≤ 4095, one cycle executing FX33
succeeds and writes Memory[I] = v / 100, Memory[I+1] = (v / 10) mod 10 and
Memory[I+2] = v mod 10; each written byte is a decimal digit and
100 * Memory[I] + 10 * Memory[I+1] + Memory[I+2] = v; every other memory byte,
every register and I are unchanged. -/
theorem bcd_FX33 (s : Chip8) (rnd X : Nat) (hX : X < 16)
    (hf : Fetches s (0xF000 + 256 * X + 0x33)) (hv : s.V X ≤ 255) (hI : s.I + 2 ≤ 4095) :
    ∃ t, emulateCycle s rnd = .ok t ∧
      t.memory s.I = s.V X / 100 ∧
      t.memory (s.I + 1) = (s.V X / 10) % 10 ∧
      t.memory (s.I + 2) = s.V X % 10 ∧
      t.memory s.I ≤ 9 ∧ t.memory (s.I + 1) ≤ 9 ∧ t.memory (s.I + 2) ≤ 9 ∧
      100 * t.memory s.I + 10 * t.memory (s.I + 1) + t.memory (s.I + 2) = s.V X ∧
      (∀ a, a ≠ s.I → a ≠ s.I + 1 → a ≠ s.I + 2 → t.memory a = s.memory a) ∧
      t.V = s.V ∧ t.I = s.I := by
  obtain ⟨d1, d2, d3⟩ := decodeF hX (show 0x33 < 256 by decide)
  have i0 : s.I < 4096 := by omega
  have i1 : s.I + 1 < 4096 := by omega
  have i2 : s.I + 2 < 4096 := by omega
  rw [emulateCycle_of_fetches rnd hf]
  simp [dispatch, d1, execF, d3, execFX33, d2, writeMemory, i0, i1, i2, bind, Except.bind,
    Except.map, advance, store]
  refine ⟨by omega, by omega, by omega, by omega, ?_⟩
  intro a h0 h1 h2
  simp [h0, h1, h2]


/-- C9 at a concrete machine: VX = 234 writes 2, 3, 4. -/
theorem bcd_FX33_witness :
    (0 < 16 ∧ Fetches bcdState (0xF000 + 256 * 0 + 0x33) ∧ bcdState.V 0 ≤ 255 ∧
      bcdState.I + 2 ≤ 4095 ∧ bcdState.V 0 = 234) ∧
    ∃ t, emulateCycle bcdState 0 = .ok t ∧
      t.memory 0x300 = 2 ∧ t.memory 0x301 = 3 ∧ t.memory 0x302 = 4 := by
  refine ⟨⟨by decide, by decide, by decide, by decide, by decide⟩, ?_⟩
  obtain ⟨t, e, h0, h1, h2, _⟩ :=
    bcd_FX33 bcdState 0 0 (by decide) (by decide) (by decide) (by decide)
  exact ⟨t, e, h0.trans (by decide), h1.trans (by decide), h2.trans (by decide)⟩

/-! ## Register store and load: FX55, FX65 (C10) -/

/-- The loop of FX55 cut after `n` registers: V0..V(n-1) are copied to
`memory[I ..]`, nothing else in memory changes, I and the registers stay. -/
theorem storeLoop_spec (n : Nat) (s : Chip8) (h : s.I + n ≤ 4096) :
    ∃ t, forLoop n storeReg s = .ok t ∧ t.I = s.I ∧ t.V = s.V ∧
      (∀ i < n, t.memory (s.I + i) = s.V i) ∧
      (∀ j, (j < s.I ∨ s.I + n ≤ j) → t.memory j = s.memory j) := by
  induction n with
  | zero => exact ⟨s, rfl, rfl, rfl, fun i hi => absurd hi (Nat.not_lt_zero i), fun _ _ => rfl⟩
  | succ n ih =>
    obtain ⟨t1, e1, hI, hV, hin, hout⟩ := ih (by omega)
    have hlt : t1.I + n < 4096 := by omega
    refine ⟨{ t1 with memory := store t1.memory (t1.I + n) (t1.V n) }, ?_, hI, hV, ?_, ?_⟩
    · simp only [forLoop, e1, bind, Except.bind, storeReg, writeMemory, hlt, if_true]
    · intro i hi
      show store t1.memory (t1.I + n) (t1.V n) (s.I + i) = s.V i
      rcases Nat.lt_succ_iff_lt_or_eq.mp hi with h1 | h1
      · have : ¬ s.I + i = t1.I + n := by omega
        simp only [store, this, if_false]
        exact hin i h1
      · subst h1
        simp [store, hI, hV]
    · intro j hj
      show store t1.memory (t1.I + n) (t1.V n) j = s.memory j
      have : ¬ j = t1.I + n := by omega
      simp only [store, this, if_false]
      exact hout j (by omega)

/-- The loop of FX65 cut after `n` registers: V0..V(n-1) receive
`memory[I ..]`, the other registers, memory and I stay. -/
theorem loadLoop_spec (n : Nat) (s : Chip8) (h : s.I + n ≤ 4096) :
    ∃ t, forLoop n loadReg s = .ok t ∧ t.I = s.I ∧ t.memory = s.memory ∧
      (∀ i < n, t.V i = s.memory (s.I + i)) ∧
      (∀ i, n ≤ i → t.V i = s.V i) := by
  induction n with
  | zero => exact ⟨s, rfl, rfl, rfl, fun i hi => absurd hi (Nat.not_lt_zero i), fun _ _ => rfl⟩
  | succ n ih =>
    obtain ⟨t1, e1, hI, hM, hin, hout⟩ := ih (by omega)
    have hlt : t1.I + n < 4096 := by omega
    refine ⟨setV t1 n (t1.memory (t1.I + n)), ?_, hI, hM, ?_, ?_⟩
    · simp only [forLoop, e1, bind, Except.bind, loadReg, readMemory, hlt, if_true]
    · intro i hi
      show store t1.V n (t1.memory (t1.I + n)) i = s.memory (s.I + i)
      rcases Nat.lt_succ_iff_lt_or_eq.mp hi with h1 | h1
      · have : ¬ i = n := by omega
        simp only [store, this, if_false]
        exact hin i h1
      · subst h1
        simp [store, hI, hM]
    · intro i hi
      show store t1.V n (t1.memory (t1.I + n)) i = s.V i
      have : ¬ i = n := by omega
      simp only [store, this, if_false]
      exact hout i (by omega)


/-- C10: for X in 0..15 and an address a with a + X ≤ 4095, a cycle executing
FX55 with I = a succeeds; and any later machine whose memory still holds the
bytes stored at a..a+X, whatever its registers, and whose I is again a,
executing FX65 gets V0..VX equal to their values before the FX55. -/
theorem store_load_roundtrip (s : Chip8) (r1 r2 X a : Nat) (hX : X < 16) (ha : a + X ≤ 4095)
    (hI : s.I = a) (hf : Fetches s (0xF000 + 256 * X + 0x55)) :
    ∃ s2, emulateCycle s r1 = .ok s2 ∧
      ∀ u : Chip8, (∀ i ≤ X, u.memory (a + i) = s2.memory (a + i)) → u.I = a →
        Fetches u (0xF000 + 256 * X + 0x65) →
        ∃ t, emulateCycle u r2 = .ok t ∧ ∀ i ≤ X, t.V i = s.V i := by
  obtain ⟨d1, d2, d3⟩ := decodeF hX (show 0x55 < 256 by decide)
  obtain ⟨v, ev, _, _, vin, _⟩ :=
    storeLoop_spec (X + 1) { s with opcode := 0xF000 + 256 * X + 0x55 }
      (show s.I + (X + 1) ≤ 4096 by omega)
  refine ⟨timers (advance { v with I := (v.I + (X + 1)) % 65536 } 2), ?_, ?_⟩
  · rw [emulateCycle_of_fetches r1 hf]
    simp [dispatch, d1, execF, d3, execFX55, d2, ev, bind, Except.bind, Except.map]
  · intro u hmem huI hfu
    obtain ⟨e1, e2, e3⟩ := decodeF hX (show 0x65 < 256 by decide)
    obtain ⟨t1, et, _, _, tin, _⟩ :=
      loadLoop_spec (X + 1) { u with opcode := 0xF000 + 256 * X + 0x65 }
        (show u.I + (X + 1) ≤ 4096 by omega)
    refine ⟨timers (advance { t1 with I := (t1.I + (X + 1)) % 65536 } 2), ?_, ?_⟩
    · rw [emulateCycle_of_fetches r2 hfu]
      simp [dispatch, e1, execF, e3, execFX65, e2, et, bind, Except.bind, Except.map]
    · intro i hi
      have h1 := tin i (by omega)
      have h2 := vin i (by omega)
      have h3 := hmem i hi
      simp only [timers_V, advance] at *
      simp only [timers_memory] at h3
      rw [h1]
      show u.memory (u.I + i) = s.V i
      rw [huI, h3]
      show v.memory (a + i) = s.V i
      rw [← hI]
      exact h2

/-- C10 at a concrete machine with X = 5: V0..V5 = 1..6 are stored at 0x300,
the registers are overwritten with 0xAA, I is set back to 0x300, and the load
restores 1..6. -/
theorem store_load_roundtrip_witness :
    (5 < 16 ∧ 0x300 + 5 ≤ 4095 ∧ roundTripStart.I = 0x300 ∧
      Fetches roundTripStart (0xF000 + 256 * 5 + 0x55)) ∧
    ∃ s2, emulateCycle roundTripStart 0 = .ok s2 ∧
      Fetches { s2 with V := fun _ => 0xAA, I := 0x300 } (0xF000 + 256 * 5 + 0x65) ∧
      ∃ t, emulateCycle { s2 with V := fun _ => 0xAA, I := 0x300 } 0 = .ok t ∧
        t.V 0 = 1 ∧ t.V 1 = 2 ∧ t.V 2 = 3 ∧ t.V 3 = 4 ∧ t.V 4 = 5 ∧ t.V 5 = 6 := by
  refine ⟨⟨by decide, by decide, rfl, by decide⟩, ?_⟩
  obtain ⟨s2, e, h⟩ := store_load_roundtrip roundTripStart 0 0 5 0x300 (by decide) (by decide)
    rfl (by decide)
  have hfu : Fetches { s2 with V := fun _ => 0xAA, I := 0x300 } (0xF000 + 256 * 5 + 0x65) := by
    obtain rfl : _ = s2 := Except.ok.inj e
    decide
  obtain ⟨t, et, hv⟩ := h { s2 with V := fun _ => 0xAA, I := 0x300 } (fun _ _ => rfl) rfl hfu
  exact ⟨s2, e, hfu, t, et, hv 0 (by decide), hv 1 (by decide), hv 2 (by decide),
    hv 3 (by decide), hv 4 (by decide), hv 5 (by decide)⟩


/-! ## The index register after FX55 and FX65 (C11) -/

/-- C11 (evaluation at the failing inputs): F055 executed with I = 0x300 ends
with I = 0x301, and F565 executed with I = 0x300 ends with I = 0x306: after
the copy both instructions add X + 1 to I. -/
theorem index_register_moved_by_FX55_FX65 :
    (storeV0.I = 0x300 ∧ ∃ t, emulateCycle storeV0 0 = .ok t ∧ t.I = 0x301) ∧
    (loadV0toV5.I = 0x300 ∧ ∃ t, emulateCycle loadV0toV5 0 = .ok t ∧ t.I = 0x306) :=
  ⟨⟨rfl, _, rfl, by decide⟩, ⟨rfl, _, rfl, by decide⟩⟩


/-! ## Frame lemmas for the switch -/

theorem Quiet.same (u : Chip8) : Quiet u u := ⟨rfl, rfl, rfl, rfl, rfl⟩

theorem Quiet.chain {u v t : Chip8} (h1 : Quiet u v) (h2 : Quiet v t) : Quiet u t := by
  obtain ⟨a1, a2, a3, a4, a5⟩ := h1
  obtain ⟨b1, b2, b3, b4, b5⟩ := h2
  exact ⟨b1.trans a1, b2.trans a2, b3.trans a3, b4.trans a4, b5.trans a5⟩

theorem Quiet.advance (s : Chip8) (k : Nat) : Quiet s (advance s k) := ⟨rfl, rfl, rfl, rfl, rfl⟩

theorem Quiet.setV (s : Chip8) (i v : Nat) : Quiet s (setV s i v) := ⟨rfl, rfl, rfl, rfl, rfl⟩

/-- A sprite bit whose drawing completes leaves everything but `gfx` and VF. -/
theorem drawPixel_frame (X Y p r c : Nat) (u t : Chip8) (h : drawPixel X Y p r c u = .ok t) :
    DrawFrame u t := by
  unfold drawPixel at h
  by_cases hb : p &&& (0x80 >>> c) ≠ 0
  · rw [if_pos hb] at h
    obtain ⟨g, _, h⟩ := bind_ok h
    simp only [writeGfx] at h
    split_ifs at h with hg hlt
    · cases h
      exact ⟨rfl, rfl, rfl, rfl, rfl, rfl, rfl, rfl, rfl, rfl,
        fun i hi => by simp [Chip8Emu.setV, store, hi]⟩
    · cases h
      exact DrawFrame.refl u
  · rw [if_neg hb] at h
    cases h
    exact DrawFrame.refl u

theorem drawRow_frame (X Y r : Nat) (u t : Chip8) (h : drawRow X Y r u = .ok t) :
    DrawFrame u t := by
  obtain ⟨p, _, h⟩ := bind_ok h
  exact forLoop_inv (fun v => DrawFrame u v) _
    (fun i v w hv hw => hv.trans (drawPixel_frame X Y p r i v w hw)) 8 u t (DrawFrame.refl u) h

theorem drawRows_frame (X Y n : Nat) (u t : Chip8) (h : forLoop n (drawRow X Y) u = .ok t) :
    DrawFrame u t :=
  forLoop_inv (fun v => DrawFrame u v) _
    (fun i v w hv hw => hv.trans (drawRow_frame X Y i v w hw)) n u t (DrawFrame.refl u) h

theorem writeMemory_quiet (s : Chip8) (i v : Nat) (t : Chip8) (h : writeMemory s i v = .ok t) :
    Quiet s t := by
  unfold writeMemory at h
  split_ifs at h
  cases h
  exact Quiet.same s

theorem scanKey_quiet (x i : Nat) (p q : Chip8 × Bool) (h : scanKey x i p = .ok q) :
    Quiet p.1 q.1 := by
  unfold scanKey at h
  split_ifs at h <;> cases h
  · exact Quiet.setV p.1 x i
  · exact Quiet.same p.1

theorem execFX0A_quiet (s : Chip8) (f : Flow) (t : Chip8) (h : execFX0A s = .ok (f, t)) :
    Quiet s t := by
  obtain ⟨p, hm, hp⟩ := bind_ok h
  have hq : Quiet s p.1 :=
    forLoop_inv (fun q => Quiet s q.1) _
      (fun i a b ha hb => ha.chain (scanKey_quiet _ i a b hb)) _ _ p (Quiet.same s) hm
  split_ifs at hp <;> cases hp
  · exact hq
  · exact hq.chain (Quiet.advance _ 2)

theorem execFX33_quiet (s t : Chip8) (h : execFX33 s = .ok t) : Quiet s t := by
  obtain ⟨s1, h1, h⟩ := bind_ok h
  obtain ⟨s2, h2, h⟩ := bind_ok h
  obtain ⟨s3, h3, h⟩ := bind_ok h
  cases h
  exact (((writeMemory_quiet _ _ _ _ h1).chain (writeMemory_quiet _ _ _ _ h2)).chain
    (writeMemory_quiet _ _ _ _ h3)).chain (Quiet.advance _ 2)

theorem execFX55_quiet (s t : Chip8) (h : execFX55 s = .ok t) : Quiet s t := by
  obtain ⟨v, hm, h⟩ := bind_ok h
  have hv : Quiet s v :=
    forLoop_inv (fun w => Quiet s w) _
      (fun i a b ha hb => ha.chain (writeMemory_quiet _ _ _ b hb)) _ _ v (Quiet.same s) hm
  cases h
  exact hv

theorem loadReg_quiet (i : Nat) (u t : Chip8) (h : loadReg i u = .ok t) : Quiet u t := by
  obtain ⟨b, _, h⟩ := bind_ok h
  cases h
  exact Quiet.setV u i b

theorem execFX65_quiet (s t : Chip8) (h : execFX65 s = .ok t) : Quiet s t := by
  obtain ⟨v, hm, h⟩ := bind_ok h
  have hv : Quiet s v :=
    forLoop_inv (fun w => Quiet s w) _
      (fun i a b ha hb => ha.chain (loadReg_quiet i a b hb)) _ _ v (Quiet.same s) hm
  cases h
  exact hv

theorem exec8_quiet (s : Chip8) : Quiet s (exec8 s) := by
  unfold exec8
  dsimp only
  split_ifs
  all_goals exact ⟨rfl, rfl, rfl, rfl, rfl⟩

theorem execE_quiet (s t : Chip8) (h : execE s = .ok t) : Quiet s t := by
  unfold execE at h
  simp only [readKey, bind, Except.bind] at h
  split_ifs at h
  all_goals first
    | (cases h; exact Quiet.same s)
    | (simp only [Except.ok.injEq] at h; subst h; split_ifs <;> exact ⟨rfl, rfl, rfl, rfl, rfl⟩)

/-- Case analysis on the inner switch of family F. -/
theorem execF_elim (s : Chip8) (P : Except Fault (Flow × Chip8) → Prop)
    (c07 : s.opcode &&& 0x00FF = 0x0007 →
      P (.ok (.next, advance (setV s (regX s.opcode) s.delay_timer) 2)))
    (c0A : s.opcode &&& 0x00FF = 0x000A → P (execFX0A s))
    (c15 : s.opcode &&& 0x00FF = 0x0015 →
      P (.ok (.next, advance { s with delay_timer := s.V (regX s.opcode) } 2)))
    (c18 : s.opcode &&& 0x00FF = 0x0018 →
      P (.ok (.next, advance { s with sound_timer := s.V (regX s.opcode) } 2)))
    (c1E : s.opcode &&& 0x00FF = 0x001E →
      P (.ok (.next, advance
        { setV s 0xF (if s.I + s.V (regX s.opcode) > 0xFFF then 1 else 0) with
          I := ((setV s 0xF (if s.I + s.V (regX s.opcode) > 0xFFF then 1 else 0)).I +
            (setV s 0xF (if s.I + s.V (regX s.opcode) > 0xFFF then 1 else 0)).V
              (regX s.opcode)) % 65536 } 2)))
    (c29 : s.opcode &&& 0x00FF = 0x0029 →
      P (.ok (.next, advance { s with I := (s.V (regX s.opcode) * 5) % 65536 } 2)))
    (c33 : s.opcode &&& 0x00FF = 0x0033 → P ((execFX33 s).map (fun r => (Flow.next, r))))
    (c55 : s.opcode &&& 0x00FF = 0x0055 → P ((execFX55 s).map (fun r => (Flow.next, r))))
    (c65 : s.opcode &&& 0x00FF = 0x0065 → P ((execFX65 s).map (fun r => (Flow.next, r))))
    (cN : NoCaseF s.opcode → P (.ok (.next, s))) :
    P (execF s) := by
  unfold execF
  dsimp only
  by_cases h1 : s.opcode &&& 0x00FF = 0x0007
  · rw [if_pos h1]; exact c07 h1
  rw [if_neg h1]
  by_cases h2 : s.opcode &&& 0x00FF = 0x000A
  · rw [if_pos h2]; exact c0A h2
  rw [if_neg h2]
  by_cases h3 : s.opcode &&& 0x00FF = 0x0015
  · rw [if_pos h3]; exact c15 h3
  rw [if_neg h3]
  by_cases h4 : s.opcode &&& 0x00FF = 0x0018
  · rw [if_pos h4]; exact c18 h4
  rw [if_neg h4]
  by_cases h5 : s.opcode &&& 0x00FF = 0x001E
  · rw [if_pos h5]; exact c1E h5
  rw [if_neg h5]
  by_cases h6 : s.opcode &&& 0x00FF = 0x0029
  · rw [if_pos h6]; exact c29 h6
  rw [if_neg h6]
  by_cases h7 : s.opcode &&& 0x00FF = 0x0033
  · rw [if_pos h7]; exact c33 h7
  rw [if_neg h7]
  by_cases h8 : s.opcode &&& 0x00FF = 0x0055
  · rw [if_pos h8]; exact c55 h8
  rw [if_neg h8]
  by_cases h9 : s.opcode &&& 0x00FF = 0x0065
  · rw [if_pos h9]; exact c65 h9
  rw [if_neg h9]
  exact cN ⟨h1, h2, h3, h4, h5, h6, h7, h8, h9⟩

/-- The inner switch of family F never touches frame buffer, dirty flag or key
latch, and touches the timers only in the cases 0x15 and 0x18. -/
theorem execF_frame (s : Chip8) :
    ∀ f t, execF s = .ok (f, t) →
      t.gfx = s.gfx ∧ t.draw_flag = s.draw_flag ∧ t.key = s.key ∧
      (s.opcode &&& 0x00FF ≠ 0x0015 → s.opcode &&& 0x00FF ≠ 0x0018 →
        t.delay_timer = s.delay_timer ∧ t.sound_timer = s.sound_timer) := by
  refine execF_elim s (fun r => ∀ f t, r = .ok (f, t) →
      t.gfx = s.gfx ∧ t.draw_flag = s.draw_flag ∧ t.key = s.key ∧
      (s.opcode &&& 0x00FF ≠ 0x0015 → s.opcode &&& 0x00FF ≠ 0x0018 →
        t.delay_timer = s.delay_timer ∧ t.sound_timer = s.sound_timer))
    ?_ ?_ ?_ ?_ ?_ ?_ ?_ ?_ ?_ ?_
  · intro _ f t h
    cases h
    exact ⟨rfl, rfl, rfl, fun _ _ => ⟨rfl, rfl⟩⟩
  · intro _ f t h
    obtain ⟨a1, a2, a3, a4, a5⟩ := execFX0A_quiet s f t h
    exact ⟨a1, a2, a5, fun _ _ => ⟨a3, a4⟩⟩
  · intro hn f t h
    cases h
    exact ⟨rfl, rfl, rfl, fun h1 _ => absurd hn h1⟩
  · intro hn f t h
    cases h
    exact ⟨rfl, rfl, rfl, fun _ h2 => absurd hn h2⟩
  · intro _ f t h
    cases h
    exact ⟨rfl, rfl, rfl, fun _ _ => ⟨rfl, rfl⟩⟩
  · intro _ f t h
    cases h
    exact ⟨rfl, rfl, rfl, fun _ _ => ⟨rfl, rfl⟩⟩
  · intro _ f t h
    obtain ⟨a, ha, e⟩ := map_ok h
    cases e
    obtain ⟨a1, a2, a3, a4, a5⟩ := execFX33_quiet s _ ha
    exact ⟨a1, a2, a5, fun _ _ => ⟨a3, a4⟩⟩
  · intro _ f t h
    obtain ⟨a, ha, e⟩ := map_ok h
    cases e
    obtain ⟨a1, a2, a3, a4, a5⟩ := execFX55_quiet s _ ha
    exact ⟨a1, a2, a5, fun _ _ => ⟨a3, a4⟩⟩
  · intro _ f t h
    obtain ⟨a, ha, e⟩ := map_ok h
    cases e
    obtain ⟨a1, a2, a3, a4, a5⟩ := execFX65_quiet s _ ha
    exact ⟨a1, a2, a5, fun _ _ => ⟨a3, a4⟩⟩
  · intro _ f t h
    cases h
    exact ⟨rfl, rfl, rfl, fun _ _ => ⟨rfl, rfl⟩⟩

theorem execE_shape (s t : Chip8) (h : execE s = .ok t) :
    t = s ∨ t = advance s 2 ∨ t = advance s 4 := by
  unfold execE at h
  simp only [readKey, bind, Except.bind] at h
  split_ifs at h
  all_goals first
    | (cases h; exact Or.inl rfl)
    | (simp only [Except.ok.injEq] at h
       subst h
       split_ifs
       · exact Or.inr (Or.inr rfl)
       · exact Or.inr (Or.inl rfl))

theorem execE_opcode (s t : Chip8) (h : execE s = .ok t) : t.opcode = s.opcode := by
  rcases execE_shape s t h with e | e | e <;> rw [e] <;> rfl

/-- The inner switch of family 0 keeps timers and key latch; it keeps frame
buffer and dirty flag unless the low nibble is 0, in which case it clears the
frame buffer and raises the dirty flag. -/
theorem exec0_frame (s t : Chip8) (h : exec0 s = .ok t) :
    t.delay_timer = s.delay_timer ∧ t.sound_timer = s.sound_timer ∧ t.key = s.key ∧
    (s.opcode &&& 0x000F ≠ 0x0000 → t.gfx = s.gfx ∧ t.draw_flag = s.draw_flag) ∧
    (s.opcode &&& 0x000F = 0x0000 → (∀ i < 2048, t.gfx i = 0) ∧ t.draw_flag = true) := by
  unfold exec0 at h
  by_cases h0 : s.opcode &&& 0x000F = 0x0000
  · rw [if_pos h0] at h
    cases h
    refine ⟨rfl, rfl, rfl, fun hn => absurd h0 hn, fun _ => ⟨fun i hi => ?_, rfl⟩⟩
    show (if i < 2048 then 0 else s.gfx i) = 0
    rw [if_pos hi]
  · rw [if_neg h0] at h
    by_cases hE : s.opcode &&& 0x000F = 0x000E
    · rw [if_pos hE] at h
      obtain ⟨a, _, e⟩ := bind_ok h
      cases e
      exact ⟨rfl, rfl, rfl, fun _ => ⟨rfl, rfl⟩, fun hz => absurd hz h0⟩
    · rw [if_neg hE] at h
      cases h
      exact ⟨rfl, rfl, rfl, fun _ => ⟨rfl, rfl⟩, fun hz => absurd hz h0⟩

/-- A completed DXYN keeps timers, key latch, memory and I, and raises the
dirty flag. -/
theorem execD_frame (s t : Chip8) (h : execD s = .ok t) :
    t.delay_timer = s.delay_timer ∧ t.sound_timer = s.sound_timer ∧ t.key = s.key ∧
    t.memory = s.memory ∧ t.I = s.I ∧ t.draw_flag = true := by
  obtain ⟨v, hv, e⟩ := bind_ok h
  cases e
  obtain ⟨b1, b2, _, _, _, _, b7, b8, b9, _, _⟩ :=
    (DrawFrame.setV15 s 0).trans (drawRows_frame _ _ _ _ v hv)
  exact ⟨b8, b9, b7, b1, b2, rfl⟩

/-- What one pass through the switch leaves alone: the key latch always;
frame buffer and dirty flag unless the word is a clear-screen or a draw; the
timers unless the word sets one. -/
theorem dispatch_frame (s : Chip8) (rnd : Nat) :
    ∀ f t, dispatch s rnd = .ok (f, t) →
      t.key = s.key ∧
      (¬ TouchesScreen s.opcode → t.gfx = s.gfx ∧ t.draw_flag = s.draw_flag) ∧
      (¬ SetsTimer s.opcode →
        t.delay_timer = s.delay_timer ∧ t.sound_timer = s.sound_timer) := by
  refine dispatch_elim s rnd (fun r => ∀ f t, r = .ok (f, t) →
      t.key = s.key ∧
      (¬ TouchesScreen s.opcode → t.gfx = s.gfx ∧ t.draw_flag = s.draw_flag) ∧
      (¬ SetsTimer s.opcode →
        t.delay_timer = s.delay_timer ∧ t.sound_timer = s.sound_timer))
    ?_ ?_ ?_ ?_ ?_ ?_ ?_ ?_ ?_ ?_ ?_ ?_ ?_ ?_ ?_ ?_ ?_
  · intro h0 f t h
    obtain ⟨a, ha, e⟩ := map_ok h
    cases e
    obtain ⟨a1, a2, a3, a4, _⟩ := exec0_frame s _ ha
    exact ⟨a3, fun hn => a4 (fun hz => hn (Or.inl ⟨h0, hz⟩)), fun _ => ⟨a1, a2⟩⟩
  · intro _ f t h
    cases h
    exact ⟨rfl, fun _ => ⟨rfl, rfl⟩, fun _ => ⟨rfl, rfl⟩⟩
  · intro _ f t h
    obtain ⟨a, ha, e⟩ := bind_ok h
    simp only [writeStack] at ha
    split_ifs at ha
    cases ha
    cases e
    exact ⟨rfl, fun _ => ⟨rfl, rfl⟩, fun _ => ⟨rfl, rfl⟩⟩
  · intro _ f t h
    simp only [Except.ok.injEq, Prod.mk.injEq] at h
    obtain ⟨_, rfl⟩ := h
    split_ifs <;> exact ⟨rfl, fun _ => ⟨rfl, rfl⟩, fun _ => ⟨rfl, rfl⟩⟩
  · intro _ f t h
    simp only [Except.ok.injEq, Prod.mk.injEq] at h
    obtain ⟨_, rfl⟩ := h
    split_ifs <;> exact ⟨rfl, fun _ => ⟨rfl, rfl⟩, fun _ => ⟨rfl, rfl⟩⟩
  · intro _ f t h
    simp only [Except.ok.injEq, Prod.mk.injEq] at h
    obtain ⟨_, rfl⟩ := h
    split_ifs <;> exact ⟨rfl, fun _ => ⟨rfl, rfl⟩, fun _ => ⟨rfl, rfl⟩⟩
  · intro _ f t h
    cases h
    exact ⟨rfl, fun _ => ⟨rfl, rfl⟩, fun _ => ⟨rfl, rfl⟩⟩
  · intro _ f t h
    cases h
    exact ⟨rfl, fun _ => ⟨rfl, rfl⟩, fun _ => ⟨rfl, rfl⟩⟩
  · intro _ f t h
    cases h
    obtain ⟨a1, a2, a3, a4, a5⟩ := exec8_quiet s
    exact ⟨a5, fun _ => ⟨a1, a2⟩, fun _ => ⟨a3, a4⟩⟩
  · intro _ f t h
    simp only [Except.ok.injEq, Prod.mk.injEq] at h
    obtain ⟨_, rfl⟩ := h
    split_ifs <;> exact ⟨rfl, fun _ => ⟨rfl, rfl⟩, fun _ => ⟨rfl, rfl⟩⟩
  · intro _ f t h
    cases h
    exact ⟨rfl, fun _ => ⟨rfl, rfl⟩, fun _ => ⟨rfl, rfl⟩⟩
  · intro _ f t h
    cases h
    exact ⟨rfl, fun _ => ⟨rfl, rfl⟩, fun _ => ⟨rfl, rfl⟩⟩
  · intro _ f t h
    cases h
    exact ⟨rfl, fun _ => ⟨rfl, rfl⟩, fun _ => ⟨rfl, rfl⟩⟩
  · intro hD f t h
    obtain ⟨a, ha, e⟩ := map_ok h
    cases e
    obtain ⟨a1, a2, a3, _⟩ := execD_frame s _ ha
    exact ⟨a3, fun hn => absurd (Or.inr hD) hn, fun _ => ⟨a1, a2⟩⟩
  · intro hE f t h
    obtain ⟨a, ha, e⟩ := bind_ok h
    obtain ⟨q1, q2, q3, q4, q5⟩ := execE_quiet s a ha
    have ho := execE_opcode s a ha
    obtain ⟨b1, b2, b3, b4⟩ := execF_frame a f t e
    rw [ho] at b4
    refine ⟨b3.trans q5, fun _ => ⟨b1.trans q1, b2.trans q2⟩, fun hn => ?_⟩
    have hb := b4 (fun h15 => hn ⟨Or.inl hE, Or.inl h15⟩) (fun h18 => hn ⟨Or.inl hE, Or.inr h18⟩)
    exact ⟨hb.1.trans q3, hb.2.trans q4⟩
  · intro hF f t h
    obtain ⟨b1, b2, b3, b4⟩ := execF_frame s f t h
    refine ⟨b3, fun _ => ⟨b1, b2⟩, fun hn => ?_⟩
    exact b4 (fun h15 => hn ⟨Or.inr hF, Or.inl h15⟩) (fun h18 => hn ⟨Or.inr hF, Or.inr h18⟩)
  · intro f t h
    cases h
    exact ⟨rfl, fun _ => ⟨rfl, rfl⟩, fun _ => ⟨rfl, rfl⟩⟩

/-- The key scan of FX0A cut after `n` keys: only registers can change, and
only VX; with no key down among the first `n` nothing changes and
`key_pressed` stays false; otherwise VX ends as the largest index below `n`
whose key is down. -/
theorem scanLoop_spec (x n : Nat) (s : Chip8) :
    ∃ p, forLoop n (scanKey x) (s, false) = .ok p ∧
      p.1 = { s with V := p.1.V } ∧ (∀ j, j ≠ x → p.1.V j = s.V j) ∧
      ((∀ i < n, s.key i = 0) → p = (s, false)) ∧
      (∀ m < n, s.key m ≠ 0 → (∀ i, m < i → i < n → s.key i = 0) →
        p.2 = true ∧ p.1.V x = m) := by
  induction n with
  | zero =>
    exact ⟨(s, false), rfl, rfl, fun _ _ => rfl, fun _ => rfl,
      fun m hm => absurd hm (Nat.not_lt_zero m)⟩
  | succ n ih =>
    obtain ⟨p, e, hshape, hV, hnone, hmax⟩ := ih
    have hkey : p.1.key = s.key := by rw [hshape]
    by_cases hk : s.key n = 0
    · refine ⟨p, ?_, hshape, hV, fun hall => hnone (fun i hi => hall i (Nat.lt_succ_of_lt hi)),
        fun m hm hm0 habove => ?_⟩
      · simp only [forLoop, e, bind, Except.bind, scanKey, hkey, hk, ne_eq, not_true_eq_false,
          if_false]
      · rcases Nat.lt_succ_iff_lt_or_eq.mp hm with hlt | heq
        · exact hmax m hlt hm0 (fun i h1 h2 => habove i h1 (Nat.lt_succ_of_lt h2))
        · subst heq
          exact absurd hk hm0
    · refine ⟨(setV p.1 x n, true), ?_, ?_, fun j hj => ?_, fun hall => ?_,
        fun m hm hm0 habove => ?_⟩
      · simp only [forLoop, e, bind, Except.bind, scanKey, hkey, ne_eq, hk, not_false_eq_true,
          if_true]
      · show setV p.1 x n = { s with V := (setV p.1 x n).V }
        rw [hshape]
        rfl
      · show store p.1.V x n j = s.V j
        simp only [store, hj, if_false]
        exact hV j hj
      · exact absurd (hall n (Nat.lt_succ_self n)) hk
      · rcases Nat.lt_succ_iff_lt_or_eq.mp hm with hlt | heq
        · exact absurd (habove n hlt (Nat.lt_succ_self n)) hk
        · subst heq
          exact ⟨rfl, by simp [setV, store]⟩


/-! ## Timers and the key wait: FX0A (C12, C13) -/

/-- Case analysis on the outer switch without its `default` branch, which no
word reaches: the top nibble always selects one of the sixteen cases. -/
theorem dispatch_cases (s : Chip8) (rnd : Nat) (P : Except Fault (Flow × Chip8) → Prop)
    (c0 : s.opcode &&& 0xF000 = 0x0000 → P ((exec0 s).map (fun r => (Flow.next, r))))
    (c1 : s.opcode &&& 0xF000 = 0x1000 →
      P (.ok (.next, { s with pc := s.opcode &&& 0x0FFF })))
    (c2 : s.opcode &&& 0xF000 = 0x2000 →
      P (writeStack s s.sp s.pc >>= fun s1 =>
        .ok (.next, { s1 with sp := (s1.sp + 1) % 65536, pc := s.opcode &&& 0x0FFF })))
    (c3 : s.opcode &&& 0xF000 = 0x3000 →
      P (.ok (.next, if s.V (regX s.opcode) = (s.opcode &&& 0x00FF) then advance s 4
        else advance s 2)))
    (c4 : s.opcode &&& 0xF000 = 0x4000 →
      P (.ok (.next, if s.V (regX s.opcode) ≠ (s.opcode &&& 0x00FF) then advance s 4
        else advance s 2)))
    (c5 : s.opcode &&& 0xF000 = 0x5000 →
      P (.ok (.next, if s.V (regX s.opcode) = s.V (regY s.opcode) then advance s 4
        else advance s 2)))
    (c6 : s.opcode &&& 0xF000 = 0x6000 →
      P (.ok (.next, advance (setV s (regX s.opcode) (s.opcode &&& 0x00FF)) 2)))
    (c7 : s.opcode &&& 0xF000 = 0x7000 →
      P (.ok (.next, advance (setV s (regX s.opcode)
        ((s.V (regX s.opcode) + (s.opcode &&& 0x00FF)) % 256)) 2)))
    (c8 : s.opcode &&& 0xF000 = 0x8000 → P (.ok (.next, exec8 s)))
    (c9 : s.opcode &&& 0xF000 = 0x9000 →
      P (.ok (.next, if s.V (regX s.opcode) ≠ s.V (regY s.opcode) then advance s 4
        else advance s 2)))
    (cA : s.opcode &&& 0xF000 = 0xA000 →
      P (.ok (.next, advance { s with I := s.opcode &&& 0x0FFF } 2)))
    (cB : s.opcode &&& 0xF000 = 0xB000 →
      P (.ok (.next, { s with pc := ((s.opcode &&& 0x0FFF) + s.V 0) % 65536 })))
    (cC : s.opcode &&& 0xF000 = 0xC000 →
      P (.ok (.next, advance (setV s (regX s.opcode)
        ((rnd % 256) &&& (s.opcode &&& 0x00FF))) 2)))
    (cD : s.opcode &&& 0xF000 = 0xD000 → P ((execD s).map (fun r => (Flow.next, r))))
    (cE : s.opcode &&& 0xF000 = 0xE000 → P (execE s >>= execF))
    (cF : s.opcode &&& 0xF000 = 0xF000 → P (execF s)) :
    P (dispatch s rnd) := by
  unfold dispatch
  dsimp only
  by_cases h0 : s.opcode &&& 0xF000 = 0x0000
  · rw [if_pos h0]; exact c0 h0
  rw [if_neg h0]
  by_cases h1 : s.opcode &&& 0xF000 = 0x1000
  · rw [if_pos h1]; exact c1 h1
  rw [if_neg h1]
  by_cases h2 : s.opcode &&& 0xF000 = 0x2000
  · rw [if_pos h2]; exact c2 h2
  rw [if_neg h2]
  by_cases h3 : s.opcode &&& 0xF000 = 0x3000
  · rw [if_pos h3]; exact c3 h3
  rw [if_neg h3]
  by_cases h4 : s.opcode &&& 0xF000 = 0x4000
  · rw [if_pos h4]; exact c4 h4
  rw [if_neg h4]
  by_cases h5 : s.opcode &&& 0xF000 = 0x5000
  · rw [if_pos h5]; exact c5 h5
  rw [if_neg h5]
  by_cases h6 : s.opcode &&& 0xF000 = 0x6000
  · rw [if_pos h6]; exact c6 h6
  rw [if_neg h6]
  by_cases h7 : s.opcode &&& 0xF000 = 0x7000
  · rw [if_pos h7]; exact c7 h7
  rw [if_neg h7]
  by_cases h8 : s.opcode &&& 0xF000 = 0x8000
  · rw [if_pos h8]; exact c8 h8
  rw [if_neg h8]
  by_cases h9 : s.opcode &&& 0xF000 = 0x9000
  · rw [if_pos h9]; exact c9 h9
  rw [if_neg h9]
  by_cases hA : s.opcode &&& 0xF000 = 0xA000
  · rw [if_pos hA]; exact cA hA
  rw [if_neg hA]
  by_cases hB : s.opcode &&& 0xF000 = 0xB000
  · rw [if_pos hB]; exact cB hB
  rw [if_neg hB]
  by_cases hC : s.opcode &&& 0xF000 = 0xC000
  · rw [if_pos hC]; exact cC hC
  rw [if_neg hC]
  by_cases hD : s.opcode &&& 0xF000 = 0xD000
  · rw [if_pos hD]; exact cD hD
  rw [if_neg hD]
  by_cases hE : s.opcode &&& 0xF000 = 0xE000
  · rw [if_pos hE]; exact cE hE
  rw [if_neg hE]
  by_cases hF : s.opcode &&& 0xF000 = 0xF000
  · rw [if_pos hF]; exact cF hF
  exfalso
  rw [and_F000] at h0 h1 h2 h3 h4 h5 h6 h7 h8 h9 hA hB hC hD hE hF
  omega

theorem timers_delay (u : Chip8) : (timers u).delay_timer = u.delay_timer - 1 := by
  by_cases hd : u.delay_timer > 0 <;> by_cases hs : u.sound_timer > 0 <;>
    simp [timers, hd, hs] <;> omega

theorem timers_sound (u : Chip8) : (timers u).sound_timer = u.sound_timer - 1 := by
  by_cases hd : u.delay_timer > 0 <;> by_cases hs : u.sound_timer > 0 <;>
    simp [timers, hd, hs] <;> omega

theorem exists_largest_key (key : Nat → Nat) (n : Nat) (h : ∃ i < n, key i ≠ 0) :
    ∃ m < n, key m ≠ 0 ∧ ∀ i, m < i → i < n → key i = 0 := by
  induction n with
  | zero =>
    obtain ⟨i, hi, _⟩ := h
    exact absurd hi (Nat.not_lt_zero i)
  | succ n ih =>
    by_cases hn : key n = 0
    · obtain ⟨i, hi, hk⟩ := h
      have hlt : i < n := by
        rcases Nat.lt_succ_iff_lt_or_eq.mp hi with h1 | h1
        · exact h1
        · subst h1
          exact absurd hn hk
      obtain ⟨m, hm, hm0, habove⟩ := ih ⟨i, hlt, hk⟩
      refine ⟨m, Nat.lt_succ_of_lt hm, hm0, fun j h1 h2 => ?_⟩
      rcases Nat.lt_succ_iff_lt_or_eq.mp h2 with h3 | h3
      · exact habove j h1 h3
      · subst h3
        exact hn
    · exact ⟨n, Nat.lt_succ_self n, hn, fun j h1 h2 => by omega⟩

/-- FX0A leaves by `return` only when no key is down. -/
theorem execFX0A_ret (s t : Chip8) (h : execFX0A s = .ok (.ret, t)) :
    ∀ i < 16, s.key i = 0 := by
  obtain ⟨p, hm, hp⟩ := bind_ok h
  obtain ⟨q, eq, _, _, _, hmax⟩ := scanLoop_spec (regX s.opcode) 16 s
  rw [eq] at hm
  cases hm
  by_contra hne
  push_neg at hne
  obtain ⟨m, hm, hm0, habove⟩ := exists_largest_key s.key 16 hne
  have hp2 := (hmax m hm hm0 habove).1
  rw [hp2] at hp
  simp at hp

/-- The switch is left by `return` only by a key wait with no key down. -/
theorem dispatch_ret (s : Chip8) (rnd : Nat) :
    ∀ t, dispatch s rnd = .ok (.ret, t) → WaitsForKey s.opcode ∧ ∀ i < 16, s.key i = 0 := by
  have hF : ∀ u : Chip8, ∀ t, execF u = .ok (.ret, t) →
      u.opcode &&& 0x00FF = 0x000A ∧ ∀ i < 16, u.key i = 0 := by
    intro u
    refine execF_elim u (fun r => ∀ t, r = .ok (Flow.ret, t) →
      u.opcode &&& 0x00FF = 0x000A ∧ ∀ i < 16, u.key i = 0) ?_ ?_ ?_ ?_ ?_ ?_ ?_ ?_ ?_ ?_
    · intro _ t h; cases h
    · intro hA t h; exact ⟨hA, execFX0A_ret u t h⟩
    · intro _ t h; cases h
    · intro _ t h; cases h
    · intro _ t h; cases h
    · intro _ t h; cases h
    · intro _ t h
      obtain ⟨a, _, e⟩ := map_ok h
      cases e
    · intro _ t h
      obtain ⟨a, _, e⟩ := map_ok h
      cases e
    · intro _ t h
      obtain ⟨a, _, e⟩ := map_ok h
      cases e
    · intro _ t h; cases h
  refine dispatch_elim s rnd (fun r => ∀ t, r = .ok (Flow.ret, t) →
      WaitsForKey s.opcode ∧ ∀ i < 16, s.key i = 0)
    ?_ ?_ ?_ ?_ ?_ ?_ ?_ ?_ ?_ ?_ ?_ ?_ ?_ ?_ ?_ ?_ ?_
  · intro _ t h
    obtain ⟨a, _, e⟩ := map_ok h
    cases e
  · intro _ t h; cases h
  · intro _ t h
    obtain ⟨a, _, e⟩ := bind_ok h
    cases e
  · intro _ t h; cases h
  · intro _ t h; cases h
  · intro _ t h; cases h
  · intro _ t h; cases h
  · intro _ t h; cases h
  · intro _ t h; cases h
  · intro _ t h; cases h
  · intro _ t h; cases h
  · intro _ t h; cases h
  · intro _ t h; cases h
  · intro _ t h
    obtain ⟨a, _, e⟩ := map_ok h
    cases e
  · intro hE t h
    obtain ⟨a, ha, e⟩ := bind_ok h
    obtain ⟨h1, h2⟩ := hF a t e
    rw [execE_opcode s a ha] at h1
    rw [(execE_quiet s a ha).2.2.2.2] at h2
    exact ⟨⟨Or.inl hE, h1⟩, h2⟩
  · intro hFam t h
    obtain ⟨h1, h2⟩ := hF s t h
    exact ⟨⟨Or.inr hFam, h1⟩, h2⟩
  · intro t h; cases h

theorem execF_wait (s : Chip8) (hA : s.opcode &&& 0x00FF = 0x000A) : execF s = execFX0A s := by
  unfold execF
  dsimp only
  rw [if_neg (by rw [hA]; decide), if_pos hA]

theorem execE_other (s : Chip8) (h1 : s.opcode &&& 0x00FF ≠ 0x009E)
    (h2 : s.opcode &&& 0x00FF ≠ 0x00A1) : execE s = .ok s := by
  unfold execE
  rw [if_neg h1, if_neg h2]

/-- On a key wait the switch runs FX0A, directly in family F and after the
fall-through in family E. -/
theorem dispatch_wait (s : Chip8) (rnd : Nat) (hw : WaitsForKey s.opcode) :
    dispatch s rnd = execFX0A s := by
  obtain ⟨hfam, hA⟩ := hw
  refine dispatch_cases s rnd (fun r => r = execFX0A s)
    ?_ ?_ ?_ ?_ ?_ ?_ ?_ ?_ ?_ ?_ ?_ ?_ ?_ ?_ ?_ ?_
  all_goals first
    | (intro h
       rcases hfam with hf | hf
       · rw [hf] at h
         exact absurd h (by decide)
       · rw [hf] at h
         exact absurd h (by decide))
    | (intro _
       show (execE s >>= execF) = _
       rw [execE_other s (by rw [hA]; decide) (by rw [hA]; decide)]
       exact execF_wait s hA)
    | (intro _
       exact execF_wait s hA)

/-- FX0A with no key down: `return`, machine untouched. -/
theorem execFX0A_nokey (s : Chip8) (hk : ∀ i < 16, s.key i = 0) :
    execFX0A s = .ok (.ret, s) := by
  obtain ⟨p, e, _, _, hnone, _⟩ := scanLoop_spec (regX s.opcode) 16 s
  have hp := hnone hk
  subst hp
  simp only [execFX0A, e, bind, Except.bind, if_true]

/-- FX0A with `m` the largest index whose key is down: VX becomes `m`, the
other registers and every other member stay, and `pc += 2`. -/
theorem execFX0A_key (s : Chip8) (m : Nat) (hm : m < 16) (hm0 : s.key m ≠ 0)
    (habove : ∀ i, m < i → i < 16 → s.key i = 0) :
    ∃ t, execFX0A s = .ok (.next, t) ∧ t.V (regX s.opcode) = m ∧
      (∀ j, j ≠ regX s.opcode → t.V j = s.V j) ∧ t.pc = (s.pc + 2) % 65536 ∧
      t.memory = s.memory ∧ t.I = s.I := by
  obtain ⟨p, e, hshape, hV, _, hmax⟩ := scanLoop_spec (regX s.opcode) 16 s
  obtain ⟨hp2, hpV⟩ := hmax m hm hm0 habove
  refine ⟨advance p.1 2, ?_, hpV, hV, ?_, ?_, ?_⟩
  · simp [execFX0A, e, bind, Except.bind, hp2]
  · show (p.1.pc + 2) % 65536 = _
    rw [hshape]
  · show p.1.memory = _
    rw [hshape]
  · show p.1.I = _
    rw [hshape]

/-- One cycle on a word that is timer-neutral for the machine ends with the
timer update applied to the timers the machine started with. -/
theorem cycle_timers (s : Chip8) (rnd w : Nat) (t : Chip8) (hf : Fetches s w)
    (hn : TimerNeutral s w) (h : emulateCycle s rnd = .ok t) :
    t.delay_timer = s.delay_timer - 1 ∧ t.sound_timer = s.sound_timer - 1 := by
  rw [emulateCycle_of_fetches rnd hf] at h
  obtain ⟨r, hr, e⟩ := bind_ok h
  obtain ⟨f, u⟩ := r
  cases f with
  | next =>
    cases e
    obtain ⟨_, _, htm⟩ := dispatch_frame { s with opcode := w } rnd Flow.next u hr
    obtain ⟨hd, hs⟩ := htm hn.1
    exact ⟨(timers_delay u).trans (by rw [hd]), (timers_sound u).trans (by rw [hs])⟩
  | ret =>
    exact absurd (dispatch_ret { s with opcode := w } rnd u hr) hn.2

/-- C12 (as the code behaves): a cycle that completes on a word that sets no
timer and is not a key wait executed with no key down performs exactly one
timer-decrement step: the delay timer d becomes d - 1 if d > 0 and stays 0 if
d = 0, and likewise the sound timer.  Hence n such cycles take the timers from
d to d - n, cut off at 0: from a delay timer of 5, five cycles reach 0 and any
further ones stay at 0.  A key wait executed with no key down returns before
the timer update and leaves both timers as they were. -/
theorem timer_decrement_per_cycle (rnd : Nat → Nat) (r0 : Nat) (s : Chip8) :
    (∀ w t, Fetches s w → TimerNeutral s w → emulateCycle s r0 = .ok t →
      t.delay_timer = (if s.delay_timer > 0 then s.delay_timer - 1 else 0) ∧
      t.sound_timer = (if s.sound_timer > 0 then s.sound_timer - 1 else 0)) ∧
    (∀ n t, (∀ i < n, ∀ u w, run rnd i s = .ok u → Fetches u w → TimerNeutral u w) →
      run rnd n s = .ok t →
      t.delay_timer = s.delay_timer - n ∧ t.sound_timer = s.sound_timer - n) ∧
    (s.delay_timer = 5 → ∀ n t, 5 ≤ n →
      (∀ i < n, ∀ u w, run rnd i s = .ok u → Fetches u w → TimerNeutral u w) →
      run rnd n s = .ok t → t.delay_timer = 0) ∧
    (∀ w, Fetches s w → WaitsForKey w → (∀ i < 16, s.key i = 0) →
      ∃ t, emulateCycle s r0 = .ok t ∧ t.delay_timer = s.delay_timer ∧
        t.sound_timer = s.sound_timer) := by
  have hrun : ∀ n t, (∀ i < n, ∀ u w, run rnd i s = .ok u → Fetches u w → TimerNeutral u w) →
      run rnd n s = .ok t →
      t.delay_timer = s.delay_timer - n ∧ t.sound_timer = s.sound_timer - n := by
    intro n
    induction n with
    | zero =>
      intro t _ h
      cases h
      exact ⟨rfl, rfl⟩
    | succ n ih =>
      intro t hall h
      obtain ⟨u, hu, hstep⟩ := bind_ok h
      obtain ⟨hd, hs⟩ := ih u (fun i hi => hall i (Nat.lt_succ_of_lt hi)) hu
      have hf := fetches_of_ok hstep
      obtain ⟨hd2, hs2⟩ := cycle_timers u (rnd n) _ t hf
        (hall n (Nat.lt_succ_self n) u _ hu hf) hstep
      exact ⟨by omega, by omega⟩
  refine ⟨fun w t hf hn h => ?_, hrun, fun h5 n t hn hall h => ?_, fun w hf hw hk => ?_⟩
  · obtain ⟨hd, hs⟩ := cycle_timers s r0 w t hf hn h
    constructor
    · rw [hd]
      split_ifs <;> omega
    · rw [hs]
      split_ifs <;> omega
  · have := (hrun n t hall h).1
    omega
  · rw [emulateCycle_of_fetches r0 hf, dispatch_wait { s with opcode := w } r0 hw,
      execFX0A_nokey { s with opcode := w } hk]
    exact ⟨_, rfl, rfl, rfl⟩

/-- C12 (counterexample): F00A executed with no key down leaves the delay
timer at 5 and the sound timer at 3, no decrement being performed; and E015,
which is neither FX15 nor FX18, ends with the delay timer at 8 although it was
0 before. -/
theorem timer_decrement_counterexample :
    (Fetches waitingNoKey 0xF00A ∧ waitingNoKey.delay_timer = 5 ∧
      waitingNoKey.sound_timer = 3 ∧
      ∃ t, emulateCycle waitingNoKey 0 = .ok t ∧ t.delay_timer = 5 ∧ t.sound_timer = 3) ∧
    (Fetches strayTimerSet 0xE015 ∧ strayTimerSet.delay_timer = 0 ∧
      ∃ t, emulateCycle strayTimerSet 0 = .ok t ∧ t.delay_timer = 8) :=
  ⟨⟨by decide, rfl, rfl, _, rfl, rfl, rfl⟩, ⟨by decide, rfl, _, rfl, by decide⟩⟩

/-- C12 at concrete machines: seven register loads take the delay timer from 5
to 4 after one cycle, to 0 after five and leave it at 0 after seven; the key
wait with no key down keeps 5. -/
theorem timer_decrement_per_cycle_witness :
    (Fetches countdown 0x6001 ∧ TimerNeutral countdown 0x6001 ∧
      ∃ t, emulateCycle countdown 0 = .ok t ∧ t.delay_timer = 4) ∧
    (countdown.delay_timer = 5 ∧
      (∀ i < 7, ∀ u w, run (fun _ => 0) i countdown = .ok u → Fetches u w →
        TimerNeutral u w) ∧
      (∃ t, run (fun _ => 0) 5 countdown = .ok t ∧ t.delay_timer = 0) ∧
      (∃ t, run (fun _ => 0) 7 countdown = .ok t ∧ t.delay_timer = 0)) ∧
    (Fetches waitingNoKey 0xF00A ∧ WaitsForKey 0xF00A ∧ (∀ i < 16, waitingNoKey.key i = 0) ∧
      ∃ t, emulateCycle waitingNoKey 0 = .ok t ∧ t.delay_timer = 5) := by
  have hall : ∀ i < 7, ∀ u w, run (fun _ => 0) i countdown = .ok u → Fetches u w →
      TimerNeutral u w := by
    intro i hi u w hu hw
    obtain ⟨_, rfl⟩ := hw
    interval_cases i
    all_goals
      obtain rfl : _ = u := Except.ok.inj hu
      decide
  refine ⟨⟨by decide, by decide, _, rfl, ?_⟩, ⟨rfl, hall, ⟨_, rfl, ?_⟩, ⟨_, rfl, ?_⟩⟩,
    ⟨by decide, by decide, by decide, ?_⟩⟩
  · exact ((timer_decrement_per_cycle (fun _ => 0) 0 countdown).1 0x6001 _ (by decide)
      (by decide) rfl).1
  · exact (timer_decrement_per_cycle (fun _ => 0) 0 countdown).2.2.1 rfl 5 _ (by decide)
      (fun i hi => hall i (by omega)) rfl
  · exact (timer_decrement_per_cycle (fun _ => 0) 0 countdown).2.2.1 rfl 7 _ (by decide)
      hall rfl
  · obtain ⟨t, e, hd, _⟩ := (timer_decrement_per_cycle (fun _ => 0) 0 waitingNoKey).2.2.2
      0xF00A (by decide) (by decide) (by decide)
    exact ⟨t, e, hd⟩

/-- C13: one cycle executing FX0A succeeds.  With no key flag non-zero the PC
is not advanced and the same word is fetched by the next cycle; with at least
one key flag non-zero the PC advances by 2 and VX becomes the largest index in
0..15 whose key flag is non-zero. -/
theorem key_wait_FX0A (s : Chip8) (rnd X : Nat) (hX : X < 16)
    (hf : Fetches s (0xF000 + 256 * X + 0x0A)) :
    ((∀ i < 16, s.key i = 0) →
      ∃ t, emulateCycle s rnd = .ok t ∧ t.pc = s.pc ∧
        Fetches t (0xF000 + 256 * X + 0x0A)) ∧
    ((∃ i < 16, s.key i ≠ 0) →
      ∃ t m, emulateCycle s rnd = .ok t ∧ t.pc = s.pc + 2 ∧ t.V X = m ∧
        m < 16 ∧ s.key m ≠ 0 ∧ ∀ i, m < i → i < 16 → s.key i = 0) := by
  obtain ⟨d1, d2, d3⟩ := decodeF hX (show 0x0A < 256 by decide)
  have hw : WaitsForKey (0xF000 + 256 * X + 0x0A) := ⟨Or.inr d1, d3⟩
  constructor
  · intro hk
    rw [emulateCycle_of_fetches rnd hf, dispatch_wait { s with opcode := _ } rnd hw,
      execFX0A_nokey { s with opcode := 0xF000 + 256 * X + 0x0A } hk]
    exact ⟨_, rfl, rfl, hf⟩
  · intro hex
    obtain ⟨m, hm, hm0, habove⟩ := exists_largest_key s.key 16 hex
    obtain ⟨t, e, hV, _, hpc, _, _⟩ :=
      execFX0A_key { s with opcode := 0xF000 + 256 * X + 0x0A } m hm hm0 habove
    refine ⟨timers t, m, ?_, ?_, ?_, hm, hm0, habove⟩
    · rw [emulateCycle_of_fetches rnd hf, dispatch_wait { s with opcode := _ } rnd hw, e]
      rfl
    · rw [timers_pc, hpc]
      have := hf.1
      show (s.pc + 2) % 65536 = s.pc + 2
      omega
    · rw [timers_V]
      rw [d2] at hV
      exact hV

/-- C13 at concrete machines: F00A with no key down keeps PC = 0x200; F30A
with keys 2 and 9 down sets V3 = 9 and moves PC to 0x202. -/
theorem key_wait_FX0A_witness :
    (0 < 16 ∧ Fetches waitingNoKey (0xF000 + 256 * 0 + 0x0A) ∧
      (∀ i < 16, waitingNoKey.key i = 0) ∧
      ∃ t, emulateCycle waitingNoKey 0 = .ok t ∧ t.pc = 0x200) ∧
    (3 < 16 ∧ Fetches waitingTwoKeys (0xF000 + 256 * 3 + 0x0A) ∧
      (∃ i < 16, waitingTwoKeys.key i ≠ 0) ∧
      ∃ t, emulateCycle waitingTwoKeys 0 = .ok t ∧ t.pc = 0x202 ∧ t.V 3 = 9) := by
  refine ⟨⟨by decide, by decide, by decide, ?_⟩, ⟨by decide, by decide, by decide, ?_⟩⟩
  · obtain ⟨t, e, hpc, _⟩ :=
      (key_wait_FX0A waitingNoKey 0 0 (by decide) (by decide)).1 (by decide)
    exact ⟨t, e, hpc⟩
  · obtain ⟨t, m, e, hpc, hV, hm, hm0, habove⟩ :=
      (key_wait_FX0A waitingTwoKeys 0 3 (by decide) (by decide)).2 (by decide)
    refine ⟨t, e, hpc, ?_⟩
    rw [hV]
    have h9 : waitingTwoKeys.key 9 ≠ 0 := by decide
    have h1 : ¬ m < 9 := fun hlt => h9 (habove 9 hlt (by decide))
    have h2 : ∀ i < 16, 9 < i → waitingTwoKeys.key i = 0 := by decide
    have h3 : ¬ 9 < m := fun hgt => hm0 (h2 m hm hgt)
    omega


/-! ## Drawing twice: DXYN (C14, C15) -/

/-- A sprite bit can only be drawn when it is clear or its linear index is
inside the frame buffer. -/
theorem drawPixel_fit (X Y p r c : Nat) (u t : Chip8) (h : drawPixel X Y p r c u = .ok t) :
    p &&& (0x80 >>> c) ≠ 0 → X + c + (Y + r) * 64 < 2048 := by
  intro hb
  unfold drawPixel at h
  rw [if_pos hb] at h
  obtain ⟨g, hg, _⟩ := bind_ok h
  simp only [readGfx] at hg
  split_ifs at hg with hlt
  exact hlt

/-- The collision flag after one sprite bit. -/
theorem drawPixel_flag (X Y p r c : Nat) (u t : Chip8) (h : drawPixel X Y p r c u = .ok t) :
    t.V 15 = if p &&& (0x80 >>> c) ≠ 0 ∧ u.gfx (X + c + (Y + r) * 64) = 1 then 1
      else u.V 15 := by
  unfold drawPixel at h
  by_cases hb : p &&& (0x80 >>> c) ≠ 0
  · rw [if_pos hb] at h
    obtain ⟨g, hg, h⟩ := bind_ok h
    simp only [readGfx] at hg
    split_ifs at hg with hlt
    cases hg
    simp only [writeGfx] at h
    by_cases hone : u.gfx (X + c + (Y + r) * 64) = 1
    · rw [if_pos hone] at h
      split_ifs at h
      cases h
      rw [if_pos ⟨hb, hone⟩]
      simp [setV, store]
    · rw [if_neg hone] at h
      split_ifs at h
      cases h
      rw [if_neg (fun hh => hone hh.2)]
  · rw [if_neg hb] at h
    cases h
    rw [if_neg (fun hh => hb hh.1)]

theorem drawCols_fit (X Y p r n : Nat) (u t : Chip8)
    (h : forLoop n (drawPixel X Y p r) u = .ok t) :
    ∀ c < n, p &&& (0x80 >>> c) ≠ 0 → X + c + (Y + r) * 64 < 2048 := by
  induction n generalizing t with
  | zero => exact fun c hc => absurd hc (Nat.not_lt_zero c)
  | succ n ih =>
    obtain ⟨v, hv, hstep⟩ := bind_ok h
    intro c hc
    rcases Nat.lt_succ_iff_lt_or_eq.mp hc with h1 | h1
    · exact ih v hv c h1
    · subst h1
      exact drawPixel_fit X Y p r c v t hstep

/-- The collision flag after `n` columns of one sprite row: raised when a set
bit met a cell holding 1 in the frame buffer the row started from. -/
theorem drawCols_flag (X Y p r n : Nat) (u t : Chip8)
    (h : forLoop n (drawPixel X Y p r) u = .ok t) :
    t.V 15 = if ∃ c < n, p &&& (0x80 >>> c) ≠ 0 ∧ u.gfx (X + c + (Y + r) * 64) = 1 then 1
      else u.V 15 := by
  induction n generalizing t with
  | zero =>
    cases h
    simp
  | succ n ih =>
    obtain ⟨v, hv, hstep⟩ := bind_ok h
    have hflag := drawPixel_flag X Y p r n v t hstep
    have hprev := ih v hv
    obtain ⟨v', ev, _, gv⟩ := drawCols_spec X Y p r n u (drawCols_fit X Y p r n u v hv)
    rw [hv] at ev
    cases ev
    have hcell : v.gfx (X + n + (Y + r) * 64) = u.gfx (X + n + (Y + r) * 64) := by
      rw [gv]
      rw [if_neg]
      rintro ⟨c, hc, _, hj⟩
      omega
    rw [hcell] at hflag
    rw [hflag, hprev]
    by_cases h1 : p &&& (0x80 >>> n) ≠ 0 ∧ u.gfx (X + n + (Y + r) * 64) = 1
    · rw [if_pos h1, if_pos ⟨n, Nat.lt_succ_self n, h1⟩]
    · rw [if_neg h1]
      by_cases h2 : ∃ c < n, p &&& (0x80 >>> c) ≠ 0 ∧ u.gfx (X + c + (Y + r) * 64) = 1
      · obtain ⟨c, hc, hh⟩ := h2
        rw [if_pos ⟨c, hc, hh⟩, if_pos ⟨c, Nat.lt_succ_of_lt hc, hh⟩]
      · rw [if_neg h2, if_neg]
        rintro ⟨c, hc, hh⟩
        rcases Nat.lt_succ_iff_lt_or_eq.mp hc with hlt | heq
        · exact h2 ⟨c, hlt, hh⟩
        · subst heq
          exact h1 hh

theorem drawRow_ok (X Y r : Nat) (u t : Chip8) (h : drawRow X Y r u = .ok t) :
    u.I + r < 4096 ∧ forLoop 8 (drawPixel X Y (u.memory (u.I + r)) r) u = .ok t := by
  obtain ⟨p, hp, h⟩ := bind_ok h
  simp only [readMemory] at hp
  split_ifs at hp with hlt
  cases hp
  exact ⟨hlt, h⟩

/-- Rows that were drawn had their sprite byte inside memory and the linear
index of each set bit inside the frame buffer. -/
theorem drawRows_fit (X Y n : Nat) (u t : Chip8) (h : forLoop n (drawRow X Y) u = .ok t) :
    (∀ r < n, u.I + r < 4096) ∧
    ∀ r < n, ∀ c < 8, u.memory (u.I + r) &&& (0x80 >>> c) ≠ 0 →
      X + c + (Y + r) * 64 < 2048 := by
  induction n generalizing t with
  | zero =>
    exact ⟨fun r hr => absurd hr (Nat.not_lt_zero r), fun r hr => absurd hr (Nat.not_lt_zero r)⟩
  | succ n ih =>
    obtain ⟨v, hv, hstep⟩ := bind_ok h
    obtain ⟨ihI, ihfit⟩ := ih v hv
    obtain ⟨hmem, hI, _⟩ := drawRows_frame X Y n u v hv
    obtain ⟨hlt, hcols⟩ := drawRow_ok X Y n v t hstep
    rw [hmem, hI] at hcols
    rw [hI] at hlt
    constructor
    · intro r hr
      rcases Nat.lt_succ_iff_lt_or_eq.mp hr with h1 | h1
      · exact ihI r h1
      · subst h1
        exact hlt
    · intro r hr
      rcases Nat.lt_succ_iff_lt_or_eq.mp hr with h1 | h1
      · exact ihfit r h1
      · subst h1
        exact drawCols_fit X Y _ r 8 v t hcols

/-- The frame buffer after `n` sprite rows that were drawn. -/
theorem drawRows_gfx (X Y n : Nat) (u t : Chip8) (h : forLoop n (drawRow X Y) u = .ok t) :
    ∀ j, t.gfx j = if SpriteHit u X Y n j then u.gfx j ^^^ 1 else u.gfx j := by
  obtain ⟨hI, hfit⟩ := drawRows_fit X Y n u t h
  rcases Nat.eq_zero_or_pos n with h0 | hpos
  · subst h0
    cases h
    intro j
    rw [if_neg]
    rintro ⟨r, hr, _⟩
    exact absurd hr (Nat.not_lt_zero r)
  · have hIn : u.I + n ≤ 4096 := by
      have := hI (n - 1) (by omega)
      omega
    obtain ⟨t', et, _, g⟩ := drawRows_spec X Y n u hIn hfit
    rw [h] at et
    cases et
    exact g

/-- The collision flag after `n` sprite rows that were drawn: raised when a
set sprite bit met a cell holding 1 in the frame buffer the drawing started
from. -/
theorem drawRows_flag (X Y n : Nat) (u t : Chip8) (h : forLoop n (drawRow X Y) u = .ok t) :
    t.V 15 = if SpriteCollides u X Y n then 1 else u.V 15 := by
  induction n generalizing t with
  | zero =>
    cases h
    rw [if_neg]
    rintro ⟨r, hr, _⟩
    exact absurd hr (Nat.not_lt_zero r)
  | succ n ih =>
    obtain ⟨v, hv, hstep⟩ := bind_ok h
    have hprev := ih v hv
    obtain ⟨hmem, hI, _⟩ := drawRows_frame X Y n u v hv
    obtain ⟨_, hcols⟩ := drawRow_ok X Y n v t hstep
    have hflag := drawCols_flag X Y _ n 8 v t hcols
    have hg := drawRows_gfx X Y n u v hv
    have hcell : ∀ c < 8, v.gfx (X + c + (Y + n) * 64) = u.gfx (X + c + (Y + n) * 64) := by
      intro c hc
      rw [hg, if_neg]
      rintro ⟨r, hr, c2, hc2, _, hj⟩
      omega
    rw [hmem, hI] at hflag
    rw [hflag, hprev]
    by_cases h1 : ∃ c < 8, u.memory (u.I + n) &&& (0x80 >>> c) ≠ 0 ∧
        v.gfx (X + c + (Y + n) * 64) = 1
    · rw [if_pos h1, if_pos]
      obtain ⟨c, hc, hb, hone⟩ := h1
      rw [hcell c hc] at hone
      exact ⟨n, Nat.lt_succ_self n, c, hc, hb, hone⟩
    · rw [if_neg h1]
      by_cases h2 : SpriteCollides u X Y n
      · rw [if_pos h2, if_pos]
        obtain ⟨r, hr, hh⟩ := h2
        exact ⟨r, Nat.lt_succ_of_lt hr, hh⟩
      · rw [if_neg h2, if_neg]
        rintro ⟨r, hr, c, hc, hb, hone⟩
        rcases Nat.lt_succ_iff_lt_or_eq.mp hr with hlt | heq
        · exact h2 ⟨r, hlt, c, hc, hb, hone⟩
        · subst heq
          apply h1
          refine ⟨c, hc, hb, ?_⟩
          rw [hcell c hc]
          exact hone

/-- A completed cycle executing DXYN: memory, I and the registers other than
VF stay, PC advances by 2, the cells hit by a set sprite bit are toggled and no
other, and VF reports whether a set bit met a cell holding 1; every cell hit lies inside
the frame buffer. -/
theorem draw_cycle (s : Chip8) (rnd X Y N : Nat) (t : Chip8)
    (hX : X < 16) (hY : Y < 16) (hN : N < 16)
    (hf : Fetches s (0xD000 + 256 * X + 16 * Y + N)) (h : emulateCycle s rnd = .ok t) :
    t.memory = s.memory ∧ t.I = s.I ∧ (∀ i, i ≠ 15 → t.V i = s.V i) ∧ t.pc = s.pc + 2 ∧
    (∀ j, t.gfx j = if SpriteHit s (s.V X) (s.V Y) N j then s.gfx j ^^^ 1 else s.gfx j) ∧
    t.V 15 = (if SpriteCollides s (s.V X) (s.V Y) N then 1 else 0) ∧
    (∀ j, SpriteHit s (s.V X) (s.V Y) N j → j < 2048) := by
  obtain ⟨d1, d2, d3, d4⟩ := decodeD hX hY hN
  rw [emulateCycle_of_fetches rnd hf] at h
  obtain ⟨r, hr, e⟩ := bind_ok h
  have hd : dispatch { s with opcode := 0xD000 + 256 * X + 16 * Y + N } rnd =
      (execD { s with opcode := 0xD000 + 256 * X + 16 * Y + N }).map
        (fun r => (Flow.next, r)) := by
    simp only [dispatch, d1]
    simp
  rw [hd] at hr
  obtain ⟨a, ha, e2⟩ := map_ok hr
  subst e2
  cases e
  simp only [execD, d2, d3, d4] at ha
  obtain ⟨v, hv, e3⟩ := bind_ok ha
  cases e3
  obtain ⟨f1, f2, _, _, _, _, _, _, _, _, f11⟩ := drawRows_frame _ _ _ _ v hv
  have hg := drawRows_gfx _ _ _ _ v hv
  have hfl := drawRows_flag _ _ _ _ v hv
  have hpc := hf.1
  have hfit := (drawRows_fit _ _ _ _ v hv).2
  refine ⟨?_, ?_, fun i hi => ?_, ?_, fun j => ?_, ?_, ?_⟩
  · rw [timers_memory]
    exact f1
  · rw [timers_I]
    exact f2
  · rw [timers_V]
    show v.V i = s.V i
    rw [f11 i hi]
    simp [setV, store, hi]
  · rw [timers_pc]
    obtain ⟨_, _, f3, _⟩ := drawRows_frame _ _ _ _ v hv
    show (v.pc + 2) % 65536 = s.pc + 2
    rw [f3]
    show (s.pc + 2) % 65536 = s.pc + 2
    omega
  · rw [timers_gfx]
    exact hg j
  · rw [timers_V]
    show v.V 15 = _
    rw [hfl]
    by_cases hc : SpriteCollides s (s.V X) (s.V Y) N
    · rw [if_pos hc, if_pos]
      exact hc
    · rw [if_neg hc, if_neg]
      · simp [setV, store]
      · exact hc
  · rintro j ⟨r, hr, c, hc, hb, rfl⟩
    exact hfit r hr c hc hb

/-- DXYN completes when its sprite bytes lie inside memory and every cell hit
lies inside the frame buffer. -/
theorem draw_completes (s : Chip8) (rnd X Y N : Nat)
    (hX : X < 16) (hY : Y < 16) (hN : N < 16)
    (hf : Fetches s (0xD000 + 256 * X + 16 * Y + N)) (hI : s.I + N ≤ 4096)
    (hfit : ∀ j, SpriteHit s (s.V X) (s.V Y) N j → j < 2048) :
    ∃ t, emulateCycle s rnd = .ok t := by
  obtain ⟨d1, d2, d3, d4⟩ := decodeD hX hY hN
  obtain ⟨t, e, _, _⟩ := drawRows_spec (s.V X) (s.V Y) N
    (setV { s with opcode := 0xD000 + 256 * X + 16 * Y + N } 15 0) hI
    (fun r hr c hc hb => hfit _ ⟨r, hr, c, hc, hb, rfl⟩)
  refine ⟨timers (advance { t with draw_flag := true } 2), ?_⟩
  rw [emulateCycle_of_fetches rnd hf]
  simp only [dispatch, d1, execD, d2, d3, d4, e, bind, Except.bind, Except.map]
  simp

theorem xor_one_twice (a : Nat) : (a ^^^ 1) ^^^ 1 = a := by
  rw [Nat.xor_assoc, Nat.xor_self, Nat.xor_zero]

/-- Two draws cancel where they are defined: with X and Y other than 15, two
successive cycles executing the same DXYN leave every frame-buffer cell equal
to its value before the first draw.  The two cycles complete whenever the N
sprite bytes lie inside memory (I + N ≤ 4096) and every cell hit lies inside
the frame buffer. -/
theorem draw_twice_restores (s : Chip8) (r1 r2 X Y N : Nat)
    (hX : X < 15) (hY : Y < 15) (hN : N < 16)
    (hf : Fetches s (0xD000 + 256 * X + 16 * Y + N)) :
    (∀ s1 s2, emulateCycle s r1 = .ok s1 → Fetches s1 (0xD000 + 256 * X + 16 * Y + N) →
      emulateCycle s1 r2 = .ok s2 → ∀ j, s2.gfx j = s.gfx j) ∧
    (s.I + N ≤ 4096 → (∀ j, SpriteHit s (s.V X) (s.V Y) N j → j < 2048) →
      ∃ s1, emulateCycle s r1 = .ok s1 ∧
        (Fetches s1 (0xD000 + 256 * X + 16 * Y + N) →
          ∃ s2, emulateCycle s1 r2 = .ok s2 ∧ ∀ j, s2.gfx j = s.gfx j)) := by
  have hX16 : X < 16 := by omega
  have hY16 : Y < 16 := by omega
  have key : ∀ s1 s2, emulateCycle s r1 = .ok s1 →
      Fetches s1 (0xD000 + 256 * X + 16 * Y + N) →
      emulateCycle s1 r2 = .ok s2 → ∀ j, s2.gfx j = s.gfx j := by
    intro s1 s2 h1 hf1 h2 j
    obtain ⟨m1, i1, v1, _, g1, _, _⟩ := draw_cycle s r1 X Y N s1 hX16 hY16 hN hf h1
    obtain ⟨_, _, _, _, g2, _, _⟩ := draw_cycle s1 r2 X Y N s2 hX16 hY16 hN hf1 h2
    have hsame : SpriteHit s1 (s1.V X) (s1.V Y) N j ↔ SpriteHit s (s.V X) (s.V Y) N j := by
      unfold SpriteHit
      rw [m1, i1, v1 X (by omega), v1 Y (by omega)]
    rw [g2 j, g1 j]
    by_cases hh : SpriteHit s (s.V X) (s.V Y) N j
    · rw [if_pos (hsame.mpr hh), if_pos hh, xor_one_twice]
    · rw [if_neg (fun h' => hh (hsame.mp h')), if_neg hh]
  refine ⟨key, fun hI hfit => ?_⟩
  obtain ⟨s1, h1⟩ := draw_completes s r1 X Y N hX16 hY16 hN hf hI hfit
  refine ⟨s1, h1, fun hf1 => ?_⟩
  obtain ⟨m1, i1, v1, _, _, _, _⟩ := draw_cycle s r1 X Y N s1 hX16 hY16 hN hf h1
  have hfit1 : ∀ j, SpriteHit s1 (s1.V X) (s1.V Y) N j → j < 2048 := by
    intro j hj
    apply hfit j
    unfold SpriteHit at hj ⊢
    rw [m1, i1, v1 X (by omega), v1 Y (by omega)] at hj
    exact hj
  obtain ⟨s2, h2⟩ := draw_completes s1 r2 X Y N hX16 hY16 hN hf1 (by rw [i1]; exact hI) hfit1
  exact ⟨s2, h2, key s1 s2 h1 hf1 h2⟩

/-- Two draws at a concrete machine: D011 drawn twice at (60, 0) with sprite byte
0xFF on a screen whose cell 61 is lit; the first draw darkens cell 61 and
lights cell 60, the second restores both. -/
theorem draw_twice_restores_witness :
    (0 < 15 ∧ 1 < 15 ∧ 1 < 16 ∧ Fetches drawTwice (0xD000 + 256 * 0 + 16 * 1 + 1) ∧
      drawTwice.I + 1 ≤ 4096 ∧
      (∀ j, SpriteHit drawTwice (drawTwice.V 0) (drawTwice.V 1) 1 j → j < 2048) ∧
      drawTwice.gfx 60 = 0 ∧ drawTwice.gfx 61 = 1) ∧
    ∃ s1, emulateCycle drawTwice 0 = .ok s1 ∧ s1.gfx 60 = 1 ∧ s1.gfx 61 = 0 ∧
      Fetches s1 (0xD000 + 256 * 0 + 16 * 1 + 1) ∧
      ∃ s2, emulateCycle s1 0 = .ok s2 ∧ s2.gfx 60 = 0 ∧ s2.gfx 61 = 1 := by
  have hfit : ∀ j, SpriteHit drawTwice (drawTwice.V 0) (drawTwice.V 1) 1 j → j < 2048 := by
    rintro j ⟨r, hr, c, hc, _, rfl⟩
    show 60 + c + (0 + r) * 64 < 2048
    omega
  refine ⟨⟨by decide, by decide, by decide, by decide, by decide, hfit, rfl, rfl⟩, ?_⟩
  obtain ⟨s1, h1, hrest⟩ :=
    (draw_twice_restores drawTwice 0 0 0 1 1 (by decide) (by decide) (by decide)
      (by decide)).2 (by decide) hfit
  have hs1 : s1.gfx 60 = 1 ∧ s1.gfx 61 = 0 ∧ Fetches s1 (0xD000 + 256 * 0 + 16 * 1 + 1) := by
    obtain rfl : _ = s1 := Except.ok.inj h1
    exact ⟨by decide, by decide, by decide⟩
  obtain ⟨s2, h2, hg⟩ := hrest hs1.2.2
  exact ⟨s1, h1, hs1.1, hs1.2.1, hs1.2.2, s2, h2, hg 60, hg 61⟩

/-- C15 (as the code behaves): on a frame buffer whose cells are 0 or 1, with X
and Y other than 15, when the first of two successive cycles executing the same
DXYN reports VF = 0, the second reports VF = 1 if the sprite has a set bit in
its N rows (each pixel the first draw lit is now switched off) and VF = 0 only
if the sprite has no set bit. -/
theorem second_draw_reports_collision (s s1 s2 : Chip8) (r1 r2 X Y N : Nat)
    (hX : X < 15) (hY : Y < 15) (hN : N < 16)
    (hf : Fetches s (0xD000 + 256 * X + 16 * Y + N))
    (hbin : ∀ j < 2048, s.gfx j = 0 ∨ s.gfx j = 1)
    (h1 : emulateCycle s r1 = .ok s1) (hv : s1.V 15 = 0)
    (hf1 : Fetches s1 (0xD000 + 256 * X + 16 * Y + N))
    (h2 : emulateCycle s1 r2 = .ok s2) :
    s2.V 15 = if ∃ r < N, ∃ c < 8, s.memory (s.I + r) &&& (0x80 >>> c) ≠ 0 then 1 else 0 := by
  have hX16 : X < 16 := by omega
  have hY16 : Y < 16 := by omega
  obtain ⟨m1, i1, v1, _, g1, f1, fit1⟩ := draw_cycle s r1 X Y N s1 hX16 hY16 hN hf h1
  obtain ⟨_, _, _, _, _, f2, _⟩ := draw_cycle s1 r2 X Y N s2 hX16 hY16 hN hf1 h2
  have hnc : ¬ SpriteCollides s (s.V X) (s.V Y) N := by
    intro hc
    rw [if_pos hc, hv] at f1
    exact absurd f1 (by decide)
  rw [f2]
  by_cases hbit : ∃ r < N, ∃ c < 8, s.memory (s.I + r) &&& (0x80 >>> c) ≠ 0
  · rw [if_pos hbit, if_pos]
    obtain ⟨r, hr, c, hc, hb⟩ := hbit
    refine ⟨r, hr, c, hc, ?_, ?_⟩
    · rw [m1, i1]
      exact hb
    · rw [v1 X (by omega), v1 Y (by omega), g1]
      have hhit : SpriteHit s (s.V X) (s.V Y) N (s.V X + c + (s.V Y + r) * 64) :=
        ⟨r, hr, c, hc, hb, rfl⟩
      rw [if_pos hhit]
      have hne : ¬ s.gfx (s.V X + c + (s.V Y + r) * 64) = 1 :=
        fun h1 => hnc ⟨r, hr, c, hc, hb, h1⟩
      rcases hbin _ (fit1 _ hhit) with h0 | h0
      · rw [h0]
        rfl
      · exact absurd h0 hne
  · rw [if_neg hbit, if_neg]
    rintro ⟨r, hr, c, hc, hb, _⟩
    rw [m1, i1] at hb
    exact hbit ⟨r, hr, c, hc, hb⟩

/-- C15 (counterexample): D011 drawn twice at (0, 0) with sprite byte 0x80 on a
dark screen; the first draw reports VF = 0 and the second reports VF = 1. -/
theorem second_draw_counterexample :
    ∃ s1 s2, emulateCycle drawTwiceDark 0 = .ok s1 ∧ s1.V 15 = 0 ∧
      Fetches s1 0xD011 ∧ s1.V 0 = drawTwiceDark.V 0 ∧ s1.V 1 = drawTwiceDark.V 1 ∧
      s1.I = drawTwiceDark.I ∧ emulateCycle s1 0 = .ok s2 ∧ s2.V 15 = 1 :=
  ⟨_, _, rfl, by decide, by decide, by decide, by decide, by decide, rfl, by decide⟩

/-- C15 at a concrete machine: the dark screen and the sprite byte 0x80. -/
theorem second_draw_reports_collision_witness :
    (0 < 15 ∧ 1 < 15 ∧ 1 < 16 ∧ Fetches drawTwiceDark (0xD000 + 256 * 0 + 16 * 1 + 1) ∧
      (∀ j < 2048, drawTwiceDark.gfx j = 0 ∨ drawTwiceDark.gfx j = 1)) ∧
    ∃ s1 s2, emulateCycle drawTwiceDark 0 = .ok s1 ∧ s1.V 15 = 0 ∧
      Fetches s1 (0xD000 + 256 * 0 + 16 * 1 + 1) ∧ emulateCycle s1 0 = .ok s2 ∧
      s2.V 15 = 1 := by
  have hbin : ∀ j < 2048, drawTwiceDark.gfx j = 0 ∨ drawTwiceDark.gfx j = 1 :=
    fun j hj => Or.inl (if_pos hj)
  refine ⟨⟨by decide, by decide, by decide, by decide, hbin⟩, _, _, rfl, by decide, by decide,
    rfl, ?_⟩
  exact (second_draw_reports_collision drawTwiceDark _ _ 0 0 0 1 1 (by decide) (by decide)
    (by decide) (by decide) hbin rfl (by decide) (by decide) rfl).trans (by decide)


/-! ## Screen, reset, loading and shifts (C16 to C20) -/

theorem dispatch_familyD (s : Chip8) (rnd : Nat) (h : s.opcode &&& 0xF000 = 0xD000) :
    dispatch s rnd = (execD s).map (fun r => (Flow.next, r)) := by
  refine dispatch_cases s rnd (fun r => r = (execD s).map (fun r => (Flow.next, r)))
    ?_ ?_ ?_ ?_ ?_ ?_ ?_ ?_ ?_ ?_ ?_ ?_ ?_ ?_ ?_ ?_
  all_goals first
    | (intro h'
       rw [h] at h'
       exact absurd h' (by decide))
    | (intro _
       rfl)

/-- A completed DXYN leaves each cell as it was or toggled. -/
theorem execD_gfx (s t : Chip8) (h : execD s = .ok t) :
    ∀ j, t.gfx j = s.gfx j ∨ t.gfx j = s.gfx j ^^^ 1 := by
  obtain ⟨v, hv, e⟩ := bind_ok h
  cases e
  intro j
  have hg := drawRows_gfx _ _ _ _ v hv j
  show v.gfx j = s.gfx j ∨ v.gfx j = s.gfx j ^^^ 1
  rw [hg]
  split_ifs
  · exact Or.inr rfl
  · exact Or.inl rfl

/-- What a completed cycle does to the screen, by the fetched word: nothing
unless the word is decoded as clear-screen or draw-sprite; a clear-screen
zeroes the 2048 cells and raises the dirty flag; a draw-sprite leaves each cell
as it was or toggled and raises the dirty flag. -/
theorem cycle_screen (s : Chip8) (rnd w : Nat) (t : Chip8) (hf : Fetches s w)
    (h : emulateCycle s rnd = .ok t) :
    (¬ TouchesScreen w → t.gfx = s.gfx ∧ t.draw_flag = s.draw_flag) ∧
    (w &&& 0xF000 = 0x0000 → w &&& 0x000F = 0x0000 →
      (∀ j < 2048, t.gfx j = 0) ∧ t.draw_flag = true) ∧
    (w &&& 0xF000 = 0xD000 →
      (∀ j, t.gfx j = s.gfx j ∨ t.gfx j = s.gfx j ^^^ 1) ∧ t.draw_flag = true) := by
  rw [emulateCycle_of_fetches rnd hf] at h
  obtain ⟨r, hr, e⟩ := bind_ok h
  obtain ⟨f, u⟩ := r
  have ht : t.gfx = u.gfx ∧ t.draw_flag = u.draw_flag := by
    cases f with
    | next =>
      cases e
      exact ⟨timers_gfx u, timers_draw_flag u⟩
    | ret =>
      cases e
      exact ⟨rfl, rfl⟩
  rw [ht.1, ht.2]
  refine ⟨fun hn => ?_, fun h0 hz => ?_, fun hD => ?_⟩
  · exact (dispatch_frame { s with opcode := w } rnd f u hr).2.1 hn
  · rw [dispatch_family0 { s with opcode := w } rnd h0] at hr
    obtain ⟨a, ha, e2⟩ := map_ok hr
    cases e2
    exact (exec0_frame { s with opcode := w } _ ha).2.2.2.2 hz
  · rw [dispatch_familyD { s with opcode := w } rnd hD] at hr
    obtain ⟨a, ha, e2⟩ := map_ok hr
    cases e2
    exact ⟨execD_gfx { s with opcode := w } _ ha,
      (execD_frame { s with opcode := w } _ ha).2.2.2.2.2⟩

/-- C16 (as the code behaves): a cycle that completes changes the dirty flag
or a frame-buffer cell only if the fetched word has top nibble 0 and low
nibble 0 (00E0 and every other word 0??0, all decoded as clear-screen) or has
the form DXYN; for every other word the dirty flag and every cell are
unchanged.  A word 0??0 zeroes the 2048 cells and raises the dirty flag; a
word DXYN raises the dirty flag. -/
theorem screen_changed_only_by_clear_or_draw (s : Chip8) (rnd w : Nat) (t : Chip8)
    (hf : Fetches s w) (h : emulateCycle s rnd = .ok t) :
    (¬ ((w &&& 0xF000 = 0x0000 ∧ w &&& 0x000F = 0x0000) ∨ w &&& 0xF000 = 0xD000) →
      t.gfx = s.gfx ∧ t.draw_flag = s.draw_flag) ∧
    (w &&& 0xF000 = 0x0000 → w &&& 0x000F = 0x0000 →
      (∀ j < 2048, t.gfx j = 0) ∧ t.draw_flag = true) ∧
    (w &&& 0xF000 = 0xD000 → t.draw_flag = true) := by
  obtain ⟨a, b, c⟩ := cycle_screen s rnd w t hf h
  exact ⟨a, b, fun hD => (c hD).2⟩

/-- C16 (counterexample): the word 0000, which is not 00E0 and has top nibble
0, clears the lit cell 5 and raises the dirty flag. -/
theorem screen_changed_counterexample :
    Fetches zeroWordLit 0x0000 ∧ zeroWordLit.gfx 5 = 1 ∧ zeroWordLit.draw_flag = false ∧
    ∃ t, emulateCycle zeroWordLit 0 = .ok t ∧ t.gfx 5 = 0 ∧ t.draw_flag = true :=
  ⟨by decide, rfl, rfl, _, rfl, by decide, by decide⟩

/-- C16 at concrete machines: 6A07 leaves the lit cell and the dirty flag as
they were; 0000 clears the cell and raises the flag. -/
theorem screen_changed_only_by_clear_or_draw_witness :
    (Fetches loadImmediateLit 0x6A07 ∧
      ¬ ((0x6A07 &&& 0xF000 = 0x0000 ∧ 0x6A07 &&& 0x000F = 0x0000) ∨
        0x6A07 &&& 0xF000 = 0xD000) ∧
      ∃ t, emulateCycle loadImmediateLit 0 = .ok t ∧ t.gfx 5 = 1 ∧ t.draw_flag = false) ∧
    (Fetches zeroWordLit 0x0000 ∧ 0x0000 &&& 0xF000 = 0x0000 ∧ 0x0000 &&& 0x000F = 0x0000 ∧
      ∃ t, emulateCycle zeroWordLit 0 = .ok t ∧ t.gfx 5 = 0 ∧ t.draw_flag = true) := by
  refine ⟨⟨by decide, by decide, _, rfl, ?_, ?_⟩, ⟨by decide, by decide, by decide, _, rfl, ?_, ?_⟩⟩
  · have h := ((screen_changed_only_by_clear_or_draw loadImmediateLit 0 0x6A07 _ (by decide)
      rfl).1 (by decide)).1
    rw [h]
    rfl
  · have h := ((screen_changed_only_by_clear_or_draw loadImmediateLit 0 0x6A07 _ (by decide)
      rfl).1 (by decide)).2
    rw [h]
    rfl
  · exact ((screen_changed_only_by_clear_or_draw zeroWordLit 0 0x0000 _ (by decide)
      rfl).2.1 (by decide) (by decide)).1 5 (by decide)
  · exact ((screen_changed_only_by_clear_or_draw zeroWordLit 0 0x0000 _ (by decide)
      rfl).2.1 (by decide) (by decide)).2

/-- C17: after `init`, whatever the machine was before, PC = 0x200, I = 0,
stack pointer = 0, both timers are 0, the 16 registers, the 16 stack entries
and the 16 key flags are 0, the 2048 frame-buffer cells are 0, Memory[i] is
byte i of the 80-byte font table for i in 0x000..0x04F and Memory[i] = 0 for i
in 0x050..0xFFF. -/
theorem reset_state (s : Chip8) :
    (init s).pc = 0x200 ∧ (init s).I = 0 ∧ (init s).sp = 0 ∧
    (init s).delay_timer = 0 ∧ (init s).sound_timer = 0 ∧
    (∀ i < 16, (init s).V i = 0) ∧
    (∀ i < 16, (init s).stack i = 0) ∧
    (∀ i < 16, (init s).key i = 0) ∧
    (∀ i < 2048, (init s).gfx i = 0) ∧
    chip8_fontset.length = 80 ∧
    (∀ i < 80, (init s).memory i = chip8_fontset.getD i 0) ∧
    (∀ i, 0x050 ≤ i → i ≤ 0xFFF → (init s).memory i = 0) := by
  refine ⟨rfl, rfl, rfl, rfl, rfl, fun i hi => ?_, fun i hi => ?_, fun i hi => ?_,
    fun i hi => ?_, rfl, fun i hi => ?_, fun i h1 h2 => ?_⟩
  · show (if i < 16 then 0 else s.V i) = 0
    rw [if_pos hi]
  · show (if i < 16 then 0 else s.stack i) = 0
    rw [if_pos hi]
  · show (if i < 16 then 0 else s.key i) = 0
    rw [if_pos hi]
  · show (if i < 2048 then 0 else s.gfx i) = 0
    rw [if_pos hi]
  · show (if i < 80 then chip8_fontset.getD i 0 else if i < 4096 then 0 else s.memory i) = _
    rw [if_pos hi]
  · show (if i < 80 then chip8_fontset.getD i 0 else if i < 4096 then 0 else s.memory i) = 0
    rw [if_neg (by omega), if_pos (by omega)]

/-- C17 at a concrete machine: reset of a machine about to draw, whose cell 61
was lit; the glyph "0" occupies the first five bytes of memory. -/
theorem reset_state_witness :
    drawTwice.gfx 61 = 1 ∧ drawTwice.I = 0x204 ∧
    (init drawTwice).pc = 0x200 ∧ (init drawTwice).I = 0 ∧ (init drawTwice).gfx 61 = 0 ∧
    (init drawTwice).memory 0 = 0xF0 ∧ (init drawTwice).memory 1 = 0x90 ∧
    (init drawTwice).memory 4 = 0xF0 ∧ (init drawTwice).memory 79 = 0x80 ∧
    (init drawTwice).memory 80 = 0 ∧ (init drawTwice).memory 0x200 = 0 :=
  ⟨rfl, rfl, (reset_state drawTwice).1, (reset_state drawTwice).2.1,
    (reset_state drawTwice).2.2.2.2.2.2.2.2.1 61 (by decide),
    ((reset_state drawTwice).2.2.2.2.2.2.2.2.2.2.1 0 (by decide)).trans rfl,
    ((reset_state drawTwice).2.2.2.2.2.2.2.2.2.2.1 1 (by decide)).trans rfl,
    ((reset_state drawTwice).2.2.2.2.2.2.2.2.2.2.1 4 (by decide)).trans rfl,
    ((reset_state drawTwice).2.2.2.2.2.2.2.2.2.2.1 79 (by decide)).trans rfl,
    (reset_state drawTwice).2.2.2.2.2.2.2.2.2.2.2 80 (by decide) (by decide),
    (reset_state drawTwice).2.2.2.2.2.2.2.2.2.2.2 0x200 (by decide) (by decide)⟩

/-- What `load` does with an image that was read: it is accepted exactly when
its length is below 3584; an accepted image is copied to 0x200 onwards over the
reset memory, a rejected one leaves the machine as reset. -/
theorem load_spec (s : Chip8) (rom : List Nat) :
    ((load s (some rom)).1 = true ↔ rom.length < 3584) ∧
    (rom.length < 3584 →
      (∀ i < rom.length, (load s (some rom)).2.memory (0x200 + i) = rom.getD i 0 % 256) ∧
      (∀ j, j < 0x200 ∨ 0x200 + rom.length ≤ j →
        (load s (some rom)).2.memory j = (init s).memory j)) ∧
    (3584 ≤ rom.length → load s (some rom) = (false, init s)) := by
  by_cases h : 4096 - 512 > rom.length
  · have hlt : rom.length < 3584 := h
    refine ⟨⟨fun _ => hlt, fun _ => ?_⟩, fun _ => ⟨fun i hi => ?_, fun j hj => ?_⟩,
      fun hge => absurd hlt (Nat.not_lt.mpr hge)⟩
    · simp only [load, h, if_true]
    · simp only [load, h, if_true]
      have hc : 512 ≤ 0x200 + i ∧ 0x200 + i < 512 + rom.length := by omega
      rw [if_pos hc]
      have : 0x200 + i - 512 = i := by omega
      rw [this]
    · simp only [load, h, if_true]
      have hc : ¬ (512 ≤ j ∧ j < 512 + rom.length) := by omega
      rw [if_neg hc]
  · have hge : 3584 ≤ rom.length := by omega
    refine ⟨⟨fun ht => ?_, fun hlt => absurd hlt (Nat.not_lt.mpr hge)⟩,
      fun hlt => absurd hlt (Nat.not_lt.mpr hge), fun _ => ?_⟩
    · simp only [load, h, if_false] at ht
      exact absurd ht (by decide)
    · simp only [load, h, if_false]

/-- C18 (evaluation at the failing input): an image of exactly 3584 bytes ends
at address 0x200 + 3584 = 4096, the end of memory, and `load` returns false
for it; an image of 3583 bytes is accepted. -/
theorem load_rejects_image_of_3584_bytes :
    (List.replicate 3584 0xAA).length = 3584 ∧ 0x200 + 3584 = 4096 ∧
    (load blank (some (List.replicate 3584 0xAA))).1 = false ∧
    (load blank (some (List.replicate 3583 0xAA))).1 = true := by
  refine ⟨List.length_replicate _ _, rfl, ?_, ?_⟩
  · have h := (load_spec blank (List.replicate 3584 0xAA)).2.2
      (by rw [List.length_replicate])
    rw [h]
  · exact (load_spec blank (List.replicate 3583 0xAA)).1.mpr
      (by rw [List.length_replicate]; decide)

/-- C19: for X in 0..14 and any Y, one cycle executing 8XY6 succeeds and leaves
VF = the least-significant bit of the old VX and VX = old VX / 2; one cycle
executing 8XYE succeeds and leaves VF = old VX / 128, the most-significant bit
of an 8-bit VX, and VX = (old VX * 2) mod 256.  Neither result mentions VY: it
is not read.  PC advances by 2 and every register other than VX and VF keeps
its value. -/
theorem shift_8XY6_8XYE (s : Chip8) (rnd X Y : Nat) (hX : X < 15) (hY : Y < 16) :
    (Fetches s (0x8000 + 256 * X + 16 * Y + 6) →
      ∃ t, emulateCycle s rnd = .ok t ∧
        t.V 15 = s.V X % 2 ∧ t.V X = s.V X / 2 ∧
        t.pc = s.pc + 2 ∧ ∀ i, i ≠ X → i ≠ 15 → t.V i = s.V i) ∧
    (Fetches s (0x8000 + 256 * X + 16 * Y + 0xE) →
      ∃ t, emulateCycle s rnd = .ok t ∧
        t.V 15 = s.V X / 128 ∧ (s.V X ≤ 255 → t.V 15 ≤ 1) ∧
        t.V X = (s.V X * 2) % 256 ∧
        t.pc = s.pc + 2 ∧ ∀ i, i ≠ X → i ≠ 15 → t.V i = s.V i) := by
  have hX15 : ¬ X = 15 := by omega
  have h15X : ¬ 15 = X := by omega
  have hX16 : X < 16 := by omega
  have hand : s.V X &&& 1 = s.V X % 2 := Nat.and_one_is_mod _
  have hshr1 : s.V X >>> 1 = s.V X / 2 := by
    rw [Nat.shiftRight_eq_div_pow]
  have hshr7 : s.V X >>> 7 = s.V X / 128 := by
    rw [Nat.shiftRight_eq_div_pow]
  have hshl : s.V X <<< 1 = s.V X * 2 := by
    rw [Nat.shiftLeft_eq]
  refine ⟨fun h => ?_, fun h => ?_⟩
  · obtain ⟨d1, d2, d3, d4⟩ := decode8 hX16 hY (show 6 < 16 by decide)
    have hpc : (s.pc + 2) % 65536 = s.pc + 2 := by have := h.1; omega
    rw [emulateCycle_of_fetches rnd h]
    simp [dispatch, exec8, d1, d2, d3, d4, bind, Except.bind, advance, setV, store,
      hX15, h15X, hpc, hand, hshr1]
    intro i h1 h2
    simp [h1, h2]
  · obtain ⟨d1, d2, d3, d4⟩ := decode8 hX16 hY (show 0xE < 16 by decide)
    have hpc : (s.pc + 2) % 65536 = s.pc + 2 := by have := h.1; omega
    rw [emulateCycle_of_fetches rnd h]
    simp [dispatch, exec8, d1, d2, d3, d4, bind, Except.bind, advance, setV, store,
      hX15, h15X, hpc, hshr7, hshl]
    refine ⟨fun hle => by omega, fun i h1 h2 => by simp [h1, h2]⟩

/-- C19 at concrete machines: 8016 with V0 = 5 gives V0 = 2 and VF = 1; 801E
with V0 = 0x81 gives V0 = 2 and VF = 1. -/
theorem shift_8XY6_8XYE_witness :
    (0 < 15 ∧ 1 < 16 ∧ Fetches (loadedWith [0x80, 0x16] [5, 9] 0) (0x8000 + 256 * 0 + 16 * 1 + 6) ∧
      ∃ t, emulateCycle (loadedWith [0x80, 0x16] [5, 9] 0) 0 = .ok t ∧
        t.V 15 = 1 ∧ t.V 0 = 2 ∧ t.V 1 = 9 ∧ t.pc = 0x202) ∧
    (Fetches (loadedWith [0x80, 0x1E] [0x81, 9] 0) (0x8000 + 256 * 0 + 16 * 1 + 0xE) ∧
      ∃ t, emulateCycle (loadedWith [0x80, 0x1E] [0x81, 9] 0) 0 = .ok t ∧
        t.V 15 = 1 ∧ t.V 0 = 2 ∧ t.V 1 = 9 ∧ t.pc = 0x202) := by
  refine ⟨⟨by decide, by decide, by decide, ?_⟩, ⟨by decide, ?_⟩⟩
  · obtain ⟨t, e, h1, h2, h3, h4⟩ :=
      (shift_8XY6_8XYE (loadedWith [0x80, 0x16] [5, 9] 0) 0 0 1 (by decide) (by decide)).1
        (by decide)
    exact ⟨t, e, h1, h2, h4 1 (by decide) (by decide), h3⟩
  · obtain ⟨t, e, h1, _, h2, h3, h4⟩ :=
      (shift_8XY6_8XYE (loadedWith [0x80, 0x1E] [0x81, 9] 0) 0 0 1 (by decide) (by decide)).2
        (by decide)
    exact ⟨t, e, h1, h2, h4 1 (by decide) (by decide), h3⟩


/-! ## The fall-through from family E, the key wait and the timer writes (C21 to C23) -/

@[simp] theorem withOpcode_opcode (s : Chip8) (w : Nat) : (withOpcode s w).opcode = w := rfl

theorem emulateCycle_eq_cycleOn {s : Chip8} {w : Nat} (rnd : Nat) (h : Fetches s w) :
    emulateCycle s rnd = cycleOn s w rnd :=
  emulateCycle_of_fetches rnd h

theorem decodeE {X n : Nat} (hX : X < 16) (hn : n < 256) :
    (0xE000 + 256 * X + n) &&& 0xF000 = 0xE000 ∧
    regX (0xE000 + 256 * X + n) = X ∧
    (0xE000 + 256 * X + n) &&& 0x00FF = n := by
  rw [and_F000, regX_eq, and_00FF]
  omega

theorem dispatch_familyE (s : Chip8) (rnd : Nat) (h : s.opcode &&& 0xF000 = 0xE000) :
    dispatch s rnd = execE s >>= execF := by
  refine dispatch_cases s rnd (fun r => r = (execE s >>= execF))
    ?_ ?_ ?_ ?_ ?_ ?_ ?_ ?_ ?_ ?_ ?_ ?_ ?_ ?_ ?_ ?_
  all_goals first
    | (intro h'
       rw [h] at h'
       exact absurd h' (by decide))
    | (intro _
       rfl)

theorem dispatch_familyF (s : Chip8) (rnd : Nat) (h : s.opcode &&& 0xF000 = 0xF000) :
    dispatch s rnd = execF s := by
  refine dispatch_cases s rnd (fun r => r = execF s)
    ?_ ?_ ?_ ?_ ?_ ?_ ?_ ?_ ?_ ?_ ?_ ?_ ?_ ?_ ?_ ?_
  all_goals first
    | (intro h'
       rw [h] at h'
       exact absurd h' (by decide))
    | (intro _
       rfl)

/-- A loop whose body commutes with a change `g` of the loop state commutes
with it as a whole. -/
theorem forLoop_map {σ : Type} (g : σ → σ) (body : Nat → σ → Except Fault σ)
    (hb : ∀ i a, body i (g a) = (body i a).map g) (n : Nat) (a : σ) :
    forLoop n body (g a) = (forLoop n body a).map g := by
  induction n with
  | zero => rfl
  | succ k ih =>
    show (forLoop k body (g a) >>= body k) = (forLoop k body a >>= body k).map g
    rw [ih]
    cases forLoop k body a with
    | error e => rfl
    | ok b => exact hb k b

theorem writeMemory_withOpcode (s : Chip8) (w i v : Nat) :
    writeMemory (withOpcode s w) i v = (writeMemory s i v).map (fun t => withOpcode t w) := by
  unfold writeMemory
  split_ifs <;> rfl

theorem timers_withOpcode (s : Chip8) (w : Nat) :
    timers (withOpcode s w) = withOpcode (timers s) w := by
  unfold timers withOpcode
  dsimp only
  split_ifs <;> rfl

theorem execFX0A_withOpcode (s : Chip8) (w : Nat) (hx : regX w = regX s.opcode) :
    execFX0A (withOpcode s w) = (execFX0A s).map (fun r => (r.1, withOpcode r.2 w)) := by
  have hb : ∀ i (p : Chip8 × Bool), scanKey (regX s.opcode) i (withOpcode p.1 w, p.2) =
      (scanKey (regX s.opcode) i p).map (fun q => (withOpcode q.1 w, q.2)) := by
    intro i p
    unfold scanKey
    show (if p.1.key i ≠ 0 then _ else _) = Except.map _ (if p.1.key i ≠ 0 then _ else _)
    split_ifs <;> rfl
  have hl := forLoop_map (fun q : Chip8 × Bool => (withOpcode q.1 w, q.2))
    (scanKey (regX s.opcode)) hb 16 (s, false)
  unfold execFX0A
  show (forLoop 16 (scanKey (regX w)) (withOpcode s w, false) >>= _) = _
  rw [hx, hl]
  cases forLoop 16 (scanKey (regX s.opcode)) (s, false) with
  | error e => rfl
  | ok p =>
    obtain ⟨u, b⟩ := p
    cases b <;> rfl

theorem execFX33_withOpcode (s : Chip8) (w : Nat) (hx : regX w = regX s.opcode) :
    execFX33 (withOpcode s w) = (execFX33 s).map (fun t => withOpcode t w) := by
  unfold execFX33 writeMemory
  simp only [withOpcode, hx, bind, Except.bind]
  by_cases h0 : s.I < 4096 <;> by_cases h1 : s.I + 1 < 4096 <;>
    by_cases h2 : s.I + 2 < 4096 <;> simp [h0, h1, h2, Except.map, advance]

theorem execFX55_withOpcode (s : Chip8) (w : Nat) (hx : regX w = regX s.opcode) :
    execFX55 (withOpcode s w) = (execFX55 s).map (fun t => withOpcode t w) := by
  have hl := forLoop_map (fun t => withOpcode t w) storeReg
    (fun i a => writeMemory_withOpcode a w (a.I + i) (a.V i)) (regX s.opcode + 1) s
  show (forLoop (regX w + 1) storeReg (withOpcode s w) >>= fun s1 =>
      Except.ok (advance { s1 with I := (s1.I + (regX w + 1)) % 65536 } 2)) =
    Except.map (fun t => withOpcode t w) (forLoop (regX s.opcode + 1) storeReg s >>= fun s1 =>
      Except.ok (advance { s1 with I := (s1.I + (regX s.opcode + 1)) % 65536 } 2))
  rw [hx, hl]
  cases forLoop (regX s.opcode + 1) storeReg s with
  | error e => rfl
  | ok t => rfl

theorem execFX65_withOpcode (s : Chip8) (w : Nat) (hx : regX w = regX s.opcode) :
    execFX65 (withOpcode s w) = (execFX65 s).map (fun t => withOpcode t w) := by
  have hb : ∀ i a, loadReg i (withOpcode a w) = (loadReg i a).map (fun t => withOpcode t w) := by
    intro i a
    unfold loadReg readMemory
    show ((if a.I + i < 4096 then _ else _) >>= _) = _
    split_ifs <;> rfl
  have hl := forLoop_map (fun t => withOpcode t w) loadReg hb (regX s.opcode + 1) s
  show (forLoop (regX w + 1) loadReg (withOpcode s w) >>= fun s1 =>
      Except.ok (advance { s1 with I := (s1.I + (regX w + 1)) % 65536 } 2)) =
    Except.map (fun t => withOpcode t w) (forLoop (regX s.opcode + 1) loadReg s >>= fun s1 =>
      Except.ok (advance { s1 with I := (s1.I + (regX s.opcode + 1)) % 65536 } 2))
  rw [hx, hl]
  cases forLoop (regX s.opcode + 1) loadReg s with
  | error e => rfl
  | ok t => rfl

/-- The inner switch of `case 0xF000` uses the instruction word only through
its register selector and its low byte: on a word with the same two it does
the same to every other member. -/
theorem execF_withOpcode (s : Chip8) (w : Nat) (hx : regX w = regX s.opcode)
    (hn : w &&& 0x00FF = s.opcode &&& 0x00FF) :
    execF (withOpcode s w) = (execF s).map (fun r => (r.1, withOpcode r.2 w)) := by
  have ho : (withOpcode s w).opcode = w := rfl
  unfold execF
  simp only [ho, hn, hx]
  by_cases h07 : s.opcode &&& 0x00FF = 0x0007
  · rw [if_pos h07, if_pos h07]
    rfl
  rw [if_neg h07, if_neg h07]
  by_cases h0A : s.opcode &&& 0x00FF = 0x000A
  · rw [if_pos h0A, if_pos h0A]
    exact execFX0A_withOpcode s w hx
  rw [if_neg h0A, if_neg h0A]
  by_cases h15 : s.opcode &&& 0x00FF = 0x0015
  · rw [if_pos h15, if_pos h15]
    rfl
  rw [if_neg h15, if_neg h15]
  by_cases h18 : s.opcode &&& 0x00FF = 0x0018
  · rw [if_pos h18, if_pos h18]
    rfl
  rw [if_neg h18, if_neg h18]
  by_cases h1E : s.opcode &&& 0x00FF = 0x001E
  · rw [if_pos h1E, if_pos h1E]
    rfl
  rw [if_neg h1E, if_neg h1E]
  by_cases h29 : s.opcode &&& 0x00FF = 0x0029
  · rw [if_pos h29, if_pos h29]
    rfl
  rw [if_neg h29, if_neg h29]
  by_cases h33 : s.opcode &&& 0x00FF = 0x0033
  · rw [if_pos h33, if_pos h33, execFX33_withOpcode s w hx]
    cases execFX33 s <;> rfl
  rw [if_neg h33, if_neg h33]
  by_cases h55 : s.opcode &&& 0x00FF = 0x0055
  · rw [if_pos h55, if_pos h55, execFX55_withOpcode s w hx]
    cases execFX55 s <;> rfl
  rw [if_neg h55, if_neg h55]
  by_cases h65 : s.opcode &&& 0x00FF = 0x0065
  · rw [if_pos h65, if_pos h65, execFX65_withOpcode s w hx]
    cases execFX65 s <;> rfl
  rw [if_neg h65, if_neg h65]
  rfl

/-- The fall-through: on a word of family E whose low byte is neither 9E nor
A1 the switch does what it does on the word of family F with the same register
selector and low byte, the member `opcode` apart. -/
theorem dispatch_fallthrough (s : Chip8) (rnd w : Nat)
    (hE : s.opcode &&& 0xF000 = 0xE000)
    (h9E : s.opcode &&& 0x00FF ≠ 0x009E) (hA1 : s.opcode &&& 0x00FF ≠ 0x00A1)
    (hF : w &&& 0xF000 = 0xF000) (hx : regX w = regX s.opcode)
    (hn : w &&& 0x00FF = s.opcode &&& 0x00FF) :
    dispatch s rnd =
      (dispatch (withOpcode s w) rnd).map (fun r => (r.1, withOpcode r.2 s.opcode)) := by
  rw [dispatch_familyE s rnd hE, execE_other s h9E hA1,
    dispatch_familyF (withOpcode s w) rnd hF, execF_withOpcode s w hx hn]
  show execF s = _
  have hself := execF_withOpcode s s.opcode rfl rfl
  have hs : withOpcode s s.opcode = s := rfl
  rw [hs] at hself
  cases h : execF s with
  | error e => rfl
  | ok r =>
    rw [h] at hself
    exact hself

/-- The cycle of a machine that fetches a word of family E whose low byte is
neither 9E nor A1 is the cycle on the word of family F with the same register
selector and low byte, the member `opcode` apart. -/
theorem cycle_fallthrough (s : Chip8) (rnd X NN : Nat) (hX : X < 16) (hNN : NN < 256)
    (h9E : NN ≠ 0x9E) (hA1 : NN ≠ 0xA1) (hf : Fetches s (0xE000 + 256 * X + NN)) :
    emulateCycle s rnd =
      (cycleOn s (0xF000 + 256 * X + NN) rnd).map
        (fun t => withOpcode t (0xE000 + 256 * X + NN)) := by
  obtain ⟨e1, e2, e3⟩ := decodeE hX hNN
  obtain ⟨f1, f2, f3⟩ := decodeF hX hNN
  have hd := dispatch_fallthrough (withOpcode s (0xE000 + 256 * X + NN)) rnd
    (0xF000 + 256 * X + NN) e1 (fun h => h9E (e3.symm.trans h)) (fun h => hA1 (e3.symm.trans h))
    f1 (f2.trans e2.symm) (f3.trans e3.symm)
  rw [emulateCycle_eq_cycleOn rnd hf]
  unfold cycleOn
  rw [hd]
  show (Except.map _ (dispatch (withOpcode s (0xF000 + 256 * X + NN)) rnd) >>= _) = _
  cases dispatch (withOpcode s (0xF000 + 256 * X + NN)) rnd with
  | error e => rfl
  | ok r =>
    obtain ⟨f, u⟩ := r
    cases f with
    | next => exact congrArg Except.ok (timers_withOpcode u _)
    | ret => rfl

theorem dispatch_E_other (s : Chip8) (rnd : Nat) (hE : s.opcode &&& 0xF000 = 0xE000)
    (h9E : s.opcode &&& 0x00FF ≠ 0x009E) (hA1 : s.opcode &&& 0x00FF ≠ 0x00A1) :
    dispatch s rnd = execF s := by
  rw [dispatch_familyE s rnd hE, execE_other s h9E hA1]
  rfl

theorem execF_07 (s : Chip8) (h : s.opcode &&& 0x00FF = 0x0007) :
    execF s = .ok (.next, advance (setV s (regX s.opcode) s.delay_timer) 2) := by
  unfold execF
  dsimp only
  rw [if_pos h]

theorem execF_15 (s : Chip8) (h : s.opcode &&& 0x00FF = 0x0015) :
    execF s = .ok (.next, advance { s with delay_timer := s.V (regX s.opcode) } 2) := by
  unfold execF
  dsimp only
  rw [if_neg (by rw [h]; decide), if_neg (by rw [h]; decide), if_pos h]

theorem execF_18 (s : Chip8) (h : s.opcode &&& 0x00FF = 0x0018) :
    execF s = .ok (.next, advance { s with sound_timer := s.V (regX s.opcode) } 2) := by
  unfold execF
  dsimp only
  rw [if_neg (by rw [h]; decide), if_neg (by rw [h]; decide), if_neg (by rw [h]; decide),
    if_pos h]

theorem execF_55 (s : Chip8) (h : s.opcode &&& 0x00FF = 0x0055) :
    execF s = (execFX55 s).map (fun r => (Flow.next, r)) := by
  refine execF_elim s (fun r => r = (execFX55 s).map (fun r => (Flow.next, r)))
    ?_ ?_ ?_ ?_ ?_ ?_ ?_ ?_ ?_ ?_
  all_goals first
    | (intro h'
       rw [h] at h'
       exact absurd h' (by decide))
    | (intro _
       rfl)
    | (intro h'
       exact absurd h (by
         unfold NoCaseF at h'
         exact h'.2.2.2.2.2.2.2.1))

/-- EX9E and EXA1 with VX a key index: the inner switch of family E picks the
PC increment, and the switch of family F, entered by the fall-through, finds
no case for the low byte and changes nothing. -/
theorem dispatch_key_skip (s : Chip8) (rnd : Nat) (hE : s.opcode &&& 0xF000 = 0xE000)
    (hk : s.V (regX s.opcode) < 16) :
    (s.opcode &&& 0x00FF = 0x009E →
      dispatch s rnd = .ok (.next,
        if s.key (s.V (regX s.opcode)) ≠ 0 then advance s 4 else advance s 2)) ∧
    (s.opcode &&& 0x00FF = 0x00A1 →
      dispatch s rnd = .ok (.next,
        if s.key (s.V (regX s.opcode)) = 0 then advance s 4 else advance s 2)) := by
  constructor
  · intro h
    have hN : ∀ u : Chip8, u.opcode = s.opcode → NoCaseF u.opcode := by
      intro u hu
      unfold NoCaseF
      rw [hu, h]
      decide
    rw [dispatch_familyE s rnd hE]
    unfold execE
    rw [if_pos h]
    simp only [readKey, hk, if_true, bind, Except.bind]
    split_ifs
    · exact execF_default _ (hN _ rfl)
    · exact execF_default _ (hN _ rfl)
  · intro h
    have hN : ∀ u : Chip8, u.opcode = s.opcode → NoCaseF u.opcode := by
      intro u hu
      unfold NoCaseF
      rw [hu, h]
      decide
    rw [dispatch_familyE s rnd hE]
    unfold execE
    rw [if_neg (by rw [h]; decide), if_pos h]
    simp only [readKey, hk, if_true, bind, Except.bind]
    split_ifs
    · exact execF_default _ (hN _ rfl)
    · exact execF_default _ (hN _ rfl)

/-- C21: a cycle that fetches a word EXNN whose low byte NN is neither 9E nor
A1 ends exactly as the cycle of the same machine on the word FXNN, because
`case 0xE000` runs on into `case 0xF000`: the same fault, or the same
registers, I, PC, memory, stack, stack pointer, timers, frame buffer, key latch
and dirty flag (only the member `opcode`, which holds the word, differs).  For
example EX15 sets the delay timer to VX, which the timer update of the cycle
then lowers by one, and EX55 stores V0..VX at I onwards; EX9E and EXA1 change
nothing but the PC, the timer update of the cycle apart. -/
theorem fallthrough_E_into_F (s : Chip8) (rnd X : Nat) (hX : X < 16) :
    (∀ NN, NN < 256 → NN ≠ 0x9E → NN ≠ 0xA1 → Fetches s (0xE000 + 256 * X + NN) →
      emulateCycle s rnd =
        (cycleOn s (0xF000 + 256 * X + NN) rnd).map
          (fun t => withOpcode t (0xE000 + 256 * X + NN)) ∧
      (∀ e, cycleOn s (0xF000 + 256 * X + NN) rnd = .error e →
        emulateCycle s rnd = .error e) ∧
      (∀ u, cycleOn s (0xF000 + 256 * X + NN) rnd = .ok u →
        ∃ t, emulateCycle s rnd = .ok t ∧ t.V = u.V ∧ t.I = u.I ∧ t.pc = u.pc ∧
          t.memory = u.memory ∧ t.stack = u.stack ∧ t.sp = u.sp ∧
          t.delay_timer = u.delay_timer ∧ t.sound_timer = u.sound_timer ∧
          t.gfx = u.gfx ∧ t.key = u.key ∧ t.draw_flag = u.draw_flag)) ∧
    (Fetches s (0xE000 + 256 * X + 0x15) →
      (∃ u, dispatch (withOpcode s (0xE000 + 256 * X + 0x15)) rnd = .ok (.next, u) ∧
        u.delay_timer = s.V X) ∧
      ∃ t, emulateCycle s rnd = .ok t ∧ t.delay_timer = s.V X - 1 ∧ t.pc = s.pc + 2) ∧
    (Fetches s (0xE000 + 256 * X + 0x55) → s.I + X < 4096 →
      ∃ t, emulateCycle s rnd = .ok t ∧ ∀ i ≤ X, t.memory (s.I + i) = s.V i) ∧
    (Fetches s (0xE000 + 256 * X + 0x9E) → s.V X < 16 →
      ∃ t, emulateCycle s rnd = .ok t ∧ SameData s t ∧
        t.pc = (if s.key (s.V X) ≠ 0 then s.pc + 4 else s.pc + 2) ∧
        t.delay_timer = s.delay_timer - 1 ∧ t.sound_timer = s.sound_timer - 1) ∧
    (Fetches s (0xE000 + 256 * X + 0xA1) → s.V X < 16 →
      ∃ t, emulateCycle s rnd = .ok t ∧ SameData s t ∧
        t.pc = (if s.key (s.V X) = 0 then s.pc + 4 else s.pc + 2) ∧
        t.delay_timer = s.delay_timer - 1 ∧ t.sound_timer = s.sound_timer - 1) := by
  refine ⟨fun NN hNN h9E hA1 hf => ?_, fun hf => ?_, fun hf hI => ?_, fun hf hk => ?_,
    fun hf hk => ?_⟩
  · have heq := cycle_fallthrough s rnd X NN hX hNN h9E hA1 hf
    refine ⟨heq, fun e he => ?_, fun u hu => ?_⟩
    · rw [heq, he]
      rfl
    · rw [heq, hu]
      exact ⟨_, rfl, rfl, rfl, rfl, rfl, rfl, rfl, rfl, rfl, rfl, rfl, rfl⟩
  · obtain ⟨e1, e2, e3⟩ := decodeE hX (show 0x15 < 256 by decide)
    have hd : dispatch (withOpcode s (0xE000 + 256 * X + 0x15)) rnd = _ :=
      (dispatch_E_other _ rnd e1 (by rw [withOpcode_opcode, e3]; decide)
        (by rw [withOpcode_opcode, e3]; decide)).trans
        (execF_15 _ e3)
    refine ⟨⟨_, hd, ?_⟩, ?_⟩
    · show s.V (regX (0xE000 + 256 * X + 0x15)) = s.V X
      rw [e2]
    · rw [emulateCycle_eq_cycleOn rnd hf]
      unfold cycleOn
      rw [hd]
      refine ⟨_, rfl, ?_, ?_⟩
      · rw [timers_delay]
        show s.V (regX (0xE000 + 256 * X + 0x15)) - 1 = s.V X - 1
        rw [e2]
      · rw [timers_pc]
        show (s.pc + 2) % 65536 = s.pc + 2
        have := hf.1
        omega
  · obtain ⟨e1, e2, e3⟩ := decodeE hX (show 0x55 < 256 by decide)
    have hd : dispatch (withOpcode s (0xE000 + 256 * X + 0x55)) rnd = _ :=
      (dispatch_E_other _ rnd e1 (by rw [withOpcode_opcode, e3]; decide)
        (by rw [withOpcode_opcode, e3]; decide)).trans
        (execF_55 _ e3)
    obtain ⟨v, ev, _, _, hin, _⟩ := storeLoop_spec (X + 1)
      (withOpcode s (0xE000 + 256 * X + 0x55)) (show s.I + (X + 1) ≤ 4096 by omega)
    have h55 : execFX55 (withOpcode s (0xE000 + 256 * X + 0x55)) =
        .ok (advance { v with I := (v.I + (X + 1)) % 65536 } 2) := by
      unfold execFX55
      show (forLoop (regX (0xE000 + 256 * X + 0x55) + 1) storeReg _ >>= _) = _
      rw [e2, ev]
      show Except.ok (advance { v with I := (v.I +
        (regX (0xE000 + 256 * X + 0x55) + 1)) % 65536 } 2) = _
      rw [e2]
    rw [emulateCycle_eq_cycleOn rnd hf]
    unfold cycleOn
    rw [hd, h55]
    refine ⟨_, rfl, fun i hi => ?_⟩
    rw [timers_memory]
    exact hin i (by omega)
  · obtain ⟨e1, e2, e3⟩ := decodeE hX (show 0x9E < 256 by decide)
    have hd := (dispatch_key_skip (withOpcode s (0xE000 + 256 * X + 0x9E)) rnd e1
      (by rw [withOpcode_opcode, e2]; exact hk)).1 e3
    simp only [withOpcode_opcode, e2] at hd
    rw [emulateCycle_eq_cycleOn rnd hf]
    unfold cycleOn
    rw [hd]
    have hpc := hf.1
    refine ⟨_, rfl, ?_, ?_, ?_, ?_⟩
    · show SameData s (timers _)
      unfold SameData
      simp only [timers_V, timers_memory, timers_I, timers_stack, timers_sp, timers_gfx,
        timers_key, timers_draw_flag]
      split_ifs <;> exact ⟨rfl, rfl, rfl, rfl, rfl, rfl, rfl, rfl⟩
    · rw [timers_pc]
      show (if s.key (s.V X) ≠ 0 then advance (withOpcode s _) 4
        else advance (withOpcode s _) 2).pc = _
      split_ifs
      · show (s.pc + 4) % 65536 = s.pc + 4
        omega
      · show (s.pc + 2) % 65536 = s.pc + 2
        omega
    · rw [timers_delay]
      show (if s.key (s.V X) ≠ 0 then advance (withOpcode s _) 4
        else advance (withOpcode s _) 2).delay_timer - 1 = _
      split_ifs <;> rfl
    · rw [timers_sound]
      show (if s.key (s.V X) ≠ 0 then advance (withOpcode s _) 4
        else advance (withOpcode s _) 2).sound_timer - 1 = _
      split_ifs <;> rfl
  · obtain ⟨e1, e2, e3⟩ := decodeE hX (show 0xA1 < 256 by decide)
    have hd := (dispatch_key_skip (withOpcode s (0xE000 + 256 * X + 0xA1)) rnd e1
      (by rw [withOpcode_opcode, e2]; exact hk)).2 e3
    simp only [withOpcode_opcode, e2] at hd
    rw [emulateCycle_eq_cycleOn rnd hf]
    unfold cycleOn
    rw [hd]
    have hpc := hf.1
    refine ⟨_, rfl, ?_, ?_, ?_, ?_⟩
    · show SameData s (timers _)
      unfold SameData
      simp only [timers_V, timers_memory, timers_I, timers_stack, timers_sp, timers_gfx,
        timers_key, timers_draw_flag]
      split_ifs <;> exact ⟨rfl, rfl, rfl, rfl, rfl, rfl, rfl, rfl⟩
    · rw [timers_pc]
      show (if s.key (s.V X) = 0 then advance (withOpcode s _) 4
        else advance (withOpcode s _) 2).pc = _
      split_ifs
      · show (s.pc + 4) % 65536 = s.pc + 4
        omega
      · show (s.pc + 2) % 65536 = s.pc + 2
        omega
    · rw [timers_delay]
      show (if s.key (s.V X) = 0 then advance (withOpcode s _) 4
        else advance (withOpcode s _) 2).delay_timer - 1 = _
      split_ifs <;> rfl
    · rw [timers_sound]
      show (if s.key (s.V X) = 0 then advance (withOpcode s _) 4
        else advance (withOpcode s _) 2).sound_timer - 1 = _
      split_ifs <;> rfl

/-- C21 at concrete machines: E015 with V0 = 9 ends with delay timer 8, as the
cycle on F015 does, the two results differing in `opcode` only; E155 with
V0 = 7, V1 = 8 and I = 0x300 stores 7 and 8 at 0x300 and 0x301. -/
theorem fallthrough_E_into_F_witness :
    (0 < 16 ∧ Fetches strayTimerSet (0xE000 + 256 * 0 + 0x15) ∧
      ∃ t u, emulateCycle strayTimerSet 0 = .ok t ∧
        cycleOn strayTimerSet (0xF000 + 256 * 0 + 0x15) 0 = .ok u ∧
        t.delay_timer = 8 ∧ u.delay_timer = 8 ∧ t.pc = u.pc ∧ t.V = u.V ∧
        u.opcode = 0xF015) ∧
    (1 < 16 ∧ Fetches strayStore (0xE000 + 256 * 1 + 0x55) ∧ strayStore.I + 1 < 4096 ∧
      ∃ t, emulateCycle strayStore 0 = .ok t ∧ t.memory 0x300 = 7 ∧ t.memory 0x301 = 8) := by
  refine ⟨⟨by decide, by decide, ?_⟩, ⟨by decide, by decide, by decide, ?_⟩⟩
  · obtain ⟨_, _, hok⟩ := (fallthrough_E_into_F strayTimerSet 0 0 (by decide)).1 0x15
      (by decide) (by decide) (by decide) (by decide)
    obtain ⟨t, e, hV, _, hpc, _, _, _, hd, _⟩ := hok _ rfl
    exact ⟨t, _, e, rfl, hd.trans (by decide), by decide, hpc, hV, by decide⟩
  · obtain ⟨t, e, hm⟩ := (fallthrough_E_into_F strayStore 0 1 (by decide)).2.2.1
      (by decide) (by decide)
    exact ⟨t, e, (hm 0 (by decide)).trans (by decide), (hm 1 (by decide)).trans (by decide)⟩

/-- C22: with all sixteen key flags 0, one cycle executing FX0A succeeds and
leaves PC, every register, I, memory, stack, stack pointer, frame buffer, dirty
flag, key latch and both timers as they were (no timer update is performed);
the only member written is `opcode`, which receives the fetched word.  The
resulting machine is a fixed point of the cycle, and any number of cycles
leaves the machine there. -/
theorem key_wait_without_key_fixed_point (s : Chip8) (rnd : Nat → Nat) (r0 X : Nat)
    (hX : X < 16) (hf : Fetches s (0xF000 + 256 * X + 0x0A))
    (hk : ∀ i < 16, s.key i = 0) :
    emulateCycle s r0 = .ok (withOpcode s (0xF000 + 256 * X + 0x0A)) ∧
    (∃ t, emulateCycle s r0 = .ok t ∧ t.pc = s.pc ∧ t.V = s.V ∧ t.I = s.I ∧
      t.memory = s.memory ∧ t.stack = s.stack ∧ t.sp = s.sp ∧ t.gfx = s.gfx ∧
      t.draw_flag = s.draw_flag ∧ t.key = s.key ∧ t.delay_timer = s.delay_timer ∧
      t.sound_timer = s.sound_timer ∧ ∀ r, emulateCycle t r = .ok t) ∧
    (∀ n, 0 < n → run rnd n s = .ok (withOpcode s (0xF000 + 256 * X + 0x0A))) := by
  obtain ⟨d1, _, d3⟩ := decodeF hX (show 0x0A < 256 by decide)
  have step : ∀ (u : Chip8) (r : Nat), Fetches u (0xF000 + 256 * X + 0x0A) →
      (∀ i < 16, u.key i = 0) →
      emulateCycle u r = .ok (withOpcode u (0xF000 + 256 * X + 0x0A)) := by
    intro u r hfu hku
    rw [emulateCycle_eq_cycleOn r hfu]
    unfold cycleOn
    rw [dispatch_wait _ r ⟨Or.inr d1, d3⟩,
      execFX0A_nokey (withOpcode u (0xF000 + 256 * X + 0x0A)) hku]
    rfl
  have hfixed : ∀ r, emulateCycle (withOpcode s (0xF000 + 256 * X + 0x0A)) r =
      .ok (withOpcode s (0xF000 + 256 * X + 0x0A)) :=
    fun r => step (withOpcode s (0xF000 + 256 * X + 0x0A)) r hf hk
  refine ⟨step s r0 hf hk,
    ⟨_, step s r0 hf hk, rfl, rfl, rfl, rfl, rfl, rfl, rfl, rfl, rfl, rfl, rfl, hfixed⟩, ?_⟩
  intro n hn
  induction n with
  | zero => exact absurd hn (Nat.lt_irrefl 0)
  | succ k ih =>
    show (run rnd k s >>= fun t => emulateCycle t (rnd k)) = _
    rcases Nat.eq_zero_or_pos k with h0 | hpos
    · subst h0
      exact step s (rnd 0) hf hk
    · rw [ih hpos]
      exact hfixed (rnd k)

/-- C22 at a concrete machine: F00A with no key down, delay timer 5 and sound
timer 3; after one cycle and after four cycles PC is 0x200 and the timers are
5 and 3. -/
theorem key_wait_without_key_fixed_point_witness :
    (0 < 16 ∧ Fetches waitingNoKey (0xF000 + 256 * 0 + 0x0A) ∧
      ∀ i < 16, waitingNoKey.key i = 0) ∧
    (∃ t, emulateCycle waitingNoKey 0 = .ok t ∧ t.pc = 0x200 ∧ t.delay_timer = 5 ∧
      t.sound_timer = 3 ∧ emulateCycle t 0 = .ok t) ∧
    (∃ t, run (fun _ => 0) 4 waitingNoKey = .ok t ∧ t.pc = 0x200 ∧ t.delay_timer = 5 ∧
      t.sound_timer = 3) := by
  refine ⟨⟨by decide, by decide, by decide⟩, ?_, ?_⟩
  · obtain ⟨t, e, hpc, _, _, _, _, _, _, _, _, hd, hs, hfix⟩ :=
      (key_wait_without_key_fixed_point waitingNoKey (fun _ => 0) 0 0 (by decide) (by decide)
        (by decide)).2.1
    exact ⟨t, e, hpc.trans rfl, hd.trans rfl, hs.trans rfl, hfix 0⟩
  · exact ⟨_, (key_wait_without_key_fixed_point waitingNoKey (fun _ => 0) 0 0 (by decide)
      (by decide) (by decide)).2.2 4 (by decide), rfl, rfl, rfl⟩

/-- C23: one cycle executing FX15 succeeds and leaves the delay timer at
VX - 1 when VX > 0 and at 0 when VX = 0, so for VX > 0 never at VX itself: the
timer update of the same cycle acts on the value just written.  Likewise the
sound timer after FX18.  One cycle executing FX07 stores in VX the value the
delay timer had before the cycle, and the timer update then lowers the delay
timer. -/
theorem timer_written_then_decremented (s : Chip8) (rnd X : Nat) (hX : X < 16) :
    (Fetches s (0xF000 + 256 * X + 0x15) →
      ∃ t, emulateCycle s rnd = .ok t ∧
        t.delay_timer = (if s.V X > 0 then s.V X - 1 else 0) ∧
        (s.V X > 0 → t.delay_timer ≠ s.V X) ∧
        t.sound_timer = s.sound_timer - 1 ∧ t.pc = s.pc + 2) ∧
    (Fetches s (0xF000 + 256 * X + 0x18) →
      ∃ t, emulateCycle s rnd = .ok t ∧
        t.sound_timer = (if s.V X > 0 then s.V X - 1 else 0) ∧
        (s.V X > 0 → t.sound_timer ≠ s.V X) ∧
        t.delay_timer = s.delay_timer - 1 ∧ t.pc = s.pc + 2) ∧
    (Fetches s (0xF000 + 256 * X + 0x07) →
      ∃ t, emulateCycle s rnd = .ok t ∧ t.V X = s.delay_timer ∧
        t.delay_timer = (if s.delay_timer > 0 then s.delay_timer - 1 else 0) ∧
        (∀ i, i ≠ X → t.V i = s.V i) ∧ t.pc = s.pc + 2) := by
  refine ⟨fun hf => ?_, fun hf => ?_, fun hf => ?_⟩
  · obtain ⟨d1, d2, d3⟩ := decodeF hX (show 0x15 < 256 by decide)
    have hd := (dispatch_familyF (withOpcode s (0xF000 + 256 * X + 0x15)) rnd d1).trans
      (execF_15 _ d3)
    simp only [withOpcode_opcode, d2] at hd
    have hpc := hf.1
    rw [emulateCycle_eq_cycleOn rnd hf]
    unfold cycleOn
    rw [hd]
    refine ⟨_, rfl, ?_, ?_, ?_, ?_⟩
    · rw [timers_delay]
      show s.V X - 1 = _
      split_ifs <;> omega
    · intro hpos
      rw [timers_delay]
      show s.V X - 1 ≠ s.V X
      omega
    · rw [timers_sound]
      rfl
    · rw [timers_pc]
      show (s.pc + 2) % 65536 = s.pc + 2
      omega
  · obtain ⟨d1, d2, d3⟩ := decodeF hX (show 0x18 < 256 by decide)
    have hd := (dispatch_familyF (withOpcode s (0xF000 + 256 * X + 0x18)) rnd d1).trans
      (execF_18 _ d3)
    simp only [withOpcode_opcode, d2] at hd
    have hpc := hf.1
    rw [emulateCycle_eq_cycleOn rnd hf]
    unfold cycleOn
    rw [hd]
    refine ⟨_, rfl, ?_, ?_, ?_, ?_⟩
    · rw [timers_sound]
      show s.V X - 1 = _
      split_ifs <;> omega
    · intro hpos
      rw [timers_sound]
      show s.V X - 1 ≠ s.V X
      omega
    · rw [timers_delay]
      rfl
    · rw [timers_pc]
      show (s.pc + 2) % 65536 = s.pc + 2
      omega
  · obtain ⟨d1, d2, d3⟩ := decodeF hX (show 0x07 < 256 by decide)
    have hd := (dispatch_familyF (withOpcode s (0xF000 + 256 * X + 0x07)) rnd d1).trans
      (execF_07 _ d3)
    simp only [withOpcode_opcode, d2] at hd
    have hpc := hf.1
    rw [emulateCycle_eq_cycleOn rnd hf]
    unfold cycleOn
    rw [hd]
    refine ⟨_, rfl, ?_, ?_, ?_, ?_⟩
    · rw [timers_V]
      show store s.V X s.delay_timer X = s.delay_timer
      simp [store]
    · rw [timers_delay]
      show s.delay_timer - 1 = _
      split_ifs <;> omega
    · intro i hi
      rw [timers_V]
      show store s.V X s.delay_timer i = s.V i
      simp [store, hi]
    · rw [timers_pc]
      show (s.pc + 2) % 65536 = s.pc + 2
      omega

/-- C23 at concrete machines: F015 with V0 = 9 leaves delay timer 8; F018 with
V0 = 1 leaves sound timer 0; F207 with delay timer 5 leaves V2 = 5 and delay
timer 4. -/
theorem timer_written_then_decremented_witness :
    (0 < 16 ∧ Fetches setDelay (0xF000 + 256 * 0 + 0x15) ∧ setDelay.V 0 = 9 ∧
      ∃ t, emulateCycle setDelay 0 = .ok t ∧ t.delay_timer = 8) ∧
    (Fetches setSound (0xF000 + 256 * 0 + 0x18) ∧ setSound.V 0 = 1 ∧
      ∃ t, emulateCycle setSound 0 = .ok t ∧ t.sound_timer = 0) ∧
    (2 < 16 ∧ Fetches readDelay (0xF000 + 256 * 2 + 0x07) ∧ readDelay.delay_timer = 5 ∧
      ∃ t, emulateCycle readDelay 0 = .ok t ∧ t.V 2 = 5 ∧ t.delay_timer = 4) := by
  refine ⟨⟨by decide, by decide, rfl, ?_⟩, ⟨by decide, rfl, ?_⟩, ⟨by decide, by decide, rfl, ?_⟩⟩
  · obtain ⟨t, e, hd, _⟩ := (timer_written_then_decremented setDelay 0 0 (by decide)).1
      (by decide)
    exact ⟨t, e, hd.trans (by decide)⟩
  · obtain ⟨t, e, hs, _⟩ := (timer_written_then_decremented setSound 0 0 (by decide)).2.1
      (by decide)
    exact ⟨t, e, hs.trans (by decide)⟩
  · obtain ⟨t, e, hv, hd, _⟩ := (timer_written_then_decremented readDelay 0 2 (by decide)).2.2
      (by decide)
    exact ⟨t, e, hv.trans rfl, hd.trans (by decide)⟩

end Chip8Emu
